import Mathlib

/-!
# The environment manager of acyl (pkg/nitro/env/env.go)

A shallow embedding of `Manager` and its operations `create`, `update`, `delete` with the
helpers they are built from.

* Go pointers are `Option`s; dereferencing a nil pointer is a run-time panic, recorded in
  the `panicked` flag of a result together with the values the named results hold at that
  moment (the values the deferred functions see while the panic unwinds).
* Go `error` values are `GoError`, with `GoError.nil` for the nil error.
* Every interaction with a collaborator (data layer, repo client, metrics, notifier, chart
  installer, ...) is an `Effect`, recorded with its arguments and its result. An operation
  is a function from the history of state-changing effects to its result and the list of
  effects it emits, in order.
* Collaborators are arbitrary deterministic functions of that history: what a call answers
  may depend on every state-changing call made before it. Queries, log lines, metrics and
  tracing spans are recorded but are not part of the history the collaborators see.
-/

set_option linter.unusedTactic false
set_option linter.unreachableTactic false

namespace Acyl

/-! ## Errors (github.com/pkg/errors and pkg/nitro/errors) -/

/-- Error values of the program. `fundamental` is an error made by `errors.New`,
`fmt.Errorf` or a collaborator, `withMessage` is `errors.Wrap`, `extantEnvsErr` is the
package-level sentinel (compared by identity), `ChartError` is the structured error of the
chart installer with the names of the failed resources. -/
inductive GoError where
  | nil
  | fundamental (text : String)
  | extantEnvsErr
  | withMessage (cause : GoError) (msg : String)
  | userError (cause : GoError)
  | systemError (cause : GoError)
  | ChartError (HelmError : GoError) (FailedDeployments FailedJobs FailedDaemonSets : List String)
  deriving DecidableEq

/-- The test `err != nil`. -/
def GoError.isNil : GoError → Bool
  | .nil => true
  | _ => false

/-- The function errors.Wrap: nil stays nil, any other error gets the message in front. -/
def Wrap (err : GoError) (msg : String) : GoError :=
  match err with
  | .nil => .nil
  | e => .withMessage e msg

/-- Modelled from the spec: nitroerrors.UserError (pkg/nitro/errors is not among the
sources). Tagging wraps the error without erasing the cause; a nil error stays nil. -/
def UserError (err : GoError) : GoError :=
  match err with
  | .nil => .nil
  | e => .userError e

/-- Modelled from the spec: nitroerrors.SystemError (pkg/nitro/errors is not among the
sources). Tagging wraps the error without erasing the cause; a nil error stays nil (the
last line of `delete` returns the tagged result of a successful status write). -/
def SystemError (err : GoError) : GoError :=
  match err with
  | .nil => .nil
  | e => .systemError e

/-- Modelled from the spec: nitroerrors.IsUserError. The two classes are disjoint and the
classification survives wrapping: an error is a user error when the nearest tag under its
wrapping messages is the user tag. -/
def IsUserError : GoError → Bool
  | .userError _ => true
  | .withMessage c _ => IsUserError c
  | _ => false

/-- Modelled from the spec: nitroerrors.IsSystemError, the counterpart of `IsUserError`. -/
def IsSystemError : GoError → Bool
  | .systemError _ => true
  | .withMessage c _ => IsSystemError c
  | _ => false

/-! ## Data model (pkg/models) -/

/-- Modelled from the spec: the lifecycle status of an environment record. -/
inductive EnvironmentStatus where
  | Spawned
  | Success
  | Failure
  | Destroyed
  deriving DecidableEq

/-- The input of every operation: models.RepoRevisionData. -/
structure RepoRevisionData where
  User : String
  Repo : String
  PullRequest : Nat
  SourceSHA : String
  BaseSHA : String
  SourceBranch : String
  BaseBranch : String
  SourceRef : String
  deriving DecidableEq

/-- A map from repository to git ref or commit SHA. -/
abbrev StringMap := List (String × String)

/-- The persistent environment record: models.QAEnvironment. Time stamps are numbers. -/
structure QAEnvironment where
  Name : String
  Created : Nat
  Status : EnvironmentStatus
  User : String
  Repo : String
  PullRequest : Nat
  SourceSHA : String
  BaseSHA : String
  SourceBranch : String
  BaseBranch : String
  SourceRef : String
  RefMap : StringMap
  CommitSHAMap : StringMap
  deriving DecidableEq

/-- The binding of an environment to the cluster: models.K8sEnvironment. The signature is
a byte slice. -/
structure K8sEnvironment where
  EnvName : String
  Namespace : String
  ConfigSignature : List Nat
  deriving DecidableEq

/-- A helm release of an environment: models.HelmRelease. -/
structure HelmRelease where
  Name : String
  Release : String
  deriving DecidableEq

/-- The events a notification is sent for: notifier.NotificationEvent. -/
inductive NotificationEvent where
  | CreateEnvironment
  | UpdateEnvironment
  | DestroyEnvironment
  | Success
  | Failure
  deriving DecidableEq

/-- The notification configuration of a repository: models.Notifications. -/
structure Notifications where
  Channels : List String
  Templates : List (NotificationEvent × String)
  deriving DecidableEq

/-- The resolved configuration of the triggering repository: models.RepoConfig, with the
results of its methods RefMap(), CommitSHAMap() and ConfigSignature() (a 32-byte array). -/
structure RepoConfig where
  ApplicationRepo : String
  Dependencies : List String
  Notifications : Notifications
  refMap : StringMap × GoError
  commitSHAMap : StringMap × GoError
  configSignature : List Nat
  deriving DecidableEq

/-- The zero value `&models.RepoConfig{}` that pushNotification substitutes for a nil
config; only its notifications are ever read. -/
def RepoConfig.empty : RepoConfig :=
  { ApplicationRepo := "", Dependencies := [], Notifications := { Channels := [], Templates := [] },
    refMap := ([], .nil), commitSHAMap := ([], .nil), configSignature := List.replicate 32 0 }

/-- The working set of one operation. -/
structure newEnv where
  env : Option QAEnvironment
  rc : Option RepoConfig
  deriving DecidableEq

/-- A chart location as the chart fetcher returns it: meta.ChartLocation. -/
structure MetaChartLocation where
  ChartPath : String
  VarFilePath : String
  deriving DecidableEq

/-- A chart location as the chart installer takes it: metahelm.ChartLocation. -/
structure ChartLocation where
  ChartPath : String
  VarFilePath : String
  deriving DecidableEq

/-- The argument of the chart installer: metahelm.EnvInfo. -/
structure EnvInfo where
  Env : Option QAEnvironment
  RC : Option RepoConfig
  Releases : List (String × String)
  deriving DecidableEq

/-- A commit status: ghclient.CommitStatus. -/
structure CommitStatus where
  Context : String
  Status : String
  Description : String
  TargetURL : String
  deriving DecidableEq

/-- The context an external call is made with: the context of the operation (cancelled
with it) or context.Background(). -/
inductive Ctx where
  | operation
  | background
  deriving DecidableEq

/-- The three operations, naming the place of a pre-flight cancellation check. -/
inductive Op where
  | create
  | update
  | delete
  deriving DecidableEq

/-- The metrics of the manager, all with the name prefix "env.". -/
inductive Metric where
  | lock_wait
  | lock_preempt
  | operation
  | create
  | update
  | delete
  | process_config
  | fetch_helm_charts
  | dependencies
  | create_errors
  | update_create
  | update_in_place
  | update_tear_down
  | delete_namespace_duration
  | failure_reports
  | s3_failure_report_push
  deriving DecidableEq

/-- The text of the ErrorMessage of a notification: empty, a literal followed by the text
of an error, or a literal followed by a link. -/
inductive ErrorMessage where
  | empty
  | error (pfx : String) (err : GoError)
  | link (pfx : String) (url : String)
  deriving DecidableEq

/-- The commit message of a notification: the message, or the placeholder naming the error
of the lookup. -/
inductive CommitMessage where
  | text (msg : String)
  | errorGetting (err : GoError)
  deriving DecidableEq

/-- The namespace of a notification: the namespace or one of the two placeholders. -/
inductive K8sNamespace where
  | errorGetting (err : GoError)
  | notFound
  | name (ns : String)
  deriving DecidableEq

/-- The payload of a notification: models.NotificationData. -/
structure NotificationData where
  EnvName : String
  Repo : String
  SourceBranch : String
  SourceSHA : String
  BaseBranch : String
  BaseSHA : String
  User : String
  PullRequest : Nat
  K8sNamespace : K8sNamespace
  CommitMessage : CommitMessage
  ErrorMessage : ErrorMessage
  deriving DecidableEq

/-- A notification: notifier.Notification. -/
structure Notification where
  Data : NotificationData
  Event : NotificationEvent
  Template : String
  deriving DecidableEq

/-- The audit lines the manager appends to a record with AddEvent. -/
inductive EventMessage where
  | webhookEventID (id : String)
  | reusingRecord (id : String)
  | mergeError (err : GoError)
  | sendError (event : NotificationEvent) (err : GoError)
  deriving DecidableEq

/-- The data the failure report is rendered from. -/
structure failureTemplateData where
  EnvName : String
  PullRequestRepo : String
  PullRequestNumber : Nat
  StartedTime : Nat
  FailedTime : Nat
  CError : GoError
  deriving DecidableEq

/-- The options of an upload to the blob store: s3.Options; the key is
KeyPrefix + "envfailures/" + the time stamp + "/" + the environment name + ".html". -/
structure S3Options where
  Region : String
  Bucket : String
  KeyBase : String
  KeyTime : Nat
  KeyEnvName : String
  Concurrency : Nat
  MaxRetries : Nat
  PresignTTLMinutes : Nat
  deriving DecidableEq

/-- The credentials of the blob store: config.AWSCreds. -/
structure AWSCreds where
  AccessKeyID : String
  SecretAccessKey : String
  deriving DecidableEq

/-- The place of the failure reports in the blob store: config.S3Config. -/
structure S3Config where
  Region : String
  Bucket : String
  KeyPfx : String
  deriving DecidableEq

/-! ## Effects -/

/-- One interaction of the manager with the outside, with its arguments and its result. -/
inductive Effect where
  | log (format : String)
  | SetEnvName (name : String)
  | Timing (name : Metric) (repo : String)
  | TimingEnd (name : Metric) (labels : List (String × Bool))
  | Increment (name : Metric) (repo : String)
  | Gauge (name : Metric) (value : Nat) (repo : String)
  | SpanStart (name : String)
  | SpanFinish (name : String) (err : GoError)
  | Done (op : Op) (cancelled : Bool)
  | GetQAEnvironmentsByRepoAndPR (repo : String) (pr : Nat) (envs : List QAEnvironment) (err : GoError)
  | GetExtantQAEnvironments (repo : String) (pr : Nat) (envs : List QAEnvironment) (err : GoError)
  | GetQAEnvironment (name : String) (env : Option QAEnvironment) (err : GoError)
  | CreateQAEnvironment (env : QAEnvironment) (err : GoError)
  | SetQAEnvironmentStatus (name : String) (status : EnvironmentStatus) (err : GoError)
  | SetQAEnvironmentRepoData (name : String) (rd : Option RepoRevisionData) (err : GoError)
  | SetQAEnvironmentCreated (name : String) (ts : Nat) (err : GoError)
  | SetQAEnvironmentRefMap (name : String) (rm : StringMap) (err : GoError)
  | SetQAEnvironmentCommitSHAMap (name : String) (csm : StringMap) (err : GoError)
  | GetK8sEnv (name : String) (k8senv : Option K8sEnvironment) (err : GoError)
  | GetHelmReleasesForEnv (name : String) (releases : List HelmRelease) (err : GoError)
  | AddEvent (name : String) (msg : EventMessage)
  | GetCommitMessage (ctx : Ctx) (repo : String) (sha : String) (msg : String) (err : GoError)
  | SetStatus (ctx : Ctx) (repo : String) (sha : String) (cs : CommitStatus) (err : GoError)
  | New (name : String) (err : GoError)
  | Get (rd : RepoRevisionData) (rc : Option RepoConfig) (err : GoError)
  | FetchCharts (rc : RepoConfig) (td : String) (cloc : List (String × MetaChartLocation)) (err : GoError)
  | tempDir (pfx : String) (td : String) (err : GoError)
  | RemoveAll (td : String)
  | BuildAndInstallCharts (envinfo : EnvInfo) (cl : List (String × ChartLocation)) (err : GoError)
  | BuildAndInstallChartsIntoExisting (envinfo : EnvInfo) (k8senv : K8sEnvironment)
      (cl : List (String × ChartLocation)) (err : GoError)
  | BuildAndUpgradeCharts (envinfo : EnvInfo) (k8senv : K8sEnvironment)
      (cl : List (String × ChartLocation)) (err : GoError)
  | DeleteReleases (k8senv : K8sEnvironment) (err : GoError)
  | DeleteNamespace (k8senv : K8sEnvironment) (err : GoError)
  | FanOut (notifications : Notifications) (user : String) (n : Notification) (err : GoError)
  | Execute (data : failureTemplateData) (html : String) (err : GoError)
  | Push (creds : AWSCreds) (contentType : String) (html : String) (opts : S3Options) (link : String)
      (err : GoError)
  | Lock (repo : String) (pr : String) (err : GoError)
  | Release (repo : String) (pr : String)
  deriving DecidableEq

/-- The effects that change the state of a collaborator (writes, installs, uploads, sent
notifications, published statuses, generated names, fetched configuration and charts, the
scratch file system, the lock). Queries of the data layer and of the repo client, log lines, metrics,
tracing spans, the cancellation check and the rendering of the report do not. -/
def Effect.visible : Effect → Bool
  | .CreateQAEnvironment .. => true
  | .SetQAEnvironmentStatus .. => true
  | .SetQAEnvironmentRepoData .. => true
  | .SetQAEnvironmentCreated .. => true
  | .SetQAEnvironmentRefMap .. => true
  | .SetQAEnvironmentCommitSHAMap .. => true
  | .AddEvent .. => true
  | .SetStatus .. => true
  | .New .. => true
  | .Get .. => true
  | .FetchCharts .. => true
  | .tempDir .. => true
  | .RemoveAll .. => true
  | .BuildAndInstallCharts .. => true
  | .BuildAndInstallChartsIntoExisting .. => true
  | .BuildAndUpgradeCharts .. => true
  | .DeleteReleases .. => true
  | .DeleteNamespace .. => true
  | .FanOut .. => true
  | .Push .. => true
  | .Lock .. => true
  | .Release .. => true
  | _ => false

/-- The history a collaborator answers from: the state-changing effects so far. -/
abbrev Hist := List Effect

/-- An operation: from the history to a result and the effects emitted, in order. -/
def M (α : Type) : Type := Hist → α × List Effect

/-- Sequencing: the second step sees the history extended by the state-changing effects of
the first. -/
def M.bind {α β : Type} (m : M α) (f : α → M β) : M β := fun h =>
  let r := m h
  let s := f r.1 (h ++ r.2.filter Effect.visible)
  (s.1, r.2 ++ s.2)

instance : Monad M where
  pure a := fun _ => (a, [])
  bind := M.bind

/-- A call of a collaborator: the answer is read off the history and recorded. -/
def call {β : Type} (answer : Hist → β) (record : β → Effect) : M β := fun h =>
  (answer h, [record (answer h)])

/-- A call without a result. -/
def emit (e : Effect) : M Unit := fun _ => ((), [e])

/-- A value read off the history without a recorded effect (the clock). -/
def ask {β : Type} (answer : Hist → β) : M β := fun h => (answer h, [])

/-! ## The manager and its collaborators -/

/-- The persistence layer: persistence.DataLayer, the methods the manager calls. -/
structure DataLayer where
  GetQAEnvironmentsByRepoAndPR : Hist → String → Nat → List QAEnvironment × GoError
  GetExtantQAEnvironments : Hist → String → Nat → List QAEnvironment × GoError
  GetQAEnvironment : Hist → String → Option QAEnvironment × GoError
  CreateQAEnvironment : Hist → QAEnvironment → GoError
  SetQAEnvironmentStatus : Hist → String → EnvironmentStatus → GoError
  SetQAEnvironmentRepoData : Hist → String → Option RepoRevisionData → GoError
  SetQAEnvironmentCreated : Hist → String → Nat → GoError
  SetQAEnvironmentRefMap : Hist → String → StringMap → GoError
  SetQAEnvironmentCommitSHAMap : Hist → String → StringMap → GoError
  GetK8sEnv : Hist → String → Option K8sEnvironment × GoError
  GetHelmReleasesForEnv : Hist → String → List HelmRelease × GoError

/-- The source-control client: ghclient.RepoClient. -/
structure RepoClient where
  GetCommitMessage : Hist → Ctx → String → String → String × GoError
  SetStatus : Hist → Ctx → String → String → CommitStatus → GoError

/-- The configuration getter and chart fetcher: meta.Getter. -/
structure Getter where
  Get : Hist → RepoRevisionData → Option RepoConfig × GoError
  FetchCharts : Hist → RepoConfig → String → List (String × MetaChartLocation) × GoError

/-- The chart installer: metahelm.Installer. -/
structure Installer where
  BuildAndInstallCharts : Hist → EnvInfo → List (String × ChartLocation) → GoError
  BuildAndInstallChartsIntoExisting :
    Hist → EnvInfo → K8sEnvironment → List (String × ChartLocation) → GoError
  BuildAndUpgradeCharts : Hist → EnvInfo → K8sEnvironment → List (String × ChartLocation) → GoError
  DeleteReleases : Hist → K8sEnvironment → GoError
  DeleteNamespace : Hist → K8sEnvironment → GoError

/-- What one invocation finds around the manager: whether the context of the operation is
cancelled, the clock, the clock rounded to the minute as the key of a failure report reads
it (`time.Now().UTC().Round(time.Minute)`, a reading of its own), the id of the event logger
of the context, and the library functions mergo.Merge (the merged destination and the
error), tempDir over the scratch file system, the upload of s3.StorageManager, and
sort.Slice by the time stamp Created. sort.Slice is not stable: all that is known of it is
that its result is a permutation of the records in ascending order of Created. -/
structure Runtime where
  Done : Hist → Bool
  now : Hist → Nat
  keyTime : Hist → Nat
  loggerID : String
  Merge : Notifications → Notifications → Notifications × GoError
  tempDir : Hist → String → String × GoError
  Push : Hist → AWSCreds → String → String → S3Options → String × GoError
  sort : List QAEnvironment → List QAEnvironment
  sort_perm : ∀ envs, (sort envs).Perm envs
  sort_sorted : ∀ envs, (sort envs).Pairwise (fun a b => a.Created ≤ b.Created)

/-- The manager: its collaborators and configuration. `NF` is the notifier factory followed
by FanOut, `NG` is the method New of the name generator, `LP` is NewPreemptiveLocker followed
by Lock on the locker of a repository and pull request (the error of Lock), `failureTemplate`
is the parsed template with its Execute. -/
structure Manager where
  NF : Option (Hist → Notifications → String → Notification → GoError)
  DefaultNotifications : Notifications
  DL : DataLayer
  RC : RepoClient
  NG : Hist → String × GoError
  LP : Hist → String → String → GoError
  MG : Getter
  CI : Installer
  AWSCreds : AWSCreds
  S3Config : S3Config
  failureTemplate : Option (failureTemplateData → String × GoError)
  RT : Runtime

/-- The zero UUID, the id of a logger that carries no webhook event. -/
def zeroUUID : String := "00000000-0000-0000-0000-000000000000"

/-- A line of the event log. -/
def log (format : String) : M Unit := emit (.log format)

/-- Whether a context is cancelled: the background context never is. -/
def ctxDone (m : Manager) : Ctx → Hist → Bool
  | .background, _ => false
  | .operation, h => m.RT.Done h

def setloggername (m : Manager) (name : String) : M Unit := do
  emit (.SetEnvName name)
  if m.RT.loggerID ≠ zeroUUID then
    emit (.AddEvent name (.webhookEventID m.RT.loggerID))
  else
    pure ()

/-- The function validContext returns ctx2 if ctx1 is cancelled, or ctx1 otherwise. -/
def validContext (m : Manager) (ctx1 ctx2 : Ctx) : M Ctx :=
  ask fun h => if ctxDone m ctx1 h then ctx2 else ctx1

/-- The commit message of a notification, from the answer of GetCommitMessage. -/
def commitMessageOf (r : String × GoError) : CommitMessage :=
  if r.2 ≠ .nil then CommitMessage.errorGetting r.2 else CommitMessage.text r.1

/-- The namespace of a notification, from the answer of GetK8sEnv. -/
def namespaceOf (k : Option K8sEnvironment × GoError) : K8sNamespace :=
  if k.2 ≠ .nil then K8sNamespace.errorGetting k.2
  else match k.1 with
    | none => K8sNamespace.notFound
    | some k8senv => K8sNamespace.name k8senv.Namespace

/-- The config of a working set, an empty one in the place of a nil config. -/
def configOf (ne : newEnv) : RepoConfig :=
  match ne.rc with
  | none => RepoConfig.empty
  | some rc => rc

/-- The function pushNotification; it returns the working set as the call leaves it (the
config filled in and the notification defaults merged into it). -/
def pushNotification (m : Manager) (ctx : Ctx) (env : Option newEnv) (event : NotificationEvent)
    (errmsg : ErrorMessage) : M (Option newEnv) :=
  match env with
  | none => do
    log "pushNotification: %v: newenv is nil"
    pure none
  | some ne =>
    match ne.env with
    | none => do
      log "pushNotification: %v: newenv.env is nil"
      pure (some ne)
    | some e => do
      let vctx ← validContext m ctx .background
      let r ← call (fun h => m.RC.GetCommitMessage h vctx e.Repo e.SourceSHA)
        (fun r => .GetCommitMessage vctx e.Repo e.SourceSHA r.1 r.2)
      (if r.2 ≠ .nil then log "error getting commit message: %v" else pure ())
      let cmsg := commitMessageOf r
      let k ← call (fun h => m.DL.GetK8sEnv h e.Name) (fun k => .GetK8sEnv e.Name k.1 k.2)
      let k8sns := namespaceOf k
      let rc0 := configOf ne
      let mg := m.RT.Merge rc0.Notifications m.DefaultNotifications
      let rc := { rc0 with Notifications := mg.1 }
      (if mg.2 ≠ .nil then do
        log "error merging notifications defaults: %v"
        emit (.AddEvent e.Name (.mergeError mg.2))
      else pure ())
      let n : Notification :=
        { Data :=
            { EnvName := e.Name, Repo := e.Repo, SourceBranch := e.SourceBranch,
              SourceSHA := e.SourceSHA, BaseBranch := e.BaseBranch, BaseSHA := e.BaseSHA,
              User := e.User, PullRequest := e.PullRequest, K8sNamespace := k8sns,
              CommitMessage := cmsg, ErrorMessage := errmsg },
          Event := event,
          Template := (rc.Notifications.Templates.lookup event).getD "" }
      match m.NF with
      | none => do
        log "notifier factory is uninitialized"
        pure (some { ne with rc := some rc })
      | some nf => do
        let err ← call (fun h => nf h rc.Notifications e.User n)
          (fun err => .FanOut rc.Notifications e.User n err)
        (if err ≠ .nil then do
          log "error sending %v notification: %v"
          emit (.AddEvent e.Name (.sendError event err))
        else pure ())
        pure (some { ne with rc := some rc })

def createPendingGithubStatus (m : Manager) (rd : RepoRevisionData) : M GoError := do
  emit (.SpanStart "create_pending_github_status")
  let cs : CommitStatus :=
    { Context := "Acyl", Status := "pending", Description := "Environment is being created",
      TargetURL := "https://media.giphy.com/media/oiymhxu13VYEo/giphy.gif" }
  let err ← call (fun h => m.RC.SetStatus h .operation rd.Repo rd.SourceSHA cs)
    (fun err => .SetStatus .operation rd.Repo rd.SourceSHA cs err)
  (if err ≠ .nil then log "error setting pending github commit status: %v" else pure ())
  emit (.SpanFinish "create_pending_github_status" err)
  pure err

def createErrorGithubStatus (m : Manager) (rd : RepoRevisionData) : M GoError := do
  let cs : CommitStatus :=
    { Context := "Acyl", Status := "failure", Description := "Error creating environment",
      TargetURL := "https://media.giphy.com/media/pyFsc5uv5WPXN9Ocki/giphy.gif" }
  let vctx ← validContext m .operation .background
  let err ← call (fun h => m.RC.SetStatus h vctx rd.Repo rd.SourceSHA cs)
    (fun err => .SetStatus vctx rd.Repo rd.SourceSHA cs err)
  (if err ≠ .nil then log "error setting failed github commit status: %v" else pure ())
  pure err

def createSuccessGithubStatus (m : Manager) (rd : RepoRevisionData) : M GoError := do
  let cs : CommitStatus :=
    { Context := "Acyl", Status := "success", Description := "Successfully created environment",
      TargetURL := "https://media.giphy.com/media/SRO0ZwmImic0/giphy.gif" }
  let err ← call (fun h => m.RC.SetStatus h .operation rd.Repo rd.SourceSHA cs)
    (fun err => .SetStatus .operation rd.Repo rd.SourceSHA cs err)
  (if err ≠ .nil then log "error setting success github commit status: %v" else pure ())
  pure err

def getRepoConfig (m : Manager) (rd : Option RepoRevisionData) : M (Option RepoConfig × GoError) :=
  match rd with
  | none => pure (none, SystemError (.fundamental "rd is nil"))
  | some rd => do
    log "fetching and processing environment config"
    emit (.Timing .process_config rd.Repo)
    let g ← call (fun h => m.MG.Get h rd) (fun g => .Get rd g.1 g.2)
    let r : Option RepoConfig × GoError ←
      if g.2 ≠ .nil then
        pure (none, Wrap (UserError g.2) "error getting metadata")
      else match g.1 with
        | none => pure (none, SystemError (.fundamental "rc is nil"))
        | some rc => do
          emit (.Gauge .dependencies rc.Dependencies.length rd.Repo)
          pure (some rc, .nil)
    emit (.TimingEnd .process_config [("success", r.2 == .nil)])
    pure r

/-- A sort by the time stamp Created, the one the concrete surroundings use for sort.Slice:
the records in ascending order of Created, records with the same time stamp in their order. -/
def sortSlice (envs : List QAEnvironment) : List QAEnvironment :=
  envs.insertionSort (fun a b => a.Created ≤ b.Created)

/-- The record `envs[len(envs)-1]` of the slice sorted by sort.Slice. It is read only when
the slice is not empty; the sorted slice is then not empty either, and the default is never
the answer. -/
def latest (m : Manager) (envs : List QAEnvironment) : QAEnvironment :=
  (m.RT.sort envs).getLastD
    { Name := "", Created := 0, Status := .Spawned, User := "", Repo := "", PullRequest := 0,
      SourceSHA := "", BaseSHA := "", SourceBranch := "", BaseBranch := "", SourceRef := "",
      RefMap := [], CommitSHAMap := [] }

/-- The body of generateNewEnv, before its deferred function. -/
def generateNewEnvBody (m : Manager) (rd : RepoRevisionData) : M (Option QAEnvironment × GoError) := do
  let q ← call (fun h => m.DL.GetQAEnvironmentsByRepoAndPR h rd.Repo rd.PullRequest)
    (fun q => .GetQAEnvironmentsByRepoAndPR rd.Repo rd.PullRequest q.1 q.2)
  if q.2 ≠ .nil then
    pure (none, Wrap q.2 "error checking for existing environment record")
  else if 0 < q.1.length then do
    -- environment record exists, reuse the latest one
    let env := latest m q.1
    log "reusing environment db record: %v"
    let err ← call (fun h => m.DL.SetQAEnvironmentStatus h env.Name .Spawned)
      (fun err => .SetQAEnvironmentStatus env.Name .Spawned err)
    if err ≠ .nil then
      pure (none, Wrap err "error setting environment status")
    else do
      emit (.AddEvent env.Name (.reusingRecord m.RT.loggerID))
      let err ← call (fun h => m.DL.SetQAEnvironmentRepoData h env.Name (some rd))
        (fun err => .SetQAEnvironmentRepoData env.Name (some rd) err)
      if err ≠ .nil then
        pure (none, Wrap err "error setting environment repo data")
      else do
        let now ← ask m.RT.now
        let err ← call (fun h => m.DL.SetQAEnvironmentCreated h env.Name now)
          (fun err => .SetQAEnvironmentCreated env.Name now err)
        if err ≠ .nil then
          pure (none, Wrap err "error setting environment created timestamp")
        else do
          let g ← call (fun h => m.DL.GetQAEnvironment h env.Name)
            (fun g => .GetQAEnvironment env.Name g.1 g.2)
          if g.2 ≠ .nil then
            pure (none, Wrap g.2 "error getting updated, reused environment record")
          else
            pure (g.1, .nil)
  else do
    -- no record exists, create a new one
    let n ← call m.NG (fun n => .New n.1 n.2)
    if n.2 ≠ .nil then
      pure (none, Wrap n.2 "error generating name")
    else do
      log "generating new environment record: %v"
      let now ← ask m.RT.now
      let env : QAEnvironment :=
        { Name := n.1, Created := now, Status := .Spawned, User := rd.User, Repo := rd.Repo,
          PullRequest := rd.PullRequest, SourceSHA := rd.SourceSHA, BaseSHA := rd.BaseSHA,
          SourceBranch := rd.SourceBranch, BaseBranch := rd.BaseBranch, SourceRef := rd.SourceRef,
          RefMap := [], CommitSHAMap := [] }
      let err ← call (fun h => m.DL.CreateQAEnvironment h env) (fun err => .CreateQAEnvironment env err)
      if err ≠ .nil then
        pure (none, Wrap err "error writing environment to db")
      else
        pure (some env, .nil)

/-- The deferred function of generateNewEnv: an error is tagged a system error. -/
def generateNewEnvDeferred (err : GoError) : GoError :=
  if err ≠ .nil then SystemError err else err

/-- The function generateNewEnv calculates the metadata for a new environment and either
creates a new environment DB record or modifies an existing one. -/
def generateNewEnv (m : Manager) (rd : RepoRevisionData) : M (Option QAEnvironment × GoError) := do
  emit (.SpanStart "generate_new_env")
  let r ← generateNewEnvBody m rd
  let err := generateNewEnvDeferred r.2
  emit (.SpanFinish "generate_new_env" err)
  pure (r.1, err)

/-- The result of processEnvConfig: whether it panicked, the working set and the error. -/
structure ConfigResult where
  panicked : Bool
  ne : Option newEnv
  err : GoError
  deriving DecidableEq

/-- The body of processEnvConfig, before its deferred function. -/
def processEnvConfigBody (m : Manager) (env : QAEnvironment) (rd : Option RepoRevisionData) :
    M ConfigResult := do
  let ne : newEnv := { env := some env, rc := none }
  let c ← getRepoConfig m rd
  if c.2 ≠ .nil then
    pure ⟨false, some ne, Wrap c.2 "error validating environment config"⟩
  else
    let ne : newEnv := { ne with rc := c.1 }
    match c.1 with
    | none => pure ⟨true, some ne, .nil⟩ -- rc.RefMap() on a nil config
    | some rc =>
      if rc.refMap.2 ≠ .nil then
        pure ⟨false, some ne, Wrap rc.refMap.2 "error generating ref map"⟩
      else if rc.commitSHAMap.2 ≠ .nil then
        pure ⟨false, some ne, Wrap rc.commitSHAMap.2 "error generating commit SHA map"⟩
      else do
        let err ← call (fun h => m.DL.SetQAEnvironmentRefMap h env.Name rc.refMap.1)
          (fun err => .SetQAEnvironmentRefMap env.Name rc.refMap.1 err)
        if err ≠ .nil then
          pure ⟨false, some ne, Wrap err "error setting environment ref map"⟩
        else do
          let err ← call (fun h => m.DL.SetQAEnvironmentCommitSHAMap h env.Name rc.commitSHAMap.1)
            (fun err => .SetQAEnvironmentCommitSHAMap env.Name rc.commitSHAMap.1 err)
          if err ≠ .nil then
            pure ⟨false, some ne, Wrap err "error setting environment commit sha map"⟩
          else do
            let err ← call (fun h => m.DL.SetQAEnvironmentRepoData h env.Name rd)
              (fun err => .SetQAEnvironmentRepoData env.Name rd err)
            if err ≠ .nil then
              pure ⟨false, some ne, Wrap err "error setting environment repo data"⟩
            else do
              let g ← call (fun h => m.DL.GetQAEnvironment h env.Name)
                (fun g => .GetQAEnvironment env.Name g.1 g.2)
              if g.2 ≠ .nil then
                pure ⟨false, some ne, Wrap g.2 "error getting updated environment record"⟩
              else
                pure ⟨false, some { ne with env := g.1 }, .nil⟩

/-- The deferred function of processEnvConfig: an error that is not a user error is tagged
a system error. -/
def processEnvConfigDeferred (err : GoError) : GoError :=
  if err ≠ .nil ∧ IsUserError err = false then SystemError err else err

/-- The function processEnvConfig fetches, parses and validates the top-level acyl.yml and
all dependencies, calculates refs and writes them to the env db record. -/
def processEnvConfig (m : Manager) (env : QAEnvironment) (rd : Option RepoRevisionData) :
    M ConfigResult := do
  emit (.SpanStart "process_env_config")
  let r ← processEnvConfigBody m env rd
  let err := processEnvConfigDeferred r.err
  emit (.SpanFinish "process_env_config" err)
  pure ⟨r.panicked, r.ne, err⟩

/-- The result of fetchCharts: whether it panicked, the scratch directory, the chart
locations and the error. -/
structure FetchResult where
  panicked : Bool
  td : String
  cloc : List (String × MetaChartLocation)
  err : GoError
  deriving DecidableEq

/-- The classification of an error of the chart fetcher: a user error unless it is a
system error. -/
def fetchChartsError (err : GoError) : GoError :=
  if IsSystemError err = false then UserError err else err

/-- The body of fetchCharts, before its deferred function. -/
def fetchChartsBody (m : Manager) (name : String) (rc : Option RepoConfig) : M FetchResult := do
  let t ← call (fun h => m.RT.tempDir h name) (fun t => .tempDir name t.1 t.2)
  if t.2 ≠ .nil then
    pure ⟨false, "", [], Wrap t.2 "error generating temp dir"⟩
  else
    match rc with
    | none => pure ⟨true, "", [], .nil⟩ -- rc.Application on a nil config
    | some rc => do
      emit (.Timing .fetch_helm_charts rc.ApplicationRepo)
      let f ← call (fun h => m.MG.FetchCharts h rc t.1) (fun f => .FetchCharts rc t.1 f.1 f.2)
      if f.2 ≠ .nil then do
        emit (.TimingEnd .fetch_helm_charts [("success", false)])
        pure ⟨false, "", [], Wrap (fetchChartsError f.2) "error fetching charts"⟩
      else do
        emit (.TimingEnd .fetch_helm_charts [("success", true)])
        pure ⟨false, t.1, f.1, .nil⟩

def fetchCharts (m : Manager) (name : String) (rc : Option RepoConfig) : M FetchResult := do
  emit (.SpanStart "fetch_charts")
  let r ← fetchChartsBody m name rc
  emit (.SpanFinish "fetch_charts" r.err)
  pure r

def chartErrorRenderHTML (m : Manager) (data : failureTemplateData) : M (String × GoError) :=
  match m.failureTemplate with
  | none => pure ("", .fundamental "failure template is uninitialized")
  | some t => do
    let x ← call (fun _ => t data) (fun x => .Execute data x.1 x.2)
    if x.2 ≠ .nil then
      pure ("", Wrap x.2 "error executing template")
    else
      pure (x.1, .nil)

/-- The function handleMetahelmError detects if the error returned by metahelm is a
ChartError and, if so, generates a failure report and writes it to S3. -/
def handleMetahelmError (m : Manager) (env : Option newEnv) (err : GoError) (msg : String) :
    M ConfigResult :=
  match err with
  | .ChartError HelmError FailedDeployments FailedJobs FailedDaemonSets =>
    if FailedDeployments.length = 0 ∧ FailedJobs.length = 0 ∧ FailedDaemonSets.length = 0 then
      -- if there is no failed resources, just return the inner helm error
      pure ⟨false, env, UserError HelmError⟩
    else
      match env with
      | none => pure ⟨true, env, .nil⟩
      | some ne =>
        match ne.env with
        | none => pure ⟨true, env, .nil⟩
        | some e => do
          emit (.Increment .failure_reports e.Repo)
          -- only push to S3 if bucket and region are defined
          if m.S3Config.Bucket ≠ "" ∧ m.S3Config.Region ≠ "" then do
            let failed ← ask m.RT.now
            let ftd : failureTemplateData :=
              { EnvName := e.Name, PullRequestRepo := e.Repo, PullRequestNumber := e.PullRequest,
                StartedTime := e.Created, FailedTime := failed, CError := err }
            let html ← chartErrorRenderHTML m ftd
            if html.2 ≠ .nil then do
              log "error rendering failure template HTML: %v"
              pure ⟨false, env, Wrap (SystemError err) msg⟩
            else do
              log "pushing environment failure report to S3"
              emit (.Timing .s3_failure_report_push e.Repo)
              let now ← ask m.RT.keyTime
              let opts : S3Options :=
                { Region := m.S3Config.Region, Bucket := m.S3Config.Bucket,
                  KeyBase := m.S3Config.KeyPfx ++ "envfailures/", KeyTime := now,
                  KeyEnvName := e.Name, Concurrency := 10, MaxRetries := 3,
                  PresignTTLMinutes := 60 * 24 }
              let p ← call (fun h => m.RT.Push h m.AWSCreds "text/html" html.1 opts)
                (fun p => .Push m.AWSCreds "text/html" html.1 opts p.1 p.2)
              emit (.TimingEnd .s3_failure_report_push [])
              if p.2 ≠ .nil then do
                log "error writing failure HTML to S3: %v"
                pure ⟨false, env, Wrap (SystemError err) msg⟩
              else do
                let env2 ← pushNotification m .background env .Failure
                  (.link "Environment Failure Log: " p.1)
                pure ⟨false, env2, Wrap (UserError err) msg⟩
          else
            pure ⟨false, env, Wrap (UserError err) msg⟩
  | _ => pure ⟨false, env, Wrap (UserError err) msg⟩

/-- What an operation leaves: whether it panicked (a nil dereference), and the environment
name and the error it returns; after a panic these are the values of the named results at
the moment of the panic. -/
structure Result where
  panicked : Bool
  envname : String
  err : GoError
  deriving DecidableEq

/-- The conversion of the chart locations of the fetcher into those of the installer. -/
def toChartLocations (cloc : List (String × MetaChartLocation)) : List (String × ChartLocation) :=
  cloc.map fun kv => (kv.1, { ChartPath := kv.2.ChartPath, VarFilePath := kv.2.VarFilePath })

/-- The second deferred function of create: the terminal side effects. -/
def createDeferred (m : Manager) (rd : RepoRevisionData) (env : QAEnvironment)
    (newenv : Option newEnv) (err : GoError) : M Unit :=
  if err ≠ .nil then do
    let err2 ← call (fun h => m.DL.SetQAEnvironmentStatus h env.Name .Failure)
      (fun err2 => .SetQAEnvironmentStatus env.Name .Failure err2)
    (if err2 ≠ .nil then log "error setting environment status to failed: %v" else pure ())
    let _ ← pushNotification m .operation newenv .Failure (.error "error creating: " err)
    let _ ← createErrorGithubStatus m rd
    emit (.Increment .create_errors rd.Repo)
  else do
    -- metahelm.Manager sets the success status on QAEnvironment
    let _ ← pushNotification m .operation newenv .Success .empty
    let _ ← createSuccessGithubStatus m rd
    pure ()

/-- Lines 436 to 449 of create: the installation of the fetched charts. -/
def createInstall (m : Manager) (ne : newEnv) (cloc : List (String × MetaChartLocation)) :
    M (Option newEnv × Result) := do
  let mcloc := toChartLocations cloc
  emit (.SpanStart "build_and_install_chart")
  let envinfo : EnvInfo := { Env := ne.env, RC := ne.rc, Releases := [] }
  let err ← call (fun h => m.CI.BuildAndInstallCharts h envinfo mcloc)
    (fun err => .BuildAndInstallCharts envinfo mcloc err)
  if err ≠ .nil then do
    emit (.SpanFinish "build_and_install_chart" err)
    let hr ← handleMetahelmError m (some ne) err "error installing charts"
    if hr.panicked then
      pure (hr.ne, ⟨true, "", err⟩)
    else
      pure (hr.ne, ⟨false, "", hr.err⟩)
  else do
    emit (.SpanFinish "build_and_install_chart" .nil)
    match ne.env with
    | none => pure (some ne, ⟨true, "", .nil⟩) -- newenv.env.Name on a nil record
    | some e => pure (some ne, ⟨false, e.Name, .nil⟩)

/-- Lines 419 to 449 of create: what runs between the registration of the second deferred
function and its execution. It returns the working set the deferred function sees. -/
def createMain (m : Manager) (rd : RepoRevisionData) (env : QAEnvironment) :
    M (Option newEnv × Result) := do
  let c ← processEnvConfig m env (some rd)
  if c.panicked then
    pure (some { env := some env, rc := none }, ⟨true, "", .nil⟩)
  else if c.err ≠ .nil then
    pure (c.ne, ⟨false, "", Wrap c.err "error processing environment config"⟩)
  else do
    let done ← call (ctxDone m .operation) (fun done => .Done .create done)
    if done then
      pure (c.ne, ⟨false, "", UserError (.fundamental "context was cancelled in create")⟩)
    else do
      let newenv ← pushNotification m .operation c.ne .CreateEnvironment .empty
      let _ ← createPendingGithubStatus m rd
      match newenv with
      | none => pure (newenv, ⟨true, "", .nil⟩) -- newenv.rc on a nil working set
      | some ne => do
        let f ← fetchCharts m env.Name ne.rc
        if f.panicked then
          pure (newenv, ⟨true, "", .nil⟩)
        else if f.err ≠ .nil then
          pure (newenv, ⟨false, "", Wrap f.err "error fetching charts"⟩)
        else do
          let r ← createInstall m ne f.cloc
          emit (.RemoveAll f.td)
          pure r

/-- What create runs under its first deferred function. -/
def createTimed (m : Manager) (rd : RepoRevisionData) : M Result := do
  let g ← generateNewEnv m rd
  if g.2 ≠ .nil then
    pure ⟨false, "", Wrap g.2 "error generating environment data"⟩
  else
    match g.1 with
    | none => pure ⟨true, "", .nil⟩ -- env.Name on a nil record
    | some env => do
      setloggername m env.Name
      let r ← createMain m rd env
      createDeferred m rd env r.1 r.2.err
      pure r.2

/-- The function create creates a new environment and returns the environment name, or
error. -/
def create (m : Manager) (rd : RepoRevisionData) : M Result := do
  emit (.Timing .create rd.Repo)
  emit (.SpanStart "create")
  let r ← createTimed m rd
  emit (.TimingEnd .create [("success", r.err == .nil)])
  emit (.SpanFinish "create" r.err)
  pure r

/-- The function getenv returns the extant environment for rd or error. -/
def getenv (m : Manager) (rd : RepoRevisionData) : M (Option QAEnvironment × GoError) := do
  let q ← call (fun h => m.DL.GetExtantQAEnvironments h rd.Repo rd.PullRequest)
    (fun q => .GetExtantQAEnvironments rd.Repo rd.PullRequest q.1 q.2)
  if q.2 ≠ .nil then
    pure (none, Wrap q.2 "error getting extant environments")
  else if q.1.length ≠ 1 then do
    log "expected exactly one extant environment but there are %v"
    pure (none, .extantEnvsErr)
  else
    pure (q.1.head?, .nil)

/-- The loop of delete over the records of the pair. -/
def setAllDestroyed (m : Manager) : List QAEnvironment → M Unit
  | [] => pure ()
  | e :: es => do
    log "setting %v to status destroyed"
    let err ← call (fun h => m.DL.SetQAEnvironmentStatus h e.Name .Destroyed)
      (fun err => .SetQAEnvironmentStatus e.Name .Destroyed err)
    (if err ≠ .nil then log "error setting status to destroyed for environment: %v: %v" else pure ())
    setAllDestroyed m es

/-- Lines 516 to 539 of delete: what runs between the registration of the second deferred
function and its execution. -/
def deleteMain (m : Manager) (rd : RepoRevisionData) (env : QAEnvironment) (ne : Option newEnv) :
    M (Option newEnv × GoError) := do
  let done ← call (ctxDone m .operation) (fun done => .Done .delete done)
  if done then
    pure (ne, UserError (.fundamental "context was cancelled in delete"))
  else do
    let ne2 ← pushNotification m .operation ne .DestroyEnvironment .empty
    let k ← call (fun h => m.DL.GetK8sEnv h env.Name) (fun k => .GetK8sEnv env.Name k.1 k.2)
    if k.2 ≠ .nil then
      pure (ne2, Wrap (SystemError k.2) "error getting k8s environment")
    else
      match k.1 with
      | none => pure (ne2, .fundamental "missing k8s environment")
      | some k8senv => do
        emit (.Timing .delete_namespace_duration rd.Repo)
        let err ← call (fun h => m.CI.DeleteReleases h k8senv) (fun err => .DeleteReleases k8senv err)
        if err ≠ .nil then
          pure (ne2, Wrap err "error deleting helm releases")
        else do
          let err ← call (fun h => m.CI.DeleteNamespace h k8senv) (fun err => .DeleteNamespace k8senv err)
          if err ≠ .nil then
            pure (ne2, Wrap err "error deleting namespace")
          else do
            emit (.TimingEnd .delete_namespace_duration [])
            let err ← call (fun h => m.DL.SetQAEnvironmentStatus h env.Name .Destroyed)
              (fun err => .SetQAEnvironmentStatus env.Name .Destroyed err)
            pure (ne2, Wrap (SystemError err) "error setting environment status")

/-- The reason of a destroy request: models.QADestroyReason (delete does not read it). -/
abbrev QADestroyReason := Nat

/-- What delete runs under its first deferred function. -/
def deleteTimed (m : Manager) (rd : RepoRevisionData) (_reason : QADestroyReason) : M Result := do
  let g ← getenv m rd
  if g.2 ≠ .nil then
    if g.2 = .extantEnvsErr then do
      -- if there is no extant envs, set all associated with the repo and PR to status destroyed
      log "no extant envs for destroy request"
      let q ← call (fun h => m.DL.GetQAEnvironmentsByRepoAndPR h rd.Repo rd.PullRequest)
        (fun q => .GetQAEnvironmentsByRepoAndPR rd.Repo rd.PullRequest q.1 q.2)
      if q.2 ≠ .nil then
        pure ⟨false, "", Wrap (SystemError q.2)
          ("error getting environments associated with the repo (" ++ rd.Repo ++ ") and PR ("
            ++ toString rd.PullRequest ++ ")")⟩
      else do
        (if 0 < q.1.length then setAllDestroyed m q.1 else pure ())
        pure ⟨false, "", .nil⟩
    else
      pure ⟨false, "", Wrap (SystemError g.2) "error getting extant environment"⟩
  else
    match g.1 with
    | none => pure ⟨true, "", .nil⟩ -- env.Name on a nil record
    | some env => do
      setloggername m env.Name
      let c ← processEnvConfig m env (some rd)
      if c.panicked then
        pure ⟨true, "", .nil⟩
      else do
        -- if there is an error getting or processing the config, continue on with default
        -- notifications
        (if c.err ≠ .nil then log "error processing environment config: %v" else pure ())
        let r ← deleteMain m rd env c.ne
        (if r.2 ≠ .nil then do
          let _ ← pushNotification m .operation r.1 .Failure (.error "error destroying: " r.2)
          pure ()
        else pure ())
        pure ⟨false, "", r.2⟩

/-- The function delete destroys an environment in k8s and marks it as such in the DB; the
environment name of its result is not used. -/
def delete (m : Manager) (rd : RepoRevisionData) (reason : QADestroyReason) : M Result := do
  emit (.Timing .delete rd.Repo)
  emit (.SpanStart "delete")
  let r ← deleteTimed m rd reason
  emit (.TimingEnd .delete [("success", r.err == .nil)])
  emit (.SpanFinish "delete" r.err)
  pure r

/-- The statement `copy(sig[:], k8senv.ConfigSignature)` into a zeroed 32-byte array. -/
def copy32 (src : List Nat) : List Nat :=
  src.take 32 ++ List.replicate (32 - src.length) 0

/-- The loop of update over the helm releases: chart title to release name, a later release
of a title replacing an earlier one. -/
def releaseMap (releases : List HelmRelease) : List (String × String) :=
  releases.foldl (fun acc r => (acc.filter fun kv => kv.1 ≠ r.Name) ++ [(r.Name, r.Release)]) []

/-- The second deferred function of update: the terminal side effects. -/
def updateDeferred (m : Manager) (rd : RepoRevisionData) (env : QAEnvironment)
    (ne : Option newEnv) (err : GoError) : M Unit :=
  if err ≠ .nil then do
    let err2 ← call (fun h => m.DL.SetQAEnvironmentStatus h env.Name .Failure)
      (fun err2 => .SetQAEnvironmentStatus env.Name .Failure err2)
    (if err2 ≠ .nil then log "error setting environment status to failed: %v" else pure ())
    let _ ← pushNotification m .operation ne .Failure (.error "" err)
    let _ ← createErrorGithubStatus m rd
    pure ()
  else do
    -- metahelm.Manager sets the success status on QAEnvironment
    let _ ← pushNotification m .operation ne .Success .empty
    let _ ← createSuccessGithubStatus m rd
    pure ()

/-- Lines 611 to 647 of update: the signature check and the two ways to bring the
environment up to date. -/
def updateInstall (m : Manager) (rd : RepoRevisionData) (env : QAEnvironment) (ne : newEnv)
    (k8senv : K8sEnvironment) (cloc : List (String × MetaChartLocation)) :
    M (Option newEnv × Result) := do
  let mcloc := toChartLocations cloc
  let envinfo : EnvInfo := { Env := some env, RC := ne.rc, Releases := [] }
  let sig := copy32 k8senv.ConfigSignature
  match ne.rc with
  | none => pure (some ne, ⟨true, "", .nil⟩) -- ne.rc.ConfigSignature() on a nil config
  | some rc =>
    if rc.configSignature = sig ∧ env.Status = .Success then do
      log ("config signature matches previous successful environment: "
        ++ "performing helm release upgrades")
      emit (.Increment .update_in_place rd.Repo)
      let q ← call (fun h => m.DL.GetHelmReleasesForEnv h env.Name)
        (fun q => .GetHelmReleasesForEnv env.Name q.1 q.2)
      if q.2 ≠ .nil then
        pure (some ne, ⟨false, "", Wrap (SystemError q.2) "error getting helm releases for env"⟩)
      else do
        let envinfo : EnvInfo := { envinfo with Releases := releaseMap q.1 }
        let err ← call (fun h => m.CI.BuildAndUpgradeCharts h envinfo k8senv mcloc)
          (fun err => .BuildAndUpgradeCharts envinfo k8senv mcloc err)
        if err ≠ .nil then do
          let hr ← handleMetahelmError m (some ne) err "error upgrading charts"
          if hr.panicked then
            pure (hr.ne, ⟨true, "", .nil⟩)
          else
            pure (hr.ne, ⟨false, env.Name, hr.err⟩)
        else
          pure (some ne, ⟨false, env.Name, .nil⟩)
    else do
      log ("config signature mismatch or previous environment failed: deleting all helm "
        ++ "releases and building environment into existing namespace")
      emit (.Increment .update_tear_down rd.Repo)
      let derr ← call (fun h => m.CI.DeleteReleases h k8senv) (fun err => .DeleteReleases k8senv err)
      let err := Wrap derr "error deleting helm releases for environment"
      if err ≠ .nil then
        pure (some ne, ⟨false, "", err⟩)
      else do
        let err ← call (fun h => m.CI.BuildAndInstallChartsIntoExisting h envinfo k8senv mcloc)
          (fun err => .BuildAndInstallChartsIntoExisting envinfo k8senv mcloc err)
        if err ≠ .nil then do
          let hr ← handleMetahelmError m (some ne) err
            "error installing charts into existing namespace"
          if hr.panicked then
            pure (hr.ne, ⟨true, "", .nil⟩)
          else
            pure (hr.ne, ⟨false, env.Name, hr.err⟩)
        else
          pure (some ne, ⟨false, env.Name, .nil⟩)

/-- How far update gets before the signature check: it has returned (with the working set
its deferred function sees), or it stands at line 611 with the extant environment, the
processed working set, the K8sEnvironment, the scratch directory and the fetched charts. -/
inductive UpdateStage where
  | returned (ne : Option newEnv) (r : Result)
  | install (ne : newEnv) (k8senv : K8sEnvironment) (td : String)
      (cloc : List (String × MetaChartLocation))

/-- Lines 587 to 610 of update. -/
def updatePrepare (m : Manager) (rd : RepoRevisionData) (env : QAEnvironment) : M UpdateStage := do
  let c ← processEnvConfig m env (some rd)
  if c.panicked then
    pure (.returned (some { env := some env, rc := none }) ⟨true, "", .nil⟩)
  else if c.err ≠ .nil then
    pure (.returned c.ne ⟨false, "", Wrap c.err "error processing environment config for update"⟩)
  else do
    let k ← call (fun h => m.DL.GetK8sEnv h env.Name) (fun k => .GetK8sEnv env.Name k.1 k.2)
    if k.2 ≠ .nil then
      pure (.returned c.ne ⟨false, "", Wrap (SystemError k.2) "error getting k8s environment"⟩)
    else
      match k.1 with
      | none =>
        pure (.returned c.ne ⟨false, "", SystemError (.fundamental "missing k8s environment")⟩)
      | some k8senv => do
        let done ← call (ctxDone m .operation) (fun done => .Done .update done)
        if done then
          pure (.returned c.ne
            ⟨false, "", UserError (.fundamental "context was cancelled in update")⟩)
        else do
          let ne2 ← pushNotification m .operation c.ne .UpdateEnvironment .empty
          let _ ← createPendingGithubStatus m rd
          match ne2 with
          | none => pure (.returned ne2 ⟨true, "", .nil⟩) -- ne.rc on a nil working set
          | some ne => do
            let f ← fetchCharts m env.Name ne.rc
            if f.panicked then
              pure (.returned ne2 ⟨true, "", .nil⟩)
            else if f.err ≠ .nil then
              pure (.returned ne2 ⟨false, "", Wrap f.err "error fetching charts"⟩)
            else
              pure (.install ne k8senv f.td f.cloc)

/-- Lines 587 to 647 of update: what runs between the registration of the second deferred
function and its execution. -/
def updateMain (m : Manager) (rd : RepoRevisionData) (env : QAEnvironment) :
    M (Option newEnv × Result) := do
  let st ← updatePrepare m rd env
  match st with
  | .returned ne r => pure (ne, r)
  | .install ne k8senv td cloc => do
    let r ← updateInstall m rd env ne k8senv cloc
    emit (.RemoveAll td)
    pure r

/-- What update runs under its first deferred function. -/
def updateTimed (m : Manager) (rd : RepoRevisionData) : M Result := do
  -- check config signatures, if match then we can do chart upgrades
  -- if mismatch, then tear down existing env and rebuild from scratch
  let g ← getenv m rd
  if g.2 ≠ .nil then
    if g.2 = .extantEnvsErr then do
      -- if there is no extant envs, go through the create flow
      log "could not find an extant environment so creating new env from scratch"
      emit (.Increment .update_create rd.Repo)
      let r ← create m rd
      if r.panicked then
        pure ⟨true, "", g.2⟩
      else
        pure r
    else
      pure ⟨false, "", Wrap (SystemError g.2) "error getting extant environment"⟩
  else
    match g.1 with
    | none => pure ⟨true, "", .nil⟩ -- env.Name on a nil record
    | some env => do
      setloggername m env.Name
      let r ← updateMain m rd env
      updateDeferred m rd env r.1 r.2.err
      pure r.2

/-- The function update changes an existing environment. -/
def update (m : Manager) (rd : RepoRevisionData) : M Result := do
  emit (.Timing .update rd.Repo)
  emit (.SpanStart "update")
  let r ← updateTimed m rd
  emit (.TimingEnd .update [("success", r.err == .nil)])
  emit (.SpanFinish "update" r.err)
  pure r

/-! ## The lock around an operation -/

/-- What the body of a locked operation returns: whether it panicked, and its error. -/
structure BodyResult where
  panicked : Bool
  err : GoError
  deriving DecidableEq

/-- The function lockingOperation sets up the lock and if successful executes f, releasing
the lock afterward. The goroutine that waits for the preemption of the lock runs beside `f`:
its lock_preempt metric and log line have no place in the sequence of the effects of the
caller and are left out, and the cancellation it causes is what `Runtime.Done` answers to
`f`. The deferred `close(stop)` and `cf()` reach no collaborator. When `f` panics the
deferred Release still runs, and the named result holds the nil error of Lock. -/
def lockingOperation (m : Manager) (repo pr : String) (f : M BodyResult) : M BodyResult := do
  emit (.Timing .lock_wait repo)
  let err ← call (fun h => m.LP h repo pr) (fun err => .Lock repo pr err)
  if err ≠ .nil then do
    emit (.TimingEnd .lock_wait [("success", false)])
    pure ⟨false, Wrap err "error getting lock"⟩
  else do
    emit (.TimingEnd .lock_wait [("success", true)])
    emit (.Timing .operation repo)
    let r ← f
    if r.panicked then do
      emit (.Release repo pr)
      pure ⟨true, .nil⟩
    else do
      (if r.err ≠ .nil then log "operation error (user: %v, sys: %v): %v: %v: %v" else pure ())
      emit (.TimingEnd .operation [("success", r.err == .nil), ("user_error", IsUserError r.err),
        ("system_error", IsSystemError r.err)])
      emit (.Release repo pr)
      pure ⟨false, r.err⟩

/-- The text `strconv.Itoa(int(n))` of an unsigned 64-bit number `n`: the conversion to int
turns a number from 2^63 on into a negative one. -/
def itoaInt (n : Nat) : String :=
  if n % 2 ^ 64 < 2 ^ 63 then toString (n % 2 ^ 64) else "-" ++ toString (2 ^ 64 - n % 2 ^ 64)

/-- The function Delete destroys an environment in k8s and marks it as such in the DB. -/
def Delete (m : Manager) (rd : RepoRevisionData) (reason : QADestroyReason) : M BodyResult :=
  lockingOperation m rd.Repo (itoaInt rd.PullRequest) do
    let r ← delete m rd reason
    pure ⟨r.panicked, r.err⟩

/-! ## Reading a run -/

/-- The kinds of effects: which collaborator is spoken to, and whether it is changed. -/
inductive Kind where
  | log
  | metric
  | span
  | done
  | dbRead
  | dbWrite
  | repoRead
  | status
  | namegen
  | config
  | fetch
  | scratch
  | installer
  | notify
  | render
  | upload
  | lock
  deriving DecidableEq

/-- The kind of an effect. -/
def Effect.kind : Effect → Kind
  | .log .. => .log
  | .SetEnvName .. => .log
  | .Timing .. => .metric
  | .TimingEnd .. => .metric
  | .Increment .. => .metric
  | .Gauge .. => .metric
  | .SpanStart .. => .span
  | .SpanFinish .. => .span
  | .Done .. => .done
  | .GetQAEnvironmentsByRepoAndPR .. => .dbRead
  | .GetExtantQAEnvironments .. => .dbRead
  | .GetQAEnvironment .. => .dbRead
  | .CreateQAEnvironment .. => .dbWrite
  | .SetQAEnvironmentStatus .. => .dbWrite
  | .SetQAEnvironmentRepoData .. => .dbWrite
  | .SetQAEnvironmentCreated .. => .dbWrite
  | .SetQAEnvironmentRefMap .. => .dbWrite
  | .SetQAEnvironmentCommitSHAMap .. => .dbWrite
  | .GetK8sEnv .. => .dbRead
  | .GetHelmReleasesForEnv .. => .dbRead
  | .AddEvent .. => .dbWrite
  | .GetCommitMessage .. => .repoRead
  | .SetStatus .. => .status
  | .New .. => .namegen
  | .Get .. => .config
  | .FetchCharts .. => .fetch
  | .tempDir .. => .scratch
  | .RemoveAll .. => .scratch
  | .BuildAndInstallCharts .. => .installer
  | .BuildAndInstallChartsIntoExisting .. => .installer
  | .BuildAndUpgradeCharts .. => .installer
  | .DeleteReleases .. => .installer
  | .DeleteNamespace .. => .installer
  | .FanOut .. => .notify
  | .Execute .. => .render
  | .Push .. => .upload
  | .Lock .. => .lock
  | .Release .. => .lock

/-- Every effect a computation emits, from any history, is of one of the kinds `K`. -/
def Emits {α : Type} (K : List Kind) (x : M α) : Prop :=
  ∀ h e, e ∈ (x h).2 → e.kind ∈ K

/-- The kinds of effects outside the chart fetcher, the scratch file system, the chart
installer and the pre-flight cancellation check. -/
def quiet : List Kind :=
  [.log, .metric, .span, .dbRead, .dbWrite, .repoRead, .status, .namegen, .config, .notify,
    .render, .upload]

/-- Every kind of effect but the calls of the chart installer. -/
def calm : List Kind := quiet ++ [.done, .scratch, .fetch]

/-! ## The branches of update -/

/-- The in-place upgrade branch of update, read off the effects of a run: update_in_place is
incremented, the helm releases of the environment are loaded, and neither DeleteReleases nor
BuildAndInstallChartsIntoExisting is called. -/
def UpgradedInPlace (rd : RepoRevisionData) (env : QAEnvironment) (t : List Effect) : Prop :=
  Effect.Increment .update_in_place rd.Repo ∈ t
    ∧ (∃ releases err, Effect.GetHelmReleasesForEnv env.Name releases err ∈ t)
    ∧ (∀ k err, Effect.DeleteReleases k err ∉ t)
    ∧ (∀ ei k cl err, Effect.BuildAndInstallChartsIntoExisting ei k cl err ∉ t)

/-- The rebuild branch of update, read off the effects of a run: update_tear_down is
incremented, DeleteReleases is the first call of the chart installer, it is followed by
BuildAndInstallChartsIntoExisting when it succeeds and by no call of the installer when it
fails, and BuildAndUpgradeCharts is never called. -/
def Rebuilt (rd : RepoRevisionData) (k8senv : K8sEnvironment) (t : List Effect) : Prop :=
  Effect.Increment .update_tear_down rd.Repo ∈ t
    ∧ (∃ pre derr post, t = pre ++ Effect.DeleteReleases k8senv derr :: post
        ∧ (∀ e ∈ pre, e.kind ≠ .installer)
        ∧ (derr = .nil → ∃ ei cl err, Effect.BuildAndInstallChartsIntoExisting ei k8senv cl err ∈ post)
        ∧ (derr ≠ .nil → ∀ e ∈ post, e.kind ≠ .installer))
    ∧ (∀ ei k cl err, Effect.BuildAndUpgradeCharts ei k cl err ∉ t)

/-! ## Concrete collaborators -/

/-- A pull request. -/
def rd0 : RepoRevisionData :=
  { User := "u", Repo := "o/r", PullRequest := 7, SourceSHA := "aaa", BaseSHA := "bbb",
    SourceBranch := "feature", BaseBranch := "master", SourceRef := "" }

/-- An environment record of the pull request, created at time 1 and brought up. -/
def env0 : QAEnvironment :=
  { Name := "env-0", Created := 1, Status := .Success, User := "u", Repo := "o/r",
    PullRequest := 7, SourceSHA := "aaa", BaseSHA := "bbb", SourceBranch := "feature",
    BaseBranch := "master", SourceRef := "", RefMap := [], CommitSHAMap := [] }

/-- A config of the repository without dependencies. -/
def rc0 : RepoConfig :=
  { ApplicationRepo := "o/r", Dependencies := [],
    Notifications := { Channels := [], Templates := [] },
    refMap := ([], .nil), commitSHAMap := ([], .nil), configSignature := List.replicate 32 1 }

/-- The binding of the environment, with the signature of the config. -/
def k8s0 : K8sEnvironment :=
  { EnvName := "env-0", Namespace := "nitro-env-0", ConfigSignature := List.replicate 32 1 }

/-- Surroundings in which nothing is cancelled and every library call succeeds. -/
def okRuntime : Runtime :=
  { Done := fun _ => false, now := fun _ => 5, keyTime := fun _ => 0, loggerID := zeroUUID,
    Merge := fun dst _ => (dst, .nil),
    tempDir := fun _ name => ("/tmp/" ++ name, .nil),
    Push := fun _ _ _ _ _ => ("https://s3/report", .nil),
    sort := sortSlice,
    sort_perm := fun _ => List.perm_insertionSort _ _,
    sort_sorted := fun envs =>
      haveI : IsTotal QAEnvironment (fun a b => a.Created ≤ b.Created) :=
        ⟨fun _ _ => Nat.le_total _ _⟩
      haveI : IsTrans QAEnvironment (fun a b => a.Created ≤ b.Created) :=
        ⟨fun _ _ _ hab hbc => Nat.le_trans hab hbc⟩
      List.sorted_insertionSort _ envs }

/-- A data layer that holds the record `env0` for every pair and accepts every write. -/
def okDataLayer : DataLayer :=
  { GetQAEnvironmentsByRepoAndPR := fun _ _ _ => ([env0], .nil),
    GetExtantQAEnvironments := fun _ _ _ => ([env0], .nil),
    GetQAEnvironment := fun _ _ => (some env0, .nil),
    CreateQAEnvironment := fun _ _ => .nil,
    SetQAEnvironmentStatus := fun _ _ _ => .nil,
    SetQAEnvironmentRepoData := fun _ _ _ => .nil,
    SetQAEnvironmentCreated := fun _ _ _ => .nil,
    SetQAEnvironmentRefMap := fun _ _ _ => .nil,
    SetQAEnvironmentCommitSHAMap := fun _ _ _ => .nil,
    GetK8sEnv := fun _ _ => (some k8s0, .nil),
    GetHelmReleasesForEnv := fun _ _ => ([], .nil) }

/-- A chart installer that succeeds. -/
def okInstaller : Installer :=
  { BuildAndInstallCharts := fun _ _ _ => .nil,
    BuildAndInstallChartsIntoExisting := fun _ _ _ _ => .nil,
    BuildAndUpgradeCharts := fun _ _ _ _ => .nil,
    DeleteReleases := fun _ _ => .nil,
    DeleteNamespace := fun _ _ => .nil }

/-- A manager all of whose collaborators succeed. -/
def okManager : Manager :=
  { NF := some fun _ _ _ _ => .nil,
    DefaultNotifications := { Channels := [], Templates := [] },
    DL := okDataLayer,
    RC := { GetCommitMessage := fun _ _ _ _ => ("a commit", .nil), SetStatus := fun _ _ _ _ _ => .nil },
    NG := fun _ => ("env-1", .nil),
    LP := fun _ _ _ => .nil,
    MG := { Get := fun _ _ => (some rc0, .nil), FetchCharts := fun _ _ _ => ([], .nil) },
    CI := okInstaller,
    AWSCreds := { AccessKeyID := "", SecretAccessKey := "" },
    S3Config := { Region := "", Bucket := "", KeyPfx := "" },
    failureTemplate := none,
    RT := okRuntime }

/-- The side effects that the update fallback is compared on: writes of the data layer,
notifications, commit statuses, calls of the chart installer, and with them the names
generated, the configuration and charts fetched, the scratch directory and the uploads. -/
def Effect.observable (e : Effect) : Bool :=
  e.kind ∈ [Kind.dbWrite, .notify, .status, .installer, .namegen, .config, .fetch, .scratch, .upload]

/-- The manager `okManager` over a data layer without an extant record of the pair. -/
def noExtantManager : Manager :=
  { okManager with
    DL := { okDataLayer with GetExtantQAEnvironments := fun _ _ _ => ([], .nil) } }

/-- A second record of the pull request, created at time 2. -/
def env1 : QAEnvironment := { env0 with Name := "env-1", Created := 2 }

/-- The manager `okManager` over a data layer with two extant records of the pair. -/
def twoExtantManager : Manager :=
  { okManager with
    DL := { okDataLayer with
      GetExtantQAEnvironments := fun _ _ _ => ([env0, env1], .nil)
      GetQAEnvironmentsByRepoAndPR := fun _ _ _ => ([env0, env1], .nil) } }

/-- The manager `okManager` over a data layer whose re-read of a record finds none. -/
def lostRecordManager : Manager :=
  { okManager with DL := { okDataLayer with GetQAEnvironment := fun _ _ => (none, .nil) } }

/-- The manager `okManager` with a chart fetcher that fails. -/
def fetchFailsManager : Manager :=
  { okManager with
    MG := { okManager.MG with FetchCharts := fun _ _ _ => ([], .fundamental "chart not found") } }

/-- The scratch directories that exist after a sequence of effects, from the directories
`dirs` before it: tempDir makes one, RemoveAll removes it. -/
def scratchDirsFrom (dirs : List String) : List Effect → List String
  | [] => dirs
  | .tempDir _ td .nil :: t => scratchDirsFrom (dirs ++ [td]) t
  | .RemoveAll td :: t => scratchDirsFrom (dirs.filter (fun d => d ≠ td)) t
  | _ :: t => scratchDirsFrom dirs t

/-- The scratch directories that exist after a sequence of effects on an empty scratch file
system. -/
def scratchDirs (t : List Effect) : List String := scratchDirsFrom [] t

/-- Every result of a computation, from any history, satisfies `P`. -/
def Returns {α : Type} (P : α → Prop) (x : M α) : Prop :=
  ∀ h, P (x h).1

/-- A terminal commit status: SetStatus with the status success or failure. -/
def Effect.isTerminalStatus : Effect → Bool
  | .SetStatus _ _ _ cs _ => cs.Status == "success" || cs.Status == "failure"
  | _ => false

/-- A notification of the event `ev` handed to the notifier. -/
def Effect.isNotification (ev : NotificationEvent) : Effect → Bool
  | .FanOut _ _ n _ => n.Event == ev
  | _ => false

/-- A terminal side effect: a terminal commit status, or a Success or Failure
notification. -/
def Effect.loud (e : Effect) : Bool :=
  e.isTerminalStatus || e.isNotification .Success || e.isNotification .Failure

/-- The number of terminal commit statuses among effects. -/
def statuses (t : List Effect) : Nat := t.countP Effect.isTerminalStatus

/-- The number of Success notifications among effects. -/
def successes (t : List Effect) : Nat := t.countP (Effect.isNotification .Success)

/-- The number of Failure notifications among effects. -/
def failures (t : List Effect) : Nat := t.countP (Effect.isNotification .Failure)

/-- No effect a computation emits, from any history, satisfies `p`. -/
def Never {α : Type} (p : Effect → Bool) (x : M α) : Prop :=
  ∀ h e, e ∈ (x h).2 → p e = false

/-- Every run of a computation satisfies `P`, a property of the result and of the numbers of
terminal commit statuses, Success notifications and Failure notifications emitted. -/
def Tally {α : Type} (P : α → Nat → Nat → Nat → Prop) (x : M α) : Prop :=
  ∀ h, P (x h).1 (statuses (x h).2) (successes (x h).2) (failures (x h).2)

/-- The number of notifications of the event `ev` that one call of pushNotification for
`event` may send: one if the events are the same, none otherwise. -/
def eventBudget (event ev : NotificationEvent) : Nat :=
  if event = ev then 1 else 0

/-- The manager `okManager` with a blob store and a failure template, over a chart installer
whose installation fails with a chart error that names a failed deployment. -/
def reportManager : Manager :=
  { okManager with
    CI := { okInstaller with
      BuildAndInstallCharts := fun _ _ _ => .ChartError (.fundamental "timed out") ["web"] [] [] }
    S3Config := { Region := "us-west-2", Bucket := "reports", KeyPfx := "" }
    failureTemplate := some fun _ => ("<html/>", .nil) }

/-- The manager `okManager` over a data layer that cannot list the records of a pull
request. -/
def dbDownManager : Manager :=
  { okManager with
    DL := { okDataLayer with
      GetQAEnvironmentsByRepoAndPR := fun _ _ _ => ([], .fundamental "connection refused") } }

/-- The manager `okManager` without a notifier factory. -/
def muteManager : Manager := { okManager with NF := none }

/-- The pre-flight check of the operation `op` found its context cancelled. -/
def Effect.isCancellation (op : Op) : Effect → Bool
  | .Done o true => o == op
  | _ => false

/-- A call of the chart fetcher (FetchCharts) or of the chart installer
(BuildAndInstallCharts, BuildAndInstallChartsIntoExisting, BuildAndUpgradeCharts,
DeleteReleases, DeleteNamespace). -/
def Effect.isChartCall (e : Effect) : Bool :=
  decide (e.kind = .fetch) || decide (e.kind = .installer)

/-- Neither the cancellation found by the check of `op` nor a call of the chart fetcher or
installer. -/
def Effect.abortive (op : Op) (e : Effect) : Bool :=
  e.isCancellation op || e.isChartCall

/-- Whenever a run of the computation contains the cancellation found by the check of `op`, its
result satisfies `G` and it makes no call of the chart fetcher or installer. -/
def Aborts {α : Type} (op : Op) (G : α → Prop) (x : M α) : Prop :=
  ∀ h, Effect.Done op true ∈ (x h).2 → G (x h).1 ∧ ∀ e ∈ (x h).2, e.isChartCall = false

/-- The manager `okManager` under a context that is already cancelled. -/
def cancelledManager : Manager :=
  { okManager with RT := { okRuntime with Done := fun _ => true } }

/-- The blob store is configured: handleMetahelmError pushes a report only if the bucket and
the region are defined. -/
def blobStoreConfigured (m : Manager) : Bool :=
  decide (m.S3Config.Bucket ≠ "" ∧ m.S3Config.Region ≠ "")

/-- The rendering of the failure report that handleMetahelmError asks for, for the record `e`
and the error `err`, from the history `h`: the page and the error of chartErrorRenderHTML. -/
def renderedReport (m : Manager) (e : QAEnvironment) (err : GoError) (h : Hist) :
    String × GoError :=
  (chartErrorRenderHTML m
    { EnvName := e.Name, PullRequestRepo := e.Repo, PullRequestNumber := e.PullRequest,
      StartedTime := e.Created, FailedTime := m.RT.now h, CError := err } h).1

/-- The upload of the rendered failure report that handleMetahelmError asks for: the link
and the error of Push. -/
def uploadedReport (m : Manager) (e : QAEnvironment) (err : GoError) (h : Hist) :
    String × GoError :=
  m.RT.Push h m.AWSCreds "text/html" (renderedReport m e err h).1
    { Region := m.S3Config.Region, Bucket := m.S3Config.Bucket,
      KeyBase := m.S3Config.KeyPfx ++ "envfailures/", KeyTime := m.RT.keyTime h,
      KeyEnvName := e.Name, Concurrency := 10, MaxRetries := 3, PresignTTLMinutes := 60 * 24 }

/-- The failure report fails: the blob store is configured and the rendering or the upload
returns an error. -/
def reportFails (m : Manager) (e : QAEnvironment) (err : GoError) (h : Hist) : Bool :=
  blobStoreConfigured m
    && (decide ((renderedReport m e err h).2 ≠ .nil) || decide ((uploadedReport m e err h).2 ≠ .nil))

/-- The manager `reportManager` over a blob store that refuses the upload. -/
def uploadFailsManager : Manager :=
  { reportManager with
    RT := { okRuntime with Push := fun _ _ _ _ _ => ("", .fundamental "access denied") } }

/-- The status write of an effect: the name and the status of a call of
SetQAEnvironmentStatus. -/
def Effect.statusWrite : Effect → Option (String × EnvironmentStatus)
  | .SetQAEnvironmentStatus name status _ => some (name, status)
  | _ => none

/-- The status of every record after a sequence of effects, from the statuses `tbl` before
it: a call of SetQAEnvironmentStatus that returns no error sets the status of its record. -/
def statusesAfter (tbl : String → EnvironmentStatus) : List Effect → String → EnvironmentStatus
  | [] => tbl
  | .SetQAEnvironmentStatus name status .nil :: t =>
    statusesAfter (fun n => if n = name then status else tbl n) t
  | _ :: t => statusesAfter tbl t

/-- An effect of the loop of delete over the records of the pair: a log line, or a call of
SetQAEnvironmentStatus with the status Destroyed. -/
def Effect.isDestroyStep : Effect → Bool
  | .log _ => true
  | .SetQAEnvironmentStatus _ .Destroyed _ => true
  | _ => false

/-- The manager `okManager` over a data layer in which both records of the pair are already
Destroyed, none is extant, and every write of a status fails. -/
def staleManager : Manager :=
  { okManager with
    DL := { okDataLayer with
      GetExtantQAEnvironments := fun _ _ _ => ([], .nil)
      GetQAEnvironmentsByRepoAndPR := fun _ _ _ =>
        ([{ env0 with Status := .Destroyed }, { env1 with Status := .Destroyed }], .nil)
      SetQAEnvironmentStatus := fun _ _ _ => .fundamental "write refused" } }

/-- The manager `okManager` over a lock provider that cannot give the lock. -/
def lockFailsManager : Manager :=
  { okManager with LP := fun _ _ _ => .fundamental "lock unavailable" }

/-- A call of the config getter. -/
def Effect.isConfigCall (e : Effect) : Bool := decide (e.kind = .config)

/-- A call of the config getter that answered with the error `gerr`. -/
def Effect.isConfigError (gerr : GoError) : Effect → Bool
  | .Get _ _ err => decide (err = gerr)
  | _ => false

/-- Whenever a run of the computation contains an effect that satisfies `t`, its result
satisfies `G` and it makes no call of the chart fetcher or installer. -/
def Upon {α : Type} (t : Effect → Bool) (G : α → Prop) (x : M α) : Prop :=
  ∀ h, (∃ e ∈ (x h).2, t e = true) → G (x h).1 ∧ ∀ e ∈ (x h).2, e.isChartCall = false

/-- The manager `okManager` over a config getter that fails. -/
def configFailsManager : Manager :=
  { okManager with
    MG := { okManager.MG with Get := fun _ _ => (none, .fundamental "acyl.yml not found") } }

/-- A call of the chart installer that builds charts (BuildAndInstallCharts,
BuildAndInstallChartsIntoExisting, BuildAndUpgradeCharts) and returned an error. -/
def Effect.isInstallFailure : Effect → Bool
  | .BuildAndInstallCharts _ _ err => decide (err ≠ .nil)
  | .BuildAndInstallChartsIntoExisting _ _ _ err => decide (err ≠ .nil)
  | .BuildAndUpgradeCharts _ _ _ err => decide (err ≠ .nil)
  | _ => false

/-- The manager `okManager` over a chart installer whose installation and upgrade fail with
a chart error that names no failed resource and carries no helm error. -/
def bareChartErrorManager : Manager :=
  { okManager with
    CI := { okInstaller with
      BuildAndInstallCharts := fun _ _ _ => .ChartError .nil [] [] []
      BuildAndUpgradeCharts := fun _ _ _ _ => .ChartError .nil [] [] [] } }

/-- The manager `reportManager` over a data layer that knows no record of the pair when
create starts and that finds no record, and reports no error, when processEnvConfig reads
the new record again. -/
def lostReportManager : Manager :=
  { reportManager with
    DL := { okDataLayer with
      GetQAEnvironmentsByRepoAndPR := fun _ _ _ => ([], .nil)
      GetQAEnvironment := fun _ _ => (none, .nil) } }

/-- A chart error that names no failed resource and carries no helm error. -/
def GoError.isBareChartError : GoError → Bool
  | .ChartError .nil fd fj fs => decide (fd.length = 0 ∧ fj.length = 0 ∧ fs.length = 0)
  | _ => false

/-- A call of the chart installer that builds charts and returned an error other than a
chart error without failed resource and helm error. -/
def Effect.isKeptFailure (e : Effect) : Bool :=
  match e with
  | .BuildAndInstallCharts _ _ err => decide (err ≠ .nil) && !err.isBareChartError
  | .BuildAndInstallChartsIntoExisting _ _ _ err => decide (err ≠ .nil) && !err.isBareChartError
  | .BuildAndUpgradeCharts _ _ _ err => decide (err ≠ .nil) && !err.isBareChartError
  | _ => false

/-- Whenever a run of the computation contains an effect that satisfies `t`, its result
satisfies `G`. -/
def Whenever {α : Type} (t : Effect → Bool) (G : α → Prop) (x : M α) : Prop :=
  ∀ h, (∃ e ∈ (x h).2, t e = true) → G (x h).1

/-- The working set holds its record: neither the working set nor its env is nil. -/
def hasRecord : Option newEnv → Bool
  | some ne => ne.env.isSome
  | none => false

/-- The working set of a stage of update holds its record. -/
def UpdateStage.hasRecord : UpdateStage → Bool
  | .returned ne _ => Acyl.hasRecord ne
  | .install ne _ _ _ => Acyl.hasRecord (some ne)

/-! ## Lemmas -/

theorem run_pure {α : Type} (a : α) (h : Hist) : (pure a : M α) h = (a, []) := rfl

theorem run_bind {α β : Type} (x : M α) (f : α → M β) (h : Hist) :
    (x >>= f) h =
      ((f (x h).1 (h ++ (x h).2.filter Effect.visible)).1,
        (x h).2 ++ (f (x h).1 (h ++ (x h).2.filter Effect.visible)).2) := rfl

theorem run_call {β : Type} (answer : Hist → β) (record : β → Effect) (h : Hist) :
    call answer record h = (answer h, [record (answer h)]) := rfl

theorem run_emit (e : Effect) (h : Hist) : emit e h = ((), [e]) := rfl

theorem run_log (s : String) (h : Hist) : log s h = ((), [.log s]) := rfl

theorem run_ask {β : Type} (answer : Hist → β) (h : Hist) : ask answer h = (answer h, []) := rfl

theorem emits_pure {α : Type} (K : List Kind) (a : α) : Emits K (pure a : M α) := by
  intro h e he
  simp [run_pure] at he

theorem emits_bind {α β : Type} {K : List Kind} {x : M α} {f : α → M β}
    (hx : Emits K x) (hf : ∀ a, Emits K (f a)) : Emits K (x >>= f) := by
  intro h e he
  rw [run_bind] at he
  rcases List.mem_append.mp he with h1 | h2
  · exact hx h e h1
  · exact hf _ _ e h2

theorem emits_call {β : Type} {K : List Kind} (answer : Hist → β) (record : β → Effect)
    (hk : ∀ b, (record b).kind ∈ K) : Emits K (call answer record) := by
  intro h e he
  simp [run_call] at he
  subst he
  exact hk _

theorem emits_emit {K : List Kind} (e : Effect) (hk : e.kind ∈ K) : Emits K (emit e) := by
  intro h e1 he
  simp [run_emit] at he
  subst he
  exact hk

theorem emits_log {K : List Kind} (s : String) (hk : Kind.log ∈ K) : Emits K (log s) :=
  emits_emit _ hk

theorem emits_ask {β : Type} (K : List Kind) (answer : Hist → β) : Emits K (ask answer) := by
  intro h e he
  simp [run_ask] at he

theorem Emits.mono {α : Type} {K K2 : List Kind} {x : M α} (hx : Emits K x)
    (hsub : K ⊆ K2) : Emits K2 x :=
  fun h e he => hsub (hx h e he)

theorem pushNotification_emits (m : Manager) (ctx : Ctx) (env : Option newEnv)
    (event : NotificationEvent) (errmsg : ErrorMessage) :
    Emits quiet (pushNotification m ctx env event errmsg) := by
  unfold pushNotification validContext
  repeat (first
    | with_reducible apply emits_pure
    | with_reducible apply emits_ask
    | (with_reducible apply emits_log; simp [quiet])
    | (with_reducible apply emits_emit; simp [Effect.kind, quiet])
    | (with_reducible apply emits_call; intro _; simp [Effect.kind, quiet])
    | with_reducible apply emits_bind
    | with_reducible intro _
    | dsimp only
    | split)

theorem createPendingGithubStatus_emits (m : Manager) (rd : RepoRevisionData) :
    Emits quiet (createPendingGithubStatus m rd) := by
  unfold createPendingGithubStatus
  repeat (first
    | with_reducible apply emits_pure
    | with_reducible apply emits_ask
    | (with_reducible apply emits_log; simp [quiet])
    | (with_reducible apply emits_emit; simp [Effect.kind, quiet])
    | (with_reducible apply emits_call; intro _; simp [Effect.kind, quiet])
    | with_reducible apply emits_bind
    | with_reducible intro _
    | dsimp only
    | split)

theorem createErrorGithubStatus_emits (m : Manager) (rd : RepoRevisionData) :
    Emits quiet (createErrorGithubStatus m rd) := by
  unfold createErrorGithubStatus validContext
  repeat (first
    | with_reducible apply emits_pure
    | with_reducible apply emits_ask
    | (with_reducible apply emits_log; simp [quiet])
    | (with_reducible apply emits_emit; simp [Effect.kind, quiet])
    | (with_reducible apply emits_call; intro _; simp [Effect.kind, quiet])
    | with_reducible apply emits_bind
    | with_reducible intro _
    | dsimp only
    | split)

theorem createSuccessGithubStatus_emits (m : Manager) (rd : RepoRevisionData) :
    Emits quiet (createSuccessGithubStatus m rd) := by
  unfold createSuccessGithubStatus
  repeat (first
    | with_reducible apply emits_pure
    | with_reducible apply emits_ask
    | (with_reducible apply emits_log; simp [quiet])
    | (with_reducible apply emits_emit; simp [Effect.kind, quiet])
    | (with_reducible apply emits_call; intro _; simp [Effect.kind, quiet])
    | with_reducible apply emits_bind
    | with_reducible intro _
    | dsimp only
    | split)

theorem setloggername_emits (m : Manager) (name : String) : Emits quiet (setloggername m name) := by
  unfold setloggername
  repeat (first
    | with_reducible apply emits_pure
    | with_reducible apply emits_ask
    | (with_reducible apply emits_log; simp [quiet])
    | (with_reducible apply emits_emit; simp [Effect.kind, quiet])
    | (with_reducible apply emits_call; intro _; simp [Effect.kind, quiet])
    | with_reducible apply emits_bind
    | with_reducible intro _
    | dsimp only
    | split)

theorem getRepoConfig_emits (m : Manager) (rd : Option RepoRevisionData) :
    Emits quiet (getRepoConfig m rd) := by
  unfold getRepoConfig
  repeat (first
    | with_reducible apply emits_pure
    | with_reducible apply emits_ask
    | (with_reducible apply emits_log; simp [quiet])
    | (with_reducible apply emits_emit; simp [Effect.kind, quiet])
    | (with_reducible apply emits_call; intro _; simp [Effect.kind, quiet])
    | with_reducible apply emits_bind
    | with_reducible intro _
    | dsimp only
    | split)

theorem generateNewEnv_emits (m : Manager) (rd : RepoRevisionData) :
    Emits quiet (generateNewEnv m rd) := by
  unfold generateNewEnv generateNewEnvBody
  repeat (first
    | with_reducible apply emits_pure
    | with_reducible apply emits_ask
    | (with_reducible apply emits_log; simp [quiet])
    | (with_reducible apply emits_emit; simp [Effect.kind, quiet])
    | (with_reducible apply emits_call; intro _; simp [Effect.kind, quiet])
    | with_reducible apply emits_bind
    | with_reducible intro _
    | dsimp only
    | split)

theorem processEnvConfig_emits (m : Manager) (env : QAEnvironment) (rd : Option RepoRevisionData) :
    Emits quiet (processEnvConfig m env rd) := by
  unfold processEnvConfig processEnvConfigBody
  repeat (first
    | with_reducible apply emits_pure
    | with_reducible apply emits_ask
    | with_reducible exact getRepoConfig_emits _ _
    | (with_reducible apply emits_log; simp [quiet])
    | (with_reducible apply emits_emit; simp [Effect.kind, quiet])
    | (with_reducible apply emits_call; intro _; simp [Effect.kind, quiet])
    | with_reducible apply emits_bind
    | with_reducible intro _
    | dsimp only
    | split)

theorem fetchCharts_emits (m : Manager) (name : String) (rc : Option RepoConfig) :
    Emits [.span, .scratch, .metric, .fetch] (fetchCharts m name rc) := by
  unfold fetchCharts fetchChartsBody
  repeat (first
    | with_reducible apply emits_pure
    | with_reducible apply emits_ask
    | (with_reducible apply emits_log; simp [quiet])
    | (with_reducible apply emits_emit; simp [Effect.kind, quiet])
    | (with_reducible apply emits_call; intro _; simp [Effect.kind, quiet])
    | with_reducible apply emits_bind
    | with_reducible intro _
    | dsimp only
    | split)

theorem handleMetahelmError_emits (m : Manager) (env : Option newEnv) (err : GoError) (msg : String) :
    Emits quiet (handleMetahelmError m env err msg) := by
  unfold handleMetahelmError chartErrorRenderHTML
  repeat (first
    | with_reducible apply emits_pure
    | with_reducible apply emits_ask
    | with_reducible exact pushNotification_emits _ _ _ _ _
    | (with_reducible apply emits_log; simp [quiet])
    | (with_reducible apply emits_emit; simp [Effect.kind, quiet])
    | (with_reducible apply emits_call; intro _; simp [Effect.kind, quiet])
    | with_reducible apply emits_bind
    | with_reducible intro _
    | dsimp only
    | split)

theorem createDeferred_emits (m : Manager) (rd : RepoRevisionData) (env : QAEnvironment)
    (newenv : Option newEnv) (err : GoError) : Emits quiet (createDeferred m rd env newenv err) := by
  unfold createDeferred
  repeat (first
    | with_reducible apply emits_pure
    | with_reducible apply emits_ask
    | with_reducible exact pushNotification_emits _ _ _ _ _
    | with_reducible exact createErrorGithubStatus_emits _ _
    | with_reducible exact createSuccessGithubStatus_emits _ _
    | (with_reducible apply emits_log; simp [quiet])
    | (with_reducible apply emits_emit; simp [Effect.kind, quiet])
    | (with_reducible apply emits_call; intro _; simp [Effect.kind, quiet])
    | with_reducible apply emits_bind
    | with_reducible intro _
    | dsimp only
    | split)

theorem updateDeferred_emits (m : Manager) (rd : RepoRevisionData) (env : QAEnvironment)
    (newenv : Option newEnv) (err : GoError) : Emits quiet (updateDeferred m rd env newenv err) := by
  unfold updateDeferred
  repeat (first
    | with_reducible apply emits_pure
    | with_reducible apply emits_ask
    | with_reducible exact pushNotification_emits _ _ _ _ _
    | with_reducible exact createErrorGithubStatus_emits _ _
    | with_reducible exact createSuccessGithubStatus_emits _ _
    | (with_reducible apply emits_log; simp [quiet])
    | (with_reducible apply emits_emit; simp [Effect.kind, quiet])
    | (with_reducible apply emits_call; intro _; simp [Effect.kind, quiet])
    | with_reducible apply emits_bind
    | with_reducible intro _
    | dsimp only
    | split)

theorem getenv_emits (m : Manager) (rd : RepoRevisionData) : Emits quiet (getenv m rd) := by
  unfold getenv
  repeat (first
    | with_reducible apply emits_pure
    | with_reducible apply emits_ask
    | (with_reducible apply emits_log; simp [quiet])
    | (with_reducible apply emits_emit; simp [Effect.kind, quiet])
    | (with_reducible apply emits_call; intro _; simp [Effect.kind, quiet])
    | with_reducible apply emits_bind
    | with_reducible intro _
    | dsimp only
    | split)

theorem Emits.calm_of_quiet {α : Type} {x : M α} (hx : Emits quiet x) : Emits calm x :=
  hx.mono (by simp [calm])

theorem Emits.not_installer {α : Type} {x : M α} (hx : Emits calm x) (h : Hist) :
    ∀ e ∈ (x h).2, e.kind ≠ .installer := by
  intro e he hk
  have := hx h e he
  rw [hk] at this
  simp [calm, quiet] at this

theorem updatePrepare_emits (m : Manager) (rd : RepoRevisionData) (env : QAEnvironment) :
    Emits calm (updatePrepare m rd env) := by
  unfold updatePrepare
  repeat (first
    | with_reducible apply emits_pure
    | with_reducible apply emits_ask
    | with_reducible exact (pushNotification_emits _ _ _ _ _).mono (by simp [calm])
    | with_reducible exact (processEnvConfig_emits _ _ _).mono (by simp [calm])
    | with_reducible exact (createPendingGithubStatus_emits _ _).mono (by simp [calm])
    | with_reducible exact (fetchCharts_emits _ _ _).mono (by simp [calm, quiet])
    | (with_reducible apply emits_log; simp [calm, quiet])
    | (with_reducible apply emits_emit; simp [Effect.kind, calm, quiet])
    | (with_reducible apply emits_call; intro _; simp [Effect.kind, calm, quiet])
    | with_reducible apply emits_bind
    | with_reducible intro _
    | dsimp only
    | split)

theorem getenv_one (m : Manager) (rd : RepoRevisionData) (h : Hist) (env : QAEnvironment)
    (hone : m.DL.GetExtantQAEnvironments h rd.Repo rd.PullRequest = ([env], .nil)) :
    getenv m rd h = ((some env, .nil), [.GetExtantQAEnvironments rd.Repo rd.PullRequest [env] .nil]) := by
  simp [getenv, run_bind, run_call, run_pure, hone]

theorem updateMain_install (m : Manager) (rd : RepoRevisionData) (hs : Hist) (env : QAEnvironment)
    (ne : newEnv) (k8senv : K8sEnvironment) (td : String) (cloc : List (String × MetaChartLocation))
    (hreach : (updatePrepare m rd env hs).1 = .install ne k8senv td cloc) :
    (updateMain m rd env hs).2 = (updatePrepare m rd env hs).2
      ++ (updateInstall m rd env ne k8senv cloc
          (hs ++ (updatePrepare m rd env hs).2.filter Effect.visible)).2 ++ [.RemoveAll td] := by
  simp [updateMain, run_bind, hreach, run_emit, run_pure]

theorem update_split (m : Manager) (rd : RepoRevisionData) (h : Hist) (env : QAEnvironment)
    (ne : newEnv) (k8senv : K8sEnvironment) (td : String) (cloc : List (String × MetaChartLocation))
    (hone : m.DL.GetExtantQAEnvironments h rd.Repo rd.PullRequest = ([env], .nil))
    (hreach : (updatePrepare m rd env
      (h ++ (setloggername m env.Name h).2.filter Effect.visible)).1 = .install ne k8senv td cloc) :
    ∃ pre post hh, (update m rd h).2 = pre ++ (updateInstall m rd env ne k8senv cloc hh).2 ++ post
      ∧ (∀ e ∈ pre, e.kind ≠ .installer) ∧ (∀ e ∈ post, e.kind ≠ .installer) := by
  have hmain := updateMain_install m rd _ env ne k8senv td cloc hreach
  have hset := Emits.calm_of_quiet (setloggername_emits m env.Name)
  have hprep := updatePrepare_emits m rd env
  refine ⟨[.Timing .update rd.Repo, .SpanStart "update",
      .GetExtantQAEnvironments rd.Repo rd.PullRequest [env] .nil]
      ++ (setloggername m env.Name h).2
      ++ (updatePrepare m rd env (h ++ (setloggername m env.Name h).2.filter Effect.visible)).2,
    .RemoveAll td :: ((updateDeferred m rd env
        (updateMain m rd env (h ++ (setloggername m env.Name h).2.filter Effect.visible)).1.1
        (updateMain m rd env (h ++ (setloggername m env.Name h).2.filter Effect.visible)).1.2.err
        (h ++ (setloggername m env.Name h).2.filter Effect.visible
          ++ (updateMain m rd env
            (h ++ (setloggername m env.Name h).2.filter Effect.visible)).2.filter Effect.visible)).2
      ++ [.TimingEnd .update [("success",
            (updateMain m rd env
              (h ++ (setloggername m env.Name h).2.filter Effect.visible)).1.2.err == .nil)],
          .SpanFinish "update" (updateMain m rd env
              (h ++ (setloggername m env.Name h).2.filter Effect.visible)).1.2.err]),
    h ++ (setloggername m env.Name h).2.filter Effect.visible
      ++ (updatePrepare m rd env
        (h ++ (setloggername m env.Name h).2.filter Effect.visible)).2.filter Effect.visible,
    ?_, ?_, ?_⟩
  · simp only [update, updateTimed, run_bind, run_emit]
    simp [Effect.visible, getenv_one m rd h env hone, run_bind, run_pure, hmain]
  · intro e he
    simp only [List.mem_append, List.mem_cons, List.mem_singleton, List.not_mem_nil, or_false] at he
    rcases he with (((rfl | rfl | rfl) | he) | he)
    · simp [Effect.kind]
    · simp [Effect.kind]
    · simp [Effect.kind]
    · exact hset.not_installer _ e he
    · exact hprep.not_installer _ e he
  · intro e he
    simp only [List.mem_append, List.mem_cons, List.mem_singleton, List.not_mem_nil, or_false] at he
    rcases he with (rfl | he | rfl | rfl)
    · simp [Effect.kind]
    · exact (Emits.calm_of_quiet (updateDeferred_emits m rd env _ _)).not_installer _ e he
    · simp [Effect.kind]
    · simp [Effect.kind]

theorem Wrap_eq_nil (err : GoError) (msg : String) : Wrap err msg = .nil ↔ err = .nil := by
  cases err <;> simp [Wrap]

theorem updateInstall_inPlace (m : Manager) (rd : RepoRevisionData) (env : QAEnvironment)
    (ne : newEnv) (rc : RepoConfig) (k8senv : K8sEnvironment) (cloc : List (String × MetaChartLocation))
    (hh : Hist) (hrc : ne.rc = some rc)
    (hsig : rc.configSignature = copy32 k8senv.ConfigSignature ∧ env.Status = .Success) :
    ∃ s releases err tail, (updateInstall m rd env ne k8senv cloc hh).2 =
        .log s :: .Increment .update_in_place rd.Repo
          :: .GetHelmReleasesForEnv env.Name releases err :: tail
      ∧ ∀ e ∈ tail, (∃ ei cl uerr, e = .BuildAndUpgradeCharts ei k8senv cl uerr)
          ∨ e.kind ≠ .installer := by
  simp only [updateInstall, hrc]
  rw [if_pos hsig]
  simp only [run_bind, run_log, run_emit, run_call]
  refine ⟨_, _, _, _, rfl, ?_⟩
  intro e he
  split at he
  · simp [run_pure] at he
  · simp only [run_bind, run_call] at he
    split at he
    · simp [run_bind] at he
      rcases he with he | he | he
      · exact Or.inl ⟨_, _, _, he⟩
      · right
        exact (Emits.calm_of_quiet (handleMetahelmError_emits m _ _ _)).not_installer _ e he
      · split at he <;> simp [run_pure] at he
    · simp [run_pure] at he
      exact Or.inl ⟨_, _, _, he⟩

theorem updateInstall_rebuild (m : Manager) (rd : RepoRevisionData) (env : QAEnvironment)
    (ne : newEnv) (rc : RepoConfig) (k8senv : K8sEnvironment) (cloc : List (String × MetaChartLocation))
    (hh : Hist) (hrc : ne.rc = some rc)
    (hsig : ¬ (rc.configSignature = copy32 k8senv.ConfigSignature ∧ env.Status = .Success)) :
    ∃ s derr tail, (updateInstall m rd env ne k8senv cloc hh).2 =
        .log s :: .Increment .update_tear_down rd.Repo :: .DeleteReleases k8senv derr :: tail
      ∧ (derr ≠ .nil → tail = [])
      ∧ (derr = .nil → ∃ ei cl err tail2,
          tail = .BuildAndInstallChartsIntoExisting ei k8senv cl err :: tail2
            ∧ ∀ e ∈ tail2, e.kind ≠ .installer) := by
  simp only [updateInstall, hrc]
  rw [if_neg hsig]
  simp only [run_bind, run_log, run_emit, run_call]
  generalize m.CI.DeleteReleases _ _ = derr
  refine ⟨_, derr, _, rfl, ?_, ?_⟩
  · intro hd
    rw [if_pos (by simpa [Wrap_eq_nil] using hd)]
    simp [run_pure]
  · intro hd
    subst hd
    rw [if_neg (by simp [Wrap])]
    simp only [run_bind, run_call]
    generalize m.CI.BuildAndInstallChartsIntoExisting _ _ _ _ = ierr
    refine ⟨_, _, ierr, _, rfl, ?_⟩
    intro e he
    split at he
    · simp [run_bind] at he
      rcases he with he | he
      · exact (Emits.calm_of_quiet (handleMetahelmError_emits m _ _ _)).not_installer _ e he
      · split at he <;> simp [run_pure] at he
    · simp [run_pure] at he

theorem copy32_of_length (sig : List Nat) (h : sig.length = 32) : copy32 sig = sig := by
  simp [copy32, h, List.take_of_length_le (Nat.le_of_eq h)]

theorem update_inPlace_of_match (m : Manager) (rd : RepoRevisionData) (h : Hist) (env : QAEnvironment)
    (ne : newEnv) (rc : RepoConfig) (k8senv : K8sEnvironment) (td : String)
    (cloc : List (String × MetaChartLocation))
    (hone : m.DL.GetExtantQAEnvironments h rd.Repo rd.PullRequest = ([env], .nil))
    (hreach : (updatePrepare m rd env
      (h ++ (setloggername m env.Name h).2.filter Effect.visible)).1 = .install ne k8senv td cloc)
    (hrc : ne.rc = some rc)
    (hsig : rc.configSignature = copy32 k8senv.ConfigSignature ∧ env.Status = .Success) :
    UpgradedInPlace rd env (update m rd h).2 := by
  obtain ⟨pre, post, hh, ht, hpre, hpost⟩ := update_split m rd h env ne k8senv td cloc hone hreach
  obtain ⟨s, releases, err, tail, hi, htail⟩ :=
    updateInstall_inPlace m rd env ne rc k8senv cloc hh hrc hsig
  rw [ht, hi]
  refine ⟨by simp, ⟨releases, err, by simp⟩, ?_, ?_⟩
  · intro k derr hmem
    simp only [List.mem_append, List.mem_cons] at hmem
    rcases hmem with (hmem | hmem | hmem | hmem | hmem) | hmem
    · exact hpre _ hmem (by simp [Effect.kind])
    · cases hmem
    · cases hmem
    · cases hmem
    · rcases htail _ hmem with ⟨_, _, _, heq⟩ | hk
      · cases heq
      · exact hk (by simp [Effect.kind])
    · exact hpost _ hmem (by simp [Effect.kind])
  · intro ei k cl ierr hmem
    simp only [List.mem_append, List.mem_cons] at hmem
    rcases hmem with (hmem | hmem | hmem | hmem | hmem) | hmem
    · exact hpre _ hmem (by simp [Effect.kind])
    · cases hmem
    · cases hmem
    · cases hmem
    · rcases htail _ hmem with ⟨_, _, _, heq⟩ | hk
      · cases heq
      · exact hk (by simp [Effect.kind])
    · exact hpost _ hmem (by simp [Effect.kind])

theorem update_rebuilt_of_mismatch (m : Manager) (rd : RepoRevisionData) (h : Hist)
    (env : QAEnvironment) (ne : newEnv) (rc : RepoConfig) (k8senv : K8sEnvironment) (td : String)
    (cloc : List (String × MetaChartLocation))
    (hone : m.DL.GetExtantQAEnvironments h rd.Repo rd.PullRequest = ([env], .nil))
    (hreach : (updatePrepare m rd env
      (h ++ (setloggername m env.Name h).2.filter Effect.visible)).1 = .install ne k8senv td cloc)
    (hrc : ne.rc = some rc)
    (hsig : ¬ (rc.configSignature = copy32 k8senv.ConfigSignature ∧ env.Status = .Success)) :
    Rebuilt rd k8senv (update m rd h).2 := by
  obtain ⟨pre, post, hh, ht, hpre, hpost⟩ := update_split m rd h env ne k8senv td cloc hone hreach
  obtain ⟨s, derr, tail, hi, hfail, hok⟩ :=
    updateInstall_rebuild m rd env ne rc k8senv cloc hh hrc hsig
  rw [ht, hi]
  refine ⟨by simp, ⟨pre ++ [.log s, .Increment .update_tear_down rd.Repo], derr, tail ++ post,
    by simp, ?_, ?_, ?_⟩, ?_⟩
  · intro e he
    simp only [List.mem_append, List.mem_cons, List.mem_singleton, List.not_mem_nil, or_false] at he
    rcases he with he | rfl | rfl
    · exact hpre _ he
    · simp [Effect.kind]
    · simp [Effect.kind]
  · intro hd
    obtain ⟨ei, cl, ierr, tail2, htl, _⟩ := hok hd
    exact ⟨ei, cl, ierr, by simp [htl]⟩
  · intro hd e he
    rw [hfail hd] at he
    exact hpost _ (by simpa using he)
  · intro ei k cl uerr hmem
    simp only [List.mem_append, List.mem_cons] at hmem
    rcases hmem with (hmem | hmem | hmem | hmem | hmem) | hmem
    · exact hpre _ hmem (by simp [Effect.kind])
    · cases hmem
    · cases hmem
    · cases hmem
    · by_cases hd : derr = .nil
      · obtain ⟨ei2, cl2, ierr, tail2, htl, hq⟩ := hok hd
        rw [htl] at hmem
        rcases List.mem_cons.mp hmem with heq | hmem
        · cases heq
        · exact hq _ hmem (by simp [Effect.kind])
      · rw [hfail hd] at hmem
        cases hmem
    · exact hpost _ hmem (by simp [Effect.kind])

theorem getenv_none (m : Manager) (rd : RepoRevisionData) (h : Hist)
    (hnone : m.DL.GetExtantQAEnvironments h rd.Repo rd.PullRequest = ([], .nil)) :
    getenv m rd h = ((none, .extantEnvsErr),
      [.GetExtantQAEnvironments rd.Repo rd.PullRequest [] .nil,
        .log "expected exactly one extant environment but there are %v"]) := by
  simp [getenv, run_bind, run_call, run_pure, run_log, hnone]

theorem sortSlice_perm (envs : List QAEnvironment) : (sortSlice envs).Perm envs :=
  List.perm_insertionSort _ _

theorem sortSlice_sorted (envs : List QAEnvironment) :
    (sortSlice envs).Pairwise (fun a b => a.Created ≤ b.Created) := by
  haveI : IsTotal QAEnvironment (fun a b => a.Created ≤ b.Created) := ⟨fun a b => Nat.le_total _ _⟩
  haveI : IsTrans QAEnvironment (fun a b => a.Created ≤ b.Created) :=
    ⟨fun a b c => Nat.le_trans⟩
  exact List.sorted_insertionSort _ _

theorem getLast_latest (l : List QAEnvironment) (hl : l ≠ [])
    (hs : l.Pairwise (fun a b => a.Created ≤ b.Created)) :
    ∀ e ∈ l, e.Created ≤ (l.getLast hl).Created := by
  intro e he
  rw [← List.dropLast_append_getLast hl] at he hs
  rcases List.mem_append.mp he with h1 | h1
  · exact (List.pairwise_append.mp hs).2.2 e h1 _ (by simp)
  · simp at h1
    rw [h1]

theorem latest_spec (m : Manager) (envs : List QAEnvironment) (hne : envs ≠ []) :
    latest m envs ∈ envs ∧ ∀ e ∈ envs, e.Created ≤ (latest m envs).Created := by
  have hsl : m.RT.sort envs ≠ [] := by
    intro h0
    have := (m.RT.sort_perm envs).length_eq
    rw [h0] at this
    exact hne (List.length_eq_zero.mp this.symm)
  have hl : latest m envs = (m.RT.sort envs).getLast hsl := by
    unfold latest
    rw [List.getLastD_eq_getLast?, List.getLast?_eq_getLast _ hsl]
    rfl
  rw [hl]
  refine ⟨(m.RT.sort_perm envs).mem_iff.mp (List.getLast_mem hsl), fun e he => ?_⟩
  exact getLast_latest _ hsl (m.RT.sort_sorted envs) e ((m.RT.sort_perm envs).mem_iff.mpr he)

theorem returns_pure {α : Type} {P : α → Prop} {a : α} (hp : P a) : Returns P (pure a : M α) :=
  fun _ => hp

theorem returns_bind {α β : Type} {P : β → Prop} {x : M α} {f : α → M β}
    (hf : ∀ a, Returns P (f a)) : Returns P (x >>= f) :=
  fun _ => hf _ _

theorem Returns.bind_of {α β : Type} {Q : α → Prop} {P : β → Prop} {x : M α} {f : α → M β}
    (hx : Returns Q x) (hf : ∀ a, Q a → Returns P (f a)) : Returns P (x >>= f) :=
  fun h => hf _ (hx h) _

theorem processEnvConfigBody_keeps_env (m : Manager) (env : QAEnvironment)
    (rd : Option RepoRevisionData) :
    Returns (fun r => r.ne ≠ none ∧ (r.err ≠ .nil → ∃ rc, r.ne = some { env := some env, rc := rc }))
      (processEnvConfigBody m env rd) := by
  unfold processEnvConfigBody
  repeat (first
    | (with_reducible apply returns_pure; simp)
    | with_reducible apply returns_bind
    | with_reducible intro _
    | dsimp only
    | split)

theorem processEnvConfig_keeps_env (m : Manager) (env : QAEnvironment)
    (rd : Option RepoRevisionData) :
    Returns (fun r => r.ne ≠ none ∧ (r.err ≠ .nil → ∃ rc, r.ne = some { env := some env, rc := rc }))
      (processEnvConfig m env rd) := by
  unfold processEnvConfig
  apply returns_bind
  intro _
  refine Returns.bind_of (processEnvConfigBody_keeps_env m env rd) ?_
  intro r hr
  apply returns_bind
  intro _
  apply returns_pure
  refine ⟨hr.1, fun he => hr.2 ?_⟩
  intro h0
  simp [h0, processEnvConfigDeferred] at he

theorem never_pure {α : Type} (p : Effect → Bool) (a : α) : Never p (pure a : M α) := by
  intro h e he
  simp [run_pure] at he

theorem never_bind {α β : Type} {p : Effect → Bool} {x : M α} {f : α → M β}
    (hx : Never p x) (hf : ∀ a, Never p (f a)) : Never p (x >>= f) := by
  intro h e he
  rw [run_bind] at he
  rcases List.mem_append.mp he with h1 | h2
  · exact hx h e h1
  · exact hf _ _ e h2

theorem never_call {β : Type} {p : Effect → Bool} (answer : Hist → β) (record : β → Effect)
    (hk : ∀ b, p (record b) = false) : Never p (call answer record) := by
  intro h e he
  simp [run_call] at he
  subst he
  exact hk _

theorem never_emit {p : Effect → Bool} (e : Effect) (hk : p e = false) : Never p (emit e) := by
  intro h e1 he
  simp [run_emit] at he
  subst he
  exact hk

theorem never_log {p : Effect → Bool} (s : String) (hk : p (.log s) = false) : Never p (log s) :=
  never_emit _ hk

theorem never_ask {β : Type} (p : Effect → Bool) (answer : Hist → β) : Never p (ask answer) := by
  intro h e he
  simp [run_ask] at he

theorem Never.of_emits {α : Type} {p : Effect → Bool} {K : List Kind} {x : M α} (hx : Emits K x)
    (hK : ∀ e, e.kind ∈ K → p e = false) : Never p x :=
  fun h e he => hK e (hx h e he)

theorem Never.countP {α : Type} {p : Effect → Bool} {x : M α} (hx : Never p x) (h : Hist) :
    (x h).2.countP p = 0 := by
  rw [List.countP_eq_zero]
  intro e he
  simp [hx h e he]

theorem loud_of_kind (e : Effect) (h : e.kind ∈ [Kind.log, .metric, .span, .done, .dbRead, .dbWrite,
    .repoRead, .namegen, .config, .fetch, .scratch, .installer, .render, .upload]) :
    e.loud = false := by
  cases e <;> simp [Effect.kind] at h <;> simp [Effect.loud, Effect.isTerminalStatus, Effect.isNotification]

theorem pushNotification_quiet_event (m : Manager) (ctx : Ctx) (env : Option newEnv)
    (event : NotificationEvent) (errmsg : ErrorMessage)
    (hev : event ≠ .Success ∧ event ≠ .Failure) :
    Never Effect.loud (pushNotification m ctx env event errmsg) := by
  unfold pushNotification validContext
  repeat (first
    | with_reducible apply never_pure
    | with_reducible apply never_ask
    | (with_reducible apply never_log; simp [Effect.loud, Effect.isTerminalStatus, Effect.isNotification])
    | (with_reducible apply never_emit; simp [Effect.loud, Effect.isTerminalStatus, Effect.isNotification, hev])
    | (with_reducible apply never_call; intro _; simp [Effect.loud, Effect.isTerminalStatus, Effect.isNotification, hev])
    | with_reducible apply never_bind
    | with_reducible intro _
    | dsimp only
    | split)

theorem createPendingGithubStatus_never (m : Manager) (rd : RepoRevisionData) :
    Never Effect.loud (createPendingGithubStatus m rd) := by
  unfold createPendingGithubStatus
  repeat (first
    | with_reducible apply never_pure
    | with_reducible apply never_ask
    | (with_reducible apply never_log; simp [Effect.loud, Effect.isTerminalStatus, Effect.isNotification])
    | (with_reducible apply never_emit; simp [Effect.loud, Effect.isTerminalStatus, Effect.isNotification])
    | (with_reducible apply never_call; intro _; simp [Effect.loud, Effect.isTerminalStatus, Effect.isNotification])
    | with_reducible apply never_bind
    | with_reducible intro _
    | dsimp only
    | split)

theorem tally_append (t1 t2 : List Effect) :
    statuses (t1 ++ t2) = statuses t1 + statuses t2
      ∧ successes (t1 ++ t2) = successes t1 + successes t2
      ∧ failures (t1 ++ t2) = failures t1 + failures t2 := by
  simp [statuses, successes, failures, List.countP_append]

theorem Never.tally {α : Type} {x : M α} (hx : Never Effect.loud x) (h : Hist) :
    statuses (x h).2 = 0 ∧ successes (x h).2 = 0 ∧ failures (x h).2 = 0 := by
  have hl := hx h
  simp only [statuses, successes, failures, List.countP_eq_zero]
  refine ⟨fun e he => ?_, fun e he => ?_, fun e he => ?_⟩ <;>
    · have := hl e he
      simp only [Effect.loud, Bool.or_eq_false_iff] at this
      simp [this]

theorem tally_pure {α : Type} {P : α → Nat → Nat → Nat → Prop} {a : α} (hp : P a 0 0 0) :
    Tally P (pure a : M α) := by
  intro h
  simpa [run_pure, statuses, successes, failures] using hp

theorem tally_bind {α β : Type} {Q : α → Nat → Nat → Nat → Prop}
    {R : α → β → Nat → Nat → Nat → Prop} {P : β → Nat → Nat → Nat → Prop} {x : M α} {f : α → M β}
    (hx : Tally Q x) (hf : ∀ a, Tally (R a) (f a))
    (hc : ∀ a s1 u1 v1 b s2 u2 v2, Q a s1 u1 v1 → R a b s2 u2 v2 → P b (s1 + s2) (u1 + u2) (v1 + v2)) :
    Tally P (x >>= f) := by
  intro h
  rw [run_bind]
  obtain ⟨h1, h2, h3⟩ := tally_append (x h).2 (f (x h).1 (h ++ (x h).2.filter Effect.visible)).2
  simp only [h1, h2, h3]
  exact hc _ _ _ _ _ _ _ _ (hx h) (hf _ _)

theorem Tally.bind_never {α β : Type} {P : β → Nat → Nat → Nat → Prop} {x : M α} {f : α → M β}
    (hx : Never Effect.loud x) (hf : ∀ a, Tally P (f a)) : Tally P (x >>= f) := by
  intro h
  rw [run_bind]
  obtain ⟨h1, h2, h3⟩ := tally_append (x h).2 (f (x h).1 (h ++ (x h).2.filter Effect.visible)).2
  obtain ⟨z1, z2, z3⟩ := hx.tally h
  simp only [h1, h2, h3, z1, z2, z3, Nat.zero_add]
  exact hf _ _

theorem Tally.bind_last {α β : Type} {Q : α → Nat → Nat → Nat → Prop}
    {P : β → Nat → Nat → Nat → Prop} {x : M α} {f : α → M β}
    (hx : Tally Q x) (hf : ∀ a, Never Effect.loud (f a))
    (hr : ∀ a s u v, Q a s u v → ∀ h, P (f a h).1 s u v) : Tally P (x >>= f) := by
  intro h
  rw [run_bind]
  obtain ⟨h1, h2, h3⟩ := tally_append (x h).2 (f (x h).1 (h ++ (x h).2.filter Effect.visible)).2
  obtain ⟨z1, z2, z3⟩ := (hf (x h).1).tally (h ++ (x h).2.filter Effect.visible)
  simp only [h1, h2, h3, z1, z2, z3, Nat.add_zero]
  exact hr _ _ _ _ (hx h) _

theorem tally_call {β : Type} {P : β → Nat → Nat → Nat → Prop} (answer : Hist → β)
    (record : β → Effect)
    (hp : ∀ b, P b (statuses [record b]) (successes [record b]) (failures [record b])) :
    Tally P (call answer record) := by
  intro h
  rw [run_call]
  exact hp _

theorem Tally.of_never {α : Type} {P : α → Nat → Nat → Nat → Prop} {x : M α}
    (hx : Never Effect.loud x) (hp : ∀ a, P a 0 0 0) : Tally P x := by
  intro h
  obtain ⟨z1, z2, z3⟩ := hx.tally h
  rw [z1, z2, z3]
  exact hp _

theorem tally_mono {α : Type} {P Q : α → Nat → Nat → Nat → Prop} {x : M α} (hx : Tally Q x)
    (hpq : ∀ a s u v, Q a s u v → P a s u v) : Tally P x :=
  fun h => hpq _ _ _ _ (hx h)

theorem logIf_never (c : Prop) [Decidable c] (s : String) :
    Never Effect.loud (if c then log s else pure ()) := by
  split
  · exact never_log _ (by simp [Effect.loud, Effect.isTerminalStatus, Effect.isNotification])
  · exact never_pure _ _

theorem createErrorGithubStatus_tally (m : Manager) (rd : RepoRevisionData) :
    Tally (fun _ s u v => s = 1 ∧ u = 0 ∧ v = 0) (createErrorGithubStatus m rd) := by
  unfold createErrorGithubStatus validContext
  refine Tally.bind_never (never_ask _ _) fun vctx => ?_
  refine Tally.bind_last (Q := fun _ s u v => s = 1 ∧ u = 0 ∧ v = 0)
    (tally_call _ _ fun _ => by simp [statuses, successes, failures, Effect.loud, Effect.isTerminalStatus, Effect.isNotification]) (fun err => ?_)
    (fun _ _ _ _ hq _ => hq)
  exact never_bind (logIf_never _ _) fun _ => never_pure _ _

theorem createSuccessGithubStatus_tally (m : Manager) (rd : RepoRevisionData) :
    Tally (fun _ s u v => s = 1 ∧ u = 0 ∧ v = 0) (createSuccessGithubStatus m rd) := by
  unfold createSuccessGithubStatus
  refine Tally.bind_last (Q := fun _ s u v => s = 1 ∧ u = 0 ∧ v = 0)
    (tally_call _ _ fun _ => by simp [statuses, successes, failures, Effect.loud, Effect.isTerminalStatus, Effect.isNotification]) (fun err => ?_)
    (fun _ _ _ _ hq _ => hq)
  exact never_bind (logIf_never _ _) fun _ => never_pure _ _

theorem setloggername_never (m : Manager) (name : String) :
    Never Effect.loud (setloggername m name) := by
  unfold setloggername
  repeat (first
    | with_reducible apply never_pure
    | with_reducible apply never_ask
    | (with_reducible apply never_log; simp [Effect.loud, Effect.isTerminalStatus, Effect.isNotification])
    | (with_reducible apply never_emit; simp [Effect.loud, Effect.isTerminalStatus, Effect.isNotification])
    | (with_reducible apply never_call; intro _; simp [Effect.loud, Effect.isTerminalStatus, Effect.isNotification])
    | with_reducible apply never_bind
    | with_reducible intro _
    | dsimp only
    | split)

theorem getRepoConfig_never (m : Manager) (rd : Option RepoRevisionData) :
    Never Effect.loud (getRepoConfig m rd) := by
  unfold getRepoConfig
  repeat (first
    | with_reducible apply never_pure
    | with_reducible apply never_ask
    | (with_reducible apply never_log; simp [Effect.loud, Effect.isTerminalStatus, Effect.isNotification])
    | (with_reducible apply never_emit; simp [Effect.loud, Effect.isTerminalStatus, Effect.isNotification])
    | (with_reducible apply never_call; intro _; simp [Effect.loud, Effect.isTerminalStatus, Effect.isNotification])
    | with_reducible apply never_bind
    | with_reducible intro _
    | dsimp only
    | split)

theorem generateNewEnv_never (m : Manager) (rd : RepoRevisionData) :
    Never Effect.loud (generateNewEnv m rd) := by
  unfold generateNewEnv generateNewEnvBody
  repeat (first
    | with_reducible apply never_pure
    | with_reducible apply never_ask
    | (with_reducible apply never_log; simp [Effect.loud, Effect.isTerminalStatus, Effect.isNotification])
    | (with_reducible apply never_emit; simp [Effect.loud, Effect.isTerminalStatus, Effect.isNotification])
    | (with_reducible apply never_call; intro _; simp [Effect.loud, Effect.isTerminalStatus, Effect.isNotification])
    | with_reducible apply never_bind
    | with_reducible intro _
    | dsimp only
    | split)

theorem processEnvConfig_never (m : Manager) (env : QAEnvironment) (rd : Option RepoRevisionData) :
    Never Effect.loud (processEnvConfig m env rd) := by
  unfold processEnvConfig processEnvConfigBody
  repeat (first
    | with_reducible apply never_pure
    | with_reducible apply never_ask
    | with_reducible exact getRepoConfig_never _ _
    | (with_reducible apply never_log; simp [Effect.loud, Effect.isTerminalStatus, Effect.isNotification])
    | (with_reducible apply never_emit; simp [Effect.loud, Effect.isTerminalStatus, Effect.isNotification])
    | (with_reducible apply never_call; intro _; simp [Effect.loud, Effect.isTerminalStatus, Effect.isNotification])
    | with_reducible apply never_bind
    | with_reducible intro _
    | dsimp only
    | split)

theorem fetchCharts_never (m : Manager) (name : String) (rc : Option RepoConfig) :
    Never Effect.loud (fetchCharts m name rc) := by
  unfold fetchCharts fetchChartsBody
  repeat (first
    | with_reducible apply never_pure
    | with_reducible apply never_ask
    | (with_reducible apply never_log; simp [Effect.loud, Effect.isTerminalStatus, Effect.isNotification])
    | (with_reducible apply never_emit; simp [Effect.loud, Effect.isTerminalStatus, Effect.isNotification])
    | (with_reducible apply never_call; intro _; simp [Effect.loud, Effect.isTerminalStatus, Effect.isNotification])
    | with_reducible apply never_bind
    | with_reducible intro _
    | dsimp only
    | split)

theorem getenv_never (m : Manager) (rd : RepoRevisionData) : Never Effect.loud (getenv m rd) := by
  unfold getenv
  repeat (first
    | with_reducible apply never_pure
    | with_reducible apply never_ask
    | (with_reducible apply never_log; simp [Effect.loud, Effect.isTerminalStatus, Effect.isNotification])
    | (with_reducible apply never_emit; simp [Effect.loud, Effect.isTerminalStatus, Effect.isNotification])
    | (with_reducible apply never_call; intro _; simp [Effect.loud, Effect.isTerminalStatus, Effect.isNotification])
    | with_reducible apply never_bind
    | with_reducible intro _
    | dsimp only
    | split)

theorem setAllDestroyed_never (m : Manager) (envs : List QAEnvironment) :
    Never Effect.loud (setAllDestroyed m envs) := by
  induction envs with
  | nil => exact never_pure _ _
  | cons e es ih =>
    unfold setAllDestroyed
    repeat (first
      | with_reducible exact ih
      | with_reducible apply never_pure
      | (with_reducible apply never_log; simp [Effect.loud, Effect.isTerminalStatus, Effect.isNotification])
      | (with_reducible apply never_call; intro _; simp [Effect.loud, Effect.isTerminalStatus, Effect.isNotification])
      | with_reducible apply never_bind
      | with_reducible intro _
      | dsimp only
      | split)

theorem pushNotification_tally (m : Manager) (ctx : Ctx) (env : Option newEnv)
    (event : NotificationEvent) (errmsg : ErrorMessage) :
    Tally (fun _ s u v => s = 0 ∧ u ≤ eventBudget event .Success ∧ v ≤ eventBudget event .Failure)
      (pushNotification m ctx env event errmsg) := by
  unfold pushNotification validContext
  split
  · exact Tally.of_never (never_bind (never_log _ (by simp [Effect.loud, Effect.isTerminalStatus, Effect.isNotification])) fun _ => never_pure _ _) (by simp)
  · split
    · exact Tally.of_never (never_bind (never_log _ (by simp [Effect.loud, Effect.isTerminalStatus, Effect.isNotification])) fun _ => never_pure _ _) (by simp)
    · refine Tally.bind_never (never_ask _ _) fun vctx => ?_
      refine Tally.bind_never (never_call _ _ fun _ => by simp [Effect.loud, Effect.isTerminalStatus, Effect.isNotification]) fun r => ?_
      refine Tally.bind_never (logIf_never _ _) fun _ => ?_
      refine Tally.bind_never (never_call _ _ fun _ => by simp [Effect.loud, Effect.isTerminalStatus, Effect.isNotification]) fun k => ?_
      dsimp only
      refine Tally.bind_never ?_ fun _ => ?_
      · split
        · exact never_bind (never_log _ (by simp [Effect.loud, Effect.isTerminalStatus, Effect.isNotification])) fun _ => never_emit _ (by simp [Effect.loud, Effect.isTerminalStatus, Effect.isNotification])
        · exact never_pure _ _
      · split
        · exact Tally.of_never (never_bind (never_log _ (by simp [Effect.loud, Effect.isTerminalStatus, Effect.isNotification])) fun _ => never_pure _ _) (by simp)
        · refine Tally.bind_last (Q := fun _ s u v => s = 0 ∧ u ≤ eventBudget event .Success
              ∧ v ≤ eventBudget event .Failure)
            (tally_call _ _ fun _ => ?_) (fun err => ?_) (fun _ _ _ _ hq _ => hq)
          · cases event <;> simp [statuses, successes, failures, Effect.isTerminalStatus, Effect.isNotification, eventBudget]
          · refine never_bind ?_ fun _ => never_pure _ _
            split
            · exact never_bind (never_log _ (by simp [Effect.loud, Effect.isTerminalStatus, Effect.isNotification])) fun _ => never_emit _ (by simp [Effect.loud, Effect.isTerminalStatus, Effect.isNotification])
            · exact never_pure _ _

theorem chartErrorRenderHTML_never (m : Manager) (data : failureTemplateData) :
    Never Effect.loud (chartErrorRenderHTML m data) := by
  unfold chartErrorRenderHTML
  repeat (first
    | with_reducible apply never_pure
    | (with_reducible apply never_call; intro _; simp [Effect.loud, Effect.isTerminalStatus, Effect.isNotification])
    | with_reducible apply never_bind
    | with_reducible intro _
    | dsimp only
    | split)

theorem Wrap_ne_nil (err : GoError) (msg : String) (h : err ≠ .nil) : Wrap err msg ≠ .nil := by
  cases err <;> simp_all [Wrap]

theorem pushFailure_then_tally (m : Manager) (ctx : Ctx) (env : Option newEnv)
    (errmsg : ErrorMessage) (r : Option newEnv → ConfigResult)
    (hr : ∀ e, (r e).panicked = false ∧ (r e).err ≠ .nil) :
    Tally (fun r s u v => s = 0 ∧ u = 0 ∧ v ≤ 1 ∧ (0 < v → r.panicked = false ∧ r.err ≠ .nil))
      (pushNotification m ctx env .Failure errmsg >>= fun env2 => pure (r env2)) := by
  refine Tally.bind_last (pushNotification_tally _ _ _ _ _) (fun _ => never_pure _ _) ?_
  intro a s u v hq h
  simp only [eventBudget] at hq
  simp only [run_pure]
  refine ⟨hq.1, by simpa using hq.2.1, by simpa using hq.2.2, fun _ => hr a⟩

theorem handleMetahelmError_tally (m : Manager) (env : Option newEnv) (err : GoError)
    (msg : String) :
    Tally (fun r s u v => s = 0 ∧ u = 0 ∧ v ≤ 1 ∧ (0 < v → r.panicked = false ∧ r.err ≠ .nil))
      (handleMetahelmError m env err msg) := by
  unfold handleMetahelmError
  repeat (first
    | (with_reducible apply tally_pure; simp)
    | (with_reducible refine Tally.bind_never ?_ ?_; · (repeat (first
          | with_reducible apply never_pure
          | with_reducible apply never_ask
          | with_reducible exact chartErrorRenderHTML_never _ _
          | (with_reducible apply never_log; simp [Effect.loud, Effect.isTerminalStatus, Effect.isNotification])
          | (with_reducible apply never_emit; simp [Effect.loud, Effect.isTerminalStatus, Effect.isNotification])
          | (with_reducible apply never_call; intro _; simp [Effect.loud, Effect.isTerminalStatus, Effect.isNotification])
          | with_reducible apply never_bind
          | with_reducible intro _
          | dsimp only
          | split)))
    | (with_reducible refine pushFailure_then_tally _ _ _ _ _ ?_; intro _; simp [Wrap, UserError])
    | with_reducible intro _
    | dsimp only
    | split)

theorem createDeferred_tally (m : Manager) (rd : RepoRevisionData) (env : QAEnvironment)
    (newenv : Option newEnv) (err : GoError) :
    Tally (fun _ s u v => s = 1 ∧ (err ≠ .nil → u = 0 ∧ v ≤ 1) ∧ (err = .nil → u ≤ 1 ∧ v = 0))
      (createDeferred m rd env newenv err) := by
  unfold createDeferred
  by_cases herr : err = .nil
  · rw [if_neg (by simp [herr])]
    refine tally_bind (pushNotification_tally _ _ _ _ _)
      (R := fun _ _ s u v => s = 1 ∧ u = 0 ∧ v = 0) (fun _ => ?_) ?_
    · exact Tally.bind_last (createSuccessGithubStatus_tally m rd) (fun _ => never_pure _ _)
        (fun _ _ _ _ hq _ => hq)
    · intro a s1 u1 v1 b s2 u2 v2 h1 h2
      simp only [eventBudget] at h1
      simp at h1
      refine ⟨by omega, fun hne => absurd herr hne, fun _ => by omega⟩
  · rw [if_pos herr]
    refine Tally.bind_never (never_call _ _ fun _ => by simp [Effect.loud, Effect.isTerminalStatus, Effect.isNotification]) fun _ => ?_
    refine Tally.bind_never (logIf_never _ _) fun _ => ?_
    refine tally_bind (pushNotification_tally _ _ _ _ _)
      (R := fun _ _ s u v => s = 1 ∧ u = 0 ∧ v = 0) (fun _ => ?_) ?_
    · refine Tally.bind_last (createErrorGithubStatus_tally m rd) (fun _ => ?_)
        (fun _ _ _ _ hq _ => hq)
      exact never_emit _ (by simp [Effect.loud, Effect.isTerminalStatus, Effect.isNotification])
    · intro a s1 u1 v1 b s2 u2 v2 h1 h2
      simp only [eventBudget] at h1
      simp at h1
      refine ⟨by omega, fun _ => by omega, fun he => absurd he herr⟩

theorem updateDeferred_tally (m : Manager) (rd : RepoRevisionData) (env : QAEnvironment)
    (ne : Option newEnv) (err : GoError) :
    Tally (fun _ s u v => s = 1 ∧ (err ≠ .nil → u = 0 ∧ v ≤ 1) ∧ (err = .nil → u ≤ 1 ∧ v = 0))
      (updateDeferred m rd env ne err) := by
  unfold updateDeferred
  by_cases herr : err = .nil
  · rw [if_neg (by simp [herr])]
    refine tally_bind (pushNotification_tally _ _ _ _ _)
      (R := fun _ _ s u v => s = 1 ∧ u = 0 ∧ v = 0) (fun _ => ?_) ?_
    · exact Tally.bind_last (createSuccessGithubStatus_tally m rd) (fun _ => never_pure _ _)
        (fun _ _ _ _ hq _ => hq)
    · intro a s1 u1 v1 b s2 u2 v2 h1 h2
      simp only [eventBudget] at h1
      simp at h1
      refine ⟨by omega, fun hne => absurd herr hne, fun _ => by omega⟩
  · rw [if_pos herr]
    refine Tally.bind_never (never_call _ _ fun _ => by simp [Effect.loud, Effect.isTerminalStatus, Effect.isNotification]) fun _ => ?_
    refine Tally.bind_never (logIf_never _ _) fun _ => ?_
    refine tally_bind (pushNotification_tally _ _ _ _ _)
      (R := fun _ _ s u v => s = 1 ∧ u = 0 ∧ v = 0) (fun _ => ?_) ?_
    · exact Tally.bind_last (createErrorGithubStatus_tally m rd) (fun _ => never_pure _ _)
        (fun _ _ _ _ hq _ => hq)
    · intro a s1 u1 v1 b s2 u2 v2 h1 h2
      simp only [eventBudget] at h1
      simp at h1
      refine ⟨by omega, fun _ => by omega, fun he => absurd he herr⟩

theorem handle_then_tally (m : Manager) (env : Option newEnv) (err : GoError) (msg : String)
    (f : ConfigResult → M (Option newEnv × Result)) (hf : ∀ hr, Never Effect.loud (f hr))
    (hres : ∀ hr h, hr.panicked = false → hr.err ≠ .nil → (f hr h).1.2.err ≠ .nil) :
    Tally (fun r s u v => s = 0 ∧ u = 0 ∧ v ≤ 1 ∧ (0 < v → r.2.err ≠ .nil))
      (handleMetahelmError m env err msg >>= f) := by
  refine Tally.bind_last (handleMetahelmError_tally m env err msg) hf ?_
  intro hr s u v hq h
  exact ⟨hq.1, hq.2.1, hq.2.2.1, fun hv => hres hr h (hq.2.2.2 hv).1 (hq.2.2.2 hv).2⟩

theorem createInstall_tally (m : Manager) (ne : newEnv) (cloc : List (String × MetaChartLocation)) :
    Tally (fun r s u v => s = 0 ∧ u = 0 ∧ v ≤ 1 ∧ (0 < v → r.2.err ≠ .nil))
      (createInstall m ne cloc) := by
  unfold createInstall
  repeat (first
    | (with_reducible apply tally_pure; simp)
    | (with_reducible refine handle_then_tally _ _ _ _ _ ?_ ?_)
    | (with_reducible refine Tally.bind_never ?_ ?_; · (repeat (first
          | with_reducible apply never_pure
          | with_reducible apply never_ask
          | with_reducible exact processEnvConfig_never _ _ _
          | with_reducible exact fetchCharts_never _ _ _
          | with_reducible exact createPendingGithubStatus_never _ _
          | (with_reducible apply pushNotification_quiet_event; simp)
          | (with_reducible apply never_log; simp [Effect.loud, Effect.isTerminalStatus, Effect.isNotification])
          | (with_reducible apply never_emit; simp [Effect.loud, Effect.isTerminalStatus, Effect.isNotification])
          | (with_reducible apply never_call; intro _; simp [Effect.loud, Effect.isTerminalStatus, Effect.isNotification])
          | with_reducible apply never_bind
          | with_reducible intro _
          | dsimp only
          | split)))
    | (intro hr; split <;> exact never_pure _ _)
    | (intro hr h hp he; simp [hp, run_pure, he])
    | with_reducible intro _
    | dsimp only
    | split)

theorem Tally.then_emit {α : Type} {P : α → Nat → Nat → Nat → Prop} {x : M α} (hx : Tally P x)
    (e : Effect) (he : e.loud = false) :
    Tally P (x >>= fun r => emit e >>= fun _ => (Pure.pure r : M α)) :=
  Tally.bind_last hx (fun _ => never_bind (never_emit _ he) fun _ => never_pure _ _)
    (fun _ _ _ _ hq _ => hq)

theorem createMain_tally (m : Manager) (rd : RepoRevisionData) (env : QAEnvironment) :
    Tally (fun r s u v => s = 0 ∧ u = 0 ∧ v ≤ 1 ∧ (0 < v → r.2.err ≠ .nil))
      (createMain m rd env) := by
  unfold createMain
  repeat (first
    | (with_reducible apply tally_pure; simp)
    | (with_reducible refine Tally.then_emit (createInstall_tally _ _ _) _ ?_; simp [Effect.loud, Effect.isTerminalStatus, Effect.isNotification])
    | (with_reducible refine Tally.bind_never ?_ ?_; · (repeat (first
          | with_reducible apply never_pure
          | with_reducible apply never_ask
          | with_reducible exact processEnvConfig_never _ _ _
          | with_reducible exact fetchCharts_never _ _ _
          | with_reducible exact createPendingGithubStatus_never _ _
          | (with_reducible apply pushNotification_quiet_event; simp)
          | (with_reducible apply never_log; simp [Effect.loud, Effect.isTerminalStatus, Effect.isNotification])
          | (with_reducible apply never_emit; simp [Effect.loud, Effect.isTerminalStatus, Effect.isNotification])
          | (with_reducible apply never_call; intro _; simp [Effect.loud, Effect.isTerminalStatus, Effect.isNotification])
          | with_reducible apply never_bind
          | with_reducible intro _
          | dsimp only
          | split)))
    | with_reducible intro _
    | dsimp only
    | split)

theorem main_then_deferred (r : Option newEnv × Result) (s1 u1 v1 s2 u2 v2 : Nat)
    (h1 : s1 = 0 ∧ u1 = 0 ∧ v1 ≤ 1 ∧ (0 < v1 → r.2.err ≠ .nil))
    (h2 : s2 = 1 ∧ (r.2.err ≠ .nil → u2 = 0 ∧ v2 ≤ 1) ∧ (r.2.err = .nil → u2 ≤ 1 ∧ v2 = 0)) :
    s1 + s2 = 1 ∧ u1 + u2 ≤ 1 ∧ v1 + v2 ≤ 2 ∧ (u1 + u2 = 0 ∨ v1 + v2 = 0) := by
  obtain ⟨hs1, hu1, hv1, hv⟩ := h1
  obtain ⟨hs2, hne, heq⟩ := h2
  by_cases herr : r.2.err = .nil
  · obtain ⟨hu2, hv2⟩ := heq herr
    have : v1 = 0 := by
      by_contra hc
      exact hv (Nat.pos_of_ne_zero hc) herr
    refine ⟨by omega, by omega, by omega, Or.inr (by omega)⟩
  · obtain ⟨hu2, hv2⟩ := hne herr
    refine ⟨by omega, by omega, by omega, Or.inl (by omega)⟩

theorem createTimed_tally (m : Manager) (rd : RepoRevisionData) :
    Tally (fun _ s u v => s ≤ 1 ∧ u ≤ 1 ∧ v ≤ 2 ∧ (u = 0 ∨ v = 0)) (createTimed m rd) := by
  unfold createTimed
  refine Tally.bind_never (generateNewEnv_never m rd) fun g => ?_
  split
  · exact tally_pure (by simp)
  · split
    · exact tally_pure (by simp)
    · rename_i env _
      refine Tally.bind_never (setloggername_never m _) fun _ => ?_
      refine tally_bind (createMain_tally m rd env)
        (R := fun r _ s u v => s = 1 ∧ (r.2.err ≠ .nil → u = 0 ∧ v ≤ 1)
          ∧ (r.2.err = .nil → u ≤ 1 ∧ v = 0)) (fun r => ?_) ?_
      · exact Tally.bind_last (createDeferred_tally m rd env r.1 r.2.err)
          (fun _ => never_pure _ _) (fun _ _ _ _ hq _ => hq)
      · intro r s1 u1 v1 b s2 u2 v2 h1 h2
        have := main_then_deferred r s1 u1 v1 s2 u2 v2 h1 h2
        omega

theorem create_tally (m : Manager) (rd : RepoRevisionData) :
    Tally (fun _ s u v => s ≤ 1 ∧ u ≤ 1 ∧ v ≤ 2 ∧ (u = 0 ∨ v = 0)) (create m rd) := by
  unfold create
  refine Tally.bind_never (never_emit _ (by simp [Effect.loud, Effect.isTerminalStatus, Effect.isNotification])) fun _ => ?_
  refine Tally.bind_never (never_emit _ (by simp [Effect.loud, Effect.isTerminalStatus, Effect.isNotification])) fun _ => ?_
  refine Tally.bind_last (createTimed_tally m rd) (fun _ => ?_) (fun _ _ _ _ hq _ => hq)
  exact never_bind (never_emit _ (by simp [Effect.loud, Effect.isTerminalStatus, Effect.isNotification])) fun _ =>
    never_bind (never_emit _ (by simp [Effect.loud, Effect.isTerminalStatus, Effect.isNotification])) fun _ => never_pure _ _

theorem updatePrepare_never (m : Manager) (rd : RepoRevisionData) (env : QAEnvironment) :
    Never Effect.loud (updatePrepare m rd env) := by
  unfold updatePrepare
  repeat (first
          | with_reducible apply never_pure
          | with_reducible apply never_ask
          | with_reducible exact processEnvConfig_never _ _ _
          | with_reducible exact fetchCharts_never _ _ _
          | with_reducible exact generateNewEnv_never _ _
          | with_reducible exact getenv_never _ _
          | with_reducible exact setloggername_never _ _
          | with_reducible exact setAllDestroyed_never _ _
          | with_reducible exact createPendingGithubStatus_never _ _
          | (with_reducible apply pushNotification_quiet_event; simp)
          | (with_reducible apply never_log; simp [Effect.loud, Effect.isTerminalStatus, Effect.isNotification])
          | (with_reducible apply never_emit; simp [Effect.loud, Effect.isTerminalStatus, Effect.isNotification])
          | (with_reducible apply never_call; intro _; simp [Effect.loud, Effect.isTerminalStatus, Effect.isNotification])
          | with_reducible apply never_bind
          | with_reducible intro _
          | dsimp only
          | split)

theorem updateInstall_tally (m : Manager) (rd : RepoRevisionData) (env : QAEnvironment)
    (ne : newEnv) (k8senv : K8sEnvironment) (cloc : List (String × MetaChartLocation)) :
    Tally (fun r s u v => s = 0 ∧ u = 0 ∧ v ≤ 1 ∧ (0 < v → r.2.err ≠ .nil))
      (updateInstall m rd env ne k8senv cloc) := by
  unfold updateInstall
  repeat (first
    | (with_reducible apply tally_pure; simp)
    | (with_reducible refine handle_then_tally _ _ _ _ _ ?_ ?_)
    | (with_reducible refine Tally.bind_never ?_ ?_; · (repeat (first
          | with_reducible apply never_pure
          | with_reducible apply never_ask
          | with_reducible exact processEnvConfig_never _ _ _
          | with_reducible exact fetchCharts_never _ _ _
          | with_reducible exact generateNewEnv_never _ _
          | with_reducible exact getenv_never _ _
          | with_reducible exact setloggername_never _ _
          | with_reducible exact setAllDestroyed_never _ _
          | with_reducible exact createPendingGithubStatus_never _ _
          | (with_reducible apply pushNotification_quiet_event; simp)
          | (with_reducible apply never_log; simp [Effect.loud, Effect.isTerminalStatus, Effect.isNotification])
          | (with_reducible apply never_emit; simp [Effect.loud, Effect.isTerminalStatus, Effect.isNotification])
          | (with_reducible apply never_call; intro _; simp [Effect.loud, Effect.isTerminalStatus, Effect.isNotification])
          | with_reducible apply never_bind
          | with_reducible intro _
          | dsimp only
          | split)))
    | (intro hr; split <;> exact never_pure _ _)
    | (intro hr h hp he; simp [hp, run_pure, he])
    | with_reducible intro _
    | dsimp only
    | split)

theorem updateMain_tally (m : Manager) (rd : RepoRevisionData) (env : QAEnvironment) :
    Tally (fun r s u v => s = 0 ∧ u = 0 ∧ v ≤ 1 ∧ (0 < v → r.2.err ≠ .nil))
      (updateMain m rd env) := by
  unfold updateMain
  refine Tally.bind_never (updatePrepare_never m rd env) fun st => ?_
  split
  · exact tally_pure (by simp)
  · exact Tally.then_emit (updateInstall_tally _ _ _ _ _ _) _ (by simp [Effect.loud, Effect.isTerminalStatus, Effect.isNotification])

theorem updateTimed_tally (m : Manager) (rd : RepoRevisionData) :
    Tally (fun _ s u v => s ≤ 1 ∧ u ≤ 1 ∧ v ≤ 2 ∧ (u = 0 ∨ v = 0)) (updateTimed m rd) := by
  unfold updateTimed
  refine Tally.bind_never (getenv_never m rd) fun g => ?_
  split
  · split
    · refine Tally.bind_never (never_log _ (by simp [Effect.loud, Effect.isTerminalStatus, Effect.isNotification])) fun _ => ?_
      refine Tally.bind_never (never_emit _ (by simp [Effect.loud, Effect.isTerminalStatus, Effect.isNotification])) fun _ => ?_
      refine Tally.bind_last (create_tally m rd) (fun _ => ?_) (fun _ _ _ _ hq _ => hq)
      split <;> exact never_pure _ _
    · exact tally_pure (by simp)
  · split
    · exact tally_pure (by simp)
    · rename_i env _
      refine Tally.bind_never (setloggername_never m _) fun _ => ?_
      refine tally_bind (updateMain_tally m rd env)
        (R := fun r _ s u v => s = 1 ∧ (r.2.err ≠ .nil → u = 0 ∧ v ≤ 1)
          ∧ (r.2.err = .nil → u ≤ 1 ∧ v = 0)) (fun r => ?_) ?_
      · exact Tally.bind_last (updateDeferred_tally m rd env r.1 r.2.err)
          (fun _ => never_pure _ _) (fun _ _ _ _ hq _ => hq)
      · intro r s1 u1 v1 b s2 u2 v2 h1 h2
        have := main_then_deferred r s1 u1 v1 s2 u2 v2 h1 h2
        omega

theorem update_tally (m : Manager) (rd : RepoRevisionData) :
    Tally (fun _ s u v => s ≤ 1 ∧ u ≤ 1 ∧ v ≤ 2 ∧ (u = 0 ∨ v = 0)) (update m rd) := by
  unfold update
  refine Tally.bind_never (never_emit _ (by simp [Effect.loud, Effect.isTerminalStatus, Effect.isNotification])) fun _ => ?_
  refine Tally.bind_never (never_emit _ (by simp [Effect.loud, Effect.isTerminalStatus, Effect.isNotification])) fun _ => ?_
  refine Tally.bind_last (updateTimed_tally m rd) (fun _ => ?_) (fun _ _ _ _ hq _ => hq)
  exact never_bind (never_emit _ (by simp [Effect.loud, Effect.isTerminalStatus, Effect.isNotification])) fun _ =>
    never_bind (never_emit _ (by simp [Effect.loud, Effect.isTerminalStatus, Effect.isNotification])) fun _ => never_pure _ _

theorem deleteMain_never (m : Manager) (rd : RepoRevisionData) (env : QAEnvironment)
    (ne : Option newEnv) : Never Effect.loud (deleteMain m rd env ne) := by
  unfold deleteMain
  repeat (first
          | with_reducible apply never_pure
          | with_reducible apply never_ask
          | with_reducible exact processEnvConfig_never _ _ _
          | with_reducible exact fetchCharts_never _ _ _
          | with_reducible exact generateNewEnv_never _ _
          | with_reducible exact getenv_never _ _
          | with_reducible exact setloggername_never _ _
          | with_reducible exact setAllDestroyed_never _ _
          | with_reducible exact createPendingGithubStatus_never _ _
          | (with_reducible apply pushNotification_quiet_event; simp)
          | (with_reducible apply never_log; simp [Effect.loud, Effect.isTerminalStatus, Effect.isNotification])
          | (with_reducible apply never_emit; simp [Effect.loud, Effect.isTerminalStatus, Effect.isNotification])
          | (with_reducible apply never_call; intro _; simp [Effect.loud, Effect.isTerminalStatus, Effect.isNotification])
          | with_reducible apply never_bind
          | with_reducible intro _
          | dsimp only
          | split)

theorem notifyFailureIf_tally (c : Prop) [Decidable c] (m : Manager) (ctx : Ctx)
    (env : Option newEnv) (errmsg : ErrorMessage) :
    Tally (fun _ s u v => s = 0 ∧ u = 0 ∧ v ≤ 1)
      (if c then (pushNotification m ctx env .Failure errmsg >>= fun _ => (pure () : M Unit))
        else pure ()) := by
  split
  · refine Tally.bind_last (pushNotification_tally _ _ _ _ _) (fun _ => never_pure _ _) ?_
    intro _ s u v hq _
    simp only [eventBudget] at hq
    simp at hq
    omega
  · exact tally_pure (by simp)

theorem deleteTimed_tally (m : Manager) (rd : RepoRevisionData) (reason : QADestroyReason) :
    Tally (fun _ s u v => s = 0 ∧ u = 0 ∧ v ≤ 1) (deleteTimed m rd reason) := by
  unfold deleteTimed
  repeat (first
    | (with_reducible apply tally_pure; simp)
    | (with_reducible refine Tally.bind_last (notifyFailureIf_tally _ _ _ _ _) (fun _ => never_pure _ _) (fun _ _ _ _ hq _ => hq))
    | (with_reducible refine Tally.bind_never (deleteMain_never _ _ _ _) ?_)
    | (with_reducible refine Tally.bind_never ?_ ?_; · (repeat (first
          | with_reducible apply never_pure
          | with_reducible apply never_ask
          | with_reducible exact processEnvConfig_never _ _ _
          | with_reducible exact fetchCharts_never _ _ _
          | with_reducible exact generateNewEnv_never _ _
          | with_reducible exact getenv_never _ _
          | with_reducible exact setloggername_never _ _
          | with_reducible exact setAllDestroyed_never _ _
          | with_reducible exact createPendingGithubStatus_never _ _
          | (with_reducible apply pushNotification_quiet_event; simp)
          | (with_reducible apply never_log; simp [Effect.loud, Effect.isTerminalStatus, Effect.isNotification])
          | (with_reducible apply never_emit; simp [Effect.loud, Effect.isTerminalStatus, Effect.isNotification])
          | (with_reducible apply never_call; intro _; simp [Effect.loud, Effect.isTerminalStatus, Effect.isNotification])
          | with_reducible apply never_bind
          | with_reducible intro _
          | dsimp only
          | split)))
    | with_reducible intro _
    | dsimp only
    | split)

theorem delete_tally (m : Manager) (rd : RepoRevisionData) (reason : QADestroyReason) :
    Tally (fun _ s u v => s = 0 ∧ u = 0 ∧ v ≤ 1) (delete m rd reason) := by
  unfold delete
  refine Tally.bind_never (never_emit _ (by simp [Effect.loud, Effect.isTerminalStatus, Effect.isNotification])) fun _ => ?_
  refine Tally.bind_never (never_emit _ (by simp [Effect.loud, Effect.isTerminalStatus, Effect.isNotification])) fun _ => ?_
  refine Tally.bind_last (deleteTimed_tally m rd reason) (fun _ => ?_) (fun _ _ _ _ hq _ => hq)
  exact never_bind (never_emit _ (by simp [Effect.loud, Effect.isTerminalStatus, Effect.isNotification])) fun _ =>
    never_bind (never_emit _ (by simp [Effect.loud, Effect.isTerminalStatus, Effect.isNotification])) fun _ => never_pure _ _

theorem createStage_statuses (m : Manager) (rd : RepoRevisionData) (env : QAEnvironment) :
    Tally (fun _ s _ _ => s = 1)
      (setloggername m env.Name >>= fun _ => createMain m rd env >>= fun r =>
        createDeferred m rd env r.1 r.2.err >>= fun _ => (pure r.2 : M Result)) := by
  refine Tally.bind_never (setloggername_never m _) fun _ => ?_
  refine tally_bind (createMain_tally m rd env)
    (R := fun r _ s u v => s = 1 ∧ (r.2.err ≠ .nil → u = 0 ∧ v ≤ 1)
      ∧ (r.2.err = .nil → u ≤ 1 ∧ v = 0)) (fun r => ?_) ?_
  · exact Tally.bind_last (createDeferred_tally m rd env r.1 r.2.err)
      (fun _ => never_pure _ _) (fun _ _ _ _ hq _ => hq)
  · intro r s1 u1 v1 b s2 u2 v2 h1 h2
    omega

theorem createTimed_statuses (m : Manager) (rd : RepoRevisionData) (h : Hist) (env : QAEnvironment)
    (hg : (generateNewEnv m rd h).1 = (some env, .nil)) :
    statuses (createTimed m rd h).2 = 1 := by
  have key := createStage_statuses m rd env (h ++ (generateNewEnv m rd h).2.filter Effect.visible)
  have hz := (generateNewEnv_never m rd).tally h
  unfold createTimed
  rw [run_bind]
  simp only [hg, (tally_append _ _).1, hz.1]
  simpa using key

theorem create_statuses (m : Manager) (rd : RepoRevisionData) (h : Hist) (env : QAEnvironment)
    (hg : (generateNewEnv m rd h).1 = (some env, .nil)) :
    statuses (create m rd h).2 = 1 := by
  have key := createTimed_statuses m rd h env hg
  simp only [create, run_bind, run_emit, run_pure, (tally_append _ _).1]
  simpa [statuses, Effect.isTerminalStatus, Effect.visible] using key

theorem updateStage_statuses (m : Manager) (rd : RepoRevisionData) (env : QAEnvironment) :
    Tally (fun _ s _ _ => s = 1)
      (setloggername m env.Name >>= fun _ => updateMain m rd env >>= fun r =>
        updateDeferred m rd env r.1 r.2.err >>= fun _ => (pure r.2 : M Result)) := by
  refine Tally.bind_never (setloggername_never m _) fun _ => ?_
  refine tally_bind (updateMain_tally m rd env)
    (R := fun r _ s u v => s = 1 ∧ (r.2.err ≠ .nil → u = 0 ∧ v ≤ 1)
      ∧ (r.2.err = .nil → u ≤ 1 ∧ v = 0)) (fun r => ?_) ?_
  · exact Tally.bind_last (updateDeferred_tally m rd env r.1 r.2.err)
      (fun _ => never_pure _ _) (fun _ _ _ _ hq _ => hq)
  · intro r s1 u1 v1 b s2 u2 v2 h1 h2
    omega

theorem updateTimed_statuses (m : Manager) (rd : RepoRevisionData) (h : Hist) (env : QAEnvironment)
    (hone : m.DL.GetExtantQAEnvironments h rd.Repo rd.PullRequest = ([env], .nil)) :
    statuses (updateTimed m rd h).2 = 1 := by
  have hg := getenv_one m rd h env hone
  have key := updateStage_statuses m rd env (h ++ (getenv m rd h).2.filter Effect.visible)
  unfold updateTimed
  rw [run_bind]
  simp only [hg, (tally_append _ _).1] at key ⊢
  simpa [statuses, Effect.isTerminalStatus] using key

theorem update_statuses (m : Manager) (rd : RepoRevisionData) (h : Hist) (env : QAEnvironment)
    (hone : m.DL.GetExtantQAEnvironments h rd.Repo rd.PullRequest = ([env], .nil)) :
    statuses (update m rd h).2 = 1 := by
  have key := updateTimed_statuses m rd h env hone
  simp only [update, run_bind, run_emit, run_pure, (tally_append _ _).1]
  simpa [statuses, Effect.isTerminalStatus, Effect.visible] using key

theorem isCancellation_of_kind (op : Op) (e : Effect) (h : e.kind ≠ .done) :
    e.isCancellation op = false := by
  cases e <;> simp [Effect.kind] at h <;> simp [Effect.isCancellation]

theorem abortive_of_quiet (op : Op) (e : Effect) (h : e.kind ∈ quiet) : e.abortive op = false := by
  have hd : e.kind ≠ .done := by
    intro hk
    rw [hk] at h
    simp [quiet] at h
  have hf : e.kind ≠ .fetch := by
    intro hk
    rw [hk] at h
    simp [quiet] at h
  have hi : e.kind ≠ .installer := by
    intro hk
    rw [hk] at h
    simp [quiet] at h
  simp [Effect.abortive, Effect.isChartCall, isCancellation_of_kind op e hd, hf, hi]

theorem never_abortive_of_quiet {α : Type} (op : Op) {x : M α} (hx : Emits quiet x) :
    Never (Effect.abortive op) x :=
  Never.of_emits hx (fun e he => abortive_of_quiet op e he)

theorem never_cancellation_of_emits {α : Type} (op : Op) {K : List Kind} {x : M α} (hx : Emits K x)
    (hK : Kind.done ∉ K) : Never (Effect.isCancellation op) x :=
  Never.of_emits hx fun e he => isCancellation_of_kind op e (fun hk => hK (hk ▸ he))

theorem Never.not_done {α : Type} {op : Op} {x : M α} (hx : Never (Effect.isCancellation op) x)
    (h : Hist) : Effect.Done op true ∉ (x h).2 := by
  intro hmem
  have := hx h _ hmem
  simp [Effect.isCancellation] at this

theorem Never.split_abortive {α : Type} {op : Op} {x : M α} (hx : Never (Effect.abortive op) x) :
    Never (Effect.isCancellation op) x ∧ Never Effect.isChartCall x := by
  refine ⟨fun h e he => ?_, fun h e he => ?_⟩ <;>
    · have := hx h e he
      simp only [Effect.abortive, Bool.or_eq_false_iff] at this
      simp [this]

theorem aborts_pure {α : Type} (op : Op) (G : α → Prop) (a : α) : Aborts op G (pure a : M α) := by
  intro h hmem
  simp [run_pure] at hmem

theorem aborts_of_never {α : Type} {op : Op} (G : α → Prop) {x : M α}
    (hx : Never (Effect.isCancellation op) x) : Aborts op G x :=
  fun h hmem => absurd hmem (hx.not_done h)

theorem aborts_after {α β : Type} {op : Op} {G : β → Prop} {x : M α} {f : α → M β}
    (hx : Never (Effect.abortive op) x) (hf : ∀ a, Aborts op G (f a)) : Aborts op G (x >>= f) := by
  intro h hmem
  rw [run_bind] at hmem ⊢
  obtain ⟨hc, hw⟩ := hx.split_abortive
  rcases List.mem_append.mp hmem with h1 | h2
  · exact absurd h1 (hc.not_done h)
  · obtain ⟨hg, hfree⟩ := hf _ _ h2
    refine ⟨hg, fun e he => ?_⟩
    rcases List.mem_append.mp he with h3 | h4
    · exact hw h e h3
    · exact hfree e h4

theorem aborts_before {α β : Type} {op : Op} {G : α → Prop} {P : β → Prop} {x : M α}
    {f : α → M β} (hx : Aborts op G x) (hf : ∀ a, Never (Effect.abortive op) (f a))
    (hr : ∀ a, G a → ∀ h, P (f a h).1) : Aborts op P (x >>= f) := by
  intro h hmem
  rw [run_bind] at hmem ⊢
  obtain ⟨hc, hw⟩ := (hf (x h).1).split_abortive
  rcases List.mem_append.mp hmem with h1 | h2
  · obtain ⟨hg, hfree⟩ := hx h h1
    refine ⟨hr _ hg _, fun e he => ?_⟩
    rcases List.mem_append.mp he with h3 | h4
    · exact hfree e h3
    · exact hw _ e h4
  · exact absurd h2 (hc.not_done _)

theorem aborts_check {α : Type} (m : Manager) (op : Op) {G : α → Prop} (f : Bool → M α) (a : α)
    (htrue : ∀ h, f true h = (a, [])) (hG : G a)
    (hfalse : Never (Effect.isCancellation op) (f false)) :
    Aborts op G (call (ctxDone m .operation) (fun done => .Done op done) >>= f) := by
  intro h hmem
  rw [run_bind, run_call] at hmem ⊢
  cases hd : ctxDone m .operation h with
  | true =>
    simp only [hd, htrue] at hmem ⊢
    exact ⟨hG, by simp [Effect.isChartCall, Effect.kind]⟩
  | false =>
    simp only [hd] at hmem
    rcases List.mem_append.mp hmem with h1 | h2
    · simp at h1
    · exact absurd h2 (hfalse.not_done _)

theorem pushNotification_cancel (op : Op) (m : Manager) (ctx : Ctx) (env : Option newEnv)
    (event : NotificationEvent) (errmsg : ErrorMessage) :
    Never (Effect.isCancellation op) (pushNotification m ctx env event errmsg) :=
  never_cancellation_of_emits op (pushNotification_emits m ctx env event errmsg) (by simp [quiet])

theorem createPendingGithubStatus_cancel (op : Op) (m : Manager) (rd : RepoRevisionData) :
    Never (Effect.isCancellation op) (createPendingGithubStatus m rd) :=
  never_cancellation_of_emits op (createPendingGithubStatus_emits m rd) (by simp [quiet])

theorem setloggername_cancel (op : Op) (m : Manager) (name : String) :
    Never (Effect.isCancellation op) (setloggername m name) :=
  never_cancellation_of_emits op (setloggername_emits m name) (by simp [quiet])

theorem generateNewEnv_cancel (op : Op) (m : Manager) (rd : RepoRevisionData) :
    Never (Effect.isCancellation op) (generateNewEnv m rd) :=
  never_cancellation_of_emits op (generateNewEnv_emits m rd) (by simp [quiet])

theorem processEnvConfig_cancel (op : Op) (m : Manager) (env : QAEnvironment)
    (rd : Option RepoRevisionData) :
    Never (Effect.isCancellation op) (processEnvConfig m env rd) :=
  never_cancellation_of_emits op (processEnvConfig_emits m env rd) (by simp [quiet])

theorem fetchCharts_cancel (op : Op) (m : Manager) (name : String) (rc : Option RepoConfig) :
    Never (Effect.isCancellation op) (fetchCharts m name rc) :=
  never_cancellation_of_emits op (fetchCharts_emits m name rc) (by simp)

theorem handleMetahelmError_cancel (op : Op) (m : Manager) (env : Option newEnv) (err : GoError)
    (msg : String) : Never (Effect.isCancellation op) (handleMetahelmError m env err msg) :=
  never_cancellation_of_emits op (handleMetahelmError_emits m env err msg) (by simp [quiet])

theorem createDeferred_cancel (op : Op) (m : Manager) (rd : RepoRevisionData)
    (env : QAEnvironment) (newenv : Option newEnv) (err : GoError) :
    Never (Effect.isCancellation op) (createDeferred m rd env newenv err) :=
  never_cancellation_of_emits op (createDeferred_emits m rd env newenv err) (by simp [quiet])

theorem createInstall_cancel (op : Op) (m : Manager) (ne : newEnv)
    (cloc : List (String × MetaChartLocation)) :
    Never (Effect.isCancellation op) (createInstall m ne cloc) := by
  unfold createInstall
  repeat (first
    | with_reducible apply never_pure
    | with_reducible apply never_ask
    | with_reducible exact handleMetahelmError_cancel _ _ _ _ _
    | (with_reducible apply never_emit; simp [Effect.isCancellation])
    | (with_reducible apply never_call; intro _; simp [Effect.isCancellation])
    | with_reducible apply never_bind
    | with_reducible intro _
    | dsimp only
    | split)

theorem createMain_aborts (m : Manager) (rd : RepoRevisionData) (env : QAEnvironment) :
    Aborts .create
      (fun r => r.2 = ⟨false, "", UserError (.fundamental "context was cancelled in create")⟩)
      (createMain m rd env) := by
  unfold createMain
  refine aborts_after (never_abortive_of_quiet _ (processEnvConfig_emits m env _)) fun c => ?_
  split
  · exact aborts_pure _ _ _
  · split
    · exact aborts_pure _ _ _
    · refine aborts_check m .create _
        (c.ne, ⟨false, "", UserError (.fundamental "context was cancelled in create")⟩)
        (fun _ => rfl) rfl ?_
      repeat (first
        | with_reducible apply never_pure
        | with_reducible exact pushNotification_cancel _ _ _ _ _ _
        | with_reducible exact createPendingGithubStatus_cancel _ _ _
        | with_reducible exact fetchCharts_cancel _ _ _ _
        | with_reducible exact createInstall_cancel _ _ _ _
        | (with_reducible apply never_emit; simp [Effect.isCancellation])
        | with_reducible apply never_bind
        | with_reducible intro _
        | dsimp only
        | split)

theorem createTimed_aborts (m : Manager) (rd : RepoRevisionData) :
    Aborts .create
      (fun r => r = ⟨false, "", UserError (.fundamental "context was cancelled in create")⟩)
      (createTimed m rd) := by
  unfold createTimed
  refine aborts_after (never_abortive_of_quiet _ (generateNewEnv_emits m rd)) fun g => ?_
  split
  · exact aborts_pure _ _ _
  · split
    · exact aborts_pure _ _ _
    · rename_i env _
      refine aborts_after (never_abortive_of_quiet _ (setloggername_emits m _)) fun _ => ?_
      refine aborts_before (createMain_aborts m rd env) (fun r => ?_) (fun r hr _ => hr)
      exact never_bind (never_abortive_of_quiet _ (createDeferred_emits m rd env _ _))
        fun _ => never_pure _ _

theorem create_aborts (m : Manager) (rd : RepoRevisionData) :
    Aborts .create
      (fun r => r = ⟨false, "", UserError (.fundamental "context was cancelled in create")⟩)
      (create m rd) := by
  unfold create
  refine aborts_after (never_emit _ (by simp [Effect.abortive, Effect.isCancellation, Effect.isChartCall, Effect.kind])) fun _ => ?_
  refine aborts_after (never_emit _ (by simp [Effect.abortive, Effect.isCancellation, Effect.isChartCall, Effect.kind])) fun _ => ?_
  refine aborts_before (createTimed_aborts m rd) (fun r => ?_) (fun r hr _ => hr)
  exact never_bind (never_emit _ (by simp [Effect.abortive, Effect.isCancellation, Effect.isChartCall, Effect.kind])) fun _ =>
    never_bind (never_emit _ (by simp [Effect.abortive, Effect.isCancellation, Effect.isChartCall, Effect.kind])) fun _ => never_pure _ _

theorem setAllDestroyed_cancel (op : Op) (m : Manager) (envs : List QAEnvironment) :
    Never (Effect.isCancellation op) (setAllDestroyed m envs) := by
  induction envs with
  | nil => exact never_pure _ _
  | cons e es ih =>
    unfold setAllDestroyed
    repeat (first
      | with_reducible exact ih
      | with_reducible apply never_pure
      | (with_reducible apply never_log; simp [Effect.isCancellation])
      | (with_reducible apply never_call; intro _; simp [Effect.isCancellation])
      | with_reducible apply never_bind
      | with_reducible intro _
      | dsimp only
      | split)

theorem deleteMain_aborts (m : Manager) (rd : RepoRevisionData) (env : QAEnvironment)
    (ne : Option newEnv) :
    Aborts .delete (fun r => r.2 = UserError (.fundamental "context was cancelled in delete"))
      (deleteMain m rd env ne) := by
  unfold deleteMain
  refine aborts_check m .delete _ (ne, UserError (.fundamental "context was cancelled in delete"))
    (fun _ => rfl) rfl ?_
  repeat (first
    | with_reducible apply never_pure
    | with_reducible exact pushNotification_cancel _ _ _ _ _ _
    | (with_reducible apply never_emit; simp [Effect.isCancellation])
    | (with_reducible apply never_call; intro _; simp [Effect.isCancellation])
    | with_reducible apply never_bind
    | with_reducible intro _
    | dsimp only
    | split)

theorem deleteTimed_aborts (m : Manager) (rd : RepoRevisionData) (reason : QADestroyReason) :
    Aborts .delete
      (fun r => r = ⟨false, "", UserError (.fundamental "context was cancelled in delete")⟩)
      (deleteTimed m rd reason) := by
  unfold deleteTimed
  refine aborts_after (never_abortive_of_quiet _ (getenv_emits m rd)) fun g => ?_
  split
  · refine aborts_of_never _ ?_
    repeat (first
      | with_reducible apply never_pure
      | with_reducible exact setAllDestroyed_cancel _ _ _
      | (with_reducible apply never_log; simp [Effect.isCancellation])
      | (with_reducible apply never_call; intro _; simp [Effect.isCancellation])
      | with_reducible apply never_bind
      | with_reducible intro _
      | dsimp only
      | split)
  · split
    · exact aborts_pure _ _ _
    · rename_i env _
      refine aborts_after (never_abortive_of_quiet _ (setloggername_emits m _)) fun _ => ?_
      refine aborts_after (never_abortive_of_quiet _ (processEnvConfig_emits m env _)) fun c => ?_
      split
      · exact aborts_pure _ _ _
      · refine aborts_after ?_ fun _ => ?_
        · split
          · exact never_log _ (by simp [Effect.abortive, Effect.isCancellation, Effect.isChartCall, Effect.kind])
          · exact never_pure _ _
        · refine aborts_before (deleteMain_aborts m rd env c.ne) (fun r => ?_) (fun r hr h => ?_)
          · refine never_bind ?_ fun _ => never_pure _ _
            split
            · exact never_bind (never_abortive_of_quiet _ (pushNotification_emits _ _ _ _ _))
                fun _ => never_pure _ _
            · exact never_pure _ _
          · simp only [run_bind, run_pure, hr]

theorem delete_aborts (m : Manager) (rd : RepoRevisionData) (reason : QADestroyReason) :
    Aborts .delete
      (fun r => r = ⟨false, "", UserError (.fundamental "context was cancelled in delete")⟩)
      (delete m rd reason) := by
  unfold delete
  refine aborts_after (never_emit _ (by simp [Effect.abortive, Effect.isCancellation, Effect.isChartCall, Effect.kind])) fun _ => ?_
  refine aborts_after (never_emit _ (by simp [Effect.abortive, Effect.isCancellation, Effect.isChartCall, Effect.kind])) fun _ => ?_
  refine aborts_before (deleteTimed_aborts m rd reason) (fun r => ?_) (fun r hr _ => hr)
  exact never_bind (never_emit _ (by simp [Effect.abortive, Effect.isCancellation, Effect.isChartCall, Effect.kind])) fun _ =>
    never_bind (never_emit _ (by simp [Effect.abortive, Effect.isCancellation, Effect.isChartCall, Effect.kind])) fun _ => never_pure _ _

theorem aborts_before_of {α β : Type} {op : Op} {G : α → Prop} {P : β → Prop} {x : M α}
    {f : α → M β} (hx : Aborts op G x) (hc : ∀ a, Never (Effect.isCancellation op) (f a))
    (hr : ∀ a, G a → Never Effect.isChartCall (f a) ∧ ∀ h, P (f a h).1) :
    Aborts op P (x >>= f) := by
  intro h hmem
  rw [run_bind] at hmem ⊢
  rcases List.mem_append.mp hmem with h1 | h2
  · obtain ⟨hg, hfree⟩ := hx h h1
    refine ⟨(hr _ hg).2 _, fun e he => ?_⟩
    rcases List.mem_append.mp he with h3 | h4
    · exact hfree e h3
    · exact (hr _ hg).1 _ e h4
  · exact absurd h2 ((hc _).not_done _)

theorem updateInstall_cancel (op : Op) (m : Manager) (rd : RepoRevisionData) (env : QAEnvironment)
    (ne : newEnv) (k8senv : K8sEnvironment) (cloc : List (String × MetaChartLocation)) :
    Never (Effect.isCancellation op) (updateInstall m rd env ne k8senv cloc) := by
  unfold updateInstall
  repeat (first
    | with_reducible apply never_pure
    | with_reducible exact handleMetahelmError_cancel _ _ _ _ _
    | (with_reducible apply never_log; simp [Effect.isCancellation])
    | (with_reducible apply never_emit; simp [Effect.isCancellation])
    | (with_reducible apply never_call; intro _; simp [Effect.isCancellation])
    | with_reducible apply never_bind
    | with_reducible intro _
    | dsimp only
    | split)

theorem updatePrepare_aborts (m : Manager) (rd : RepoRevisionData) (env : QAEnvironment) :
    Aborts .update
      (fun st => ∃ ne, st = .returned ne
        ⟨false, "", UserError (.fundamental "context was cancelled in update")⟩)
      (updatePrepare m rd env) := by
  unfold updatePrepare
  refine aborts_after (never_abortive_of_quiet _ (processEnvConfig_emits m env _)) fun c => ?_
  split
  · exact aborts_pure _ _ _
  · split
    · exact aborts_pure _ _ _
    · refine aborts_after (never_call _ _ (fun _ => by simp [Effect.abortive, Effect.isCancellation, Effect.isChartCall, Effect.kind])) fun k => ?_
      split
      · exact aborts_pure _ _ _
      · split
        · exact aborts_pure _ _ _
        · refine aborts_check m .update _
            (.returned c.ne ⟨false, "", UserError (.fundamental "context was cancelled in update")⟩)
            (fun _ => rfl) ⟨_, rfl⟩ ?_
          repeat (first
            | with_reducible apply never_pure
            | with_reducible exact pushNotification_cancel _ _ _ _ _ _
            | with_reducible exact createPendingGithubStatus_cancel _ _ _
            | with_reducible exact fetchCharts_cancel _ _ _ _
            | with_reducible apply never_bind
            | with_reducible intro _
            | dsimp only
            | split)

theorem updateMain_aborts (m : Manager) (rd : RepoRevisionData) (env : QAEnvironment) :
    Aborts .update
      (fun r => r.2 = ⟨false, "", UserError (.fundamental "context was cancelled in update")⟩)
      (updateMain m rd env) := by
  unfold updateMain
  refine aborts_before_of (updatePrepare_aborts m rd env) (fun st => ?_) (fun st hst => ?_)
  · cases st with
    | returned ne r => exact never_pure _ _
    | install ne k8senv td cloc =>
      exact never_bind (updateInstall_cancel _ m rd env ne k8senv cloc) fun _ =>
        never_bind (never_emit _ (by simp [Effect.isCancellation])) fun _ => never_pure _ _
  · obtain ⟨ne, rfl⟩ := hst
    exact ⟨never_pure _ _, fun _ => rfl⟩

theorem isCancellation_create_update (b : Bool) :
    Effect.isCancellation .update (.Done .create b) = false := by
  cases b <;> rfl

theorem create_cancel_update (m : Manager) (rd : RepoRevisionData) :
    Never (Effect.isCancellation .update) (create m rd) := by
  unfold create createTimed createMain
  repeat (first
    | with_reducible apply never_pure
    | with_reducible exact generateNewEnv_cancel _ _ _
    | with_reducible exact setloggername_cancel _ _ _
    | with_reducible exact processEnvConfig_cancel _ _ _ _
    | with_reducible exact pushNotification_cancel _ _ _ _ _ _
    | with_reducible exact createPendingGithubStatus_cancel _ _ _
    | with_reducible exact fetchCharts_cancel _ _ _ _
    | with_reducible exact createInstall_cancel _ _ _ _
    | with_reducible exact createDeferred_cancel _ _ _ _ _ _
    | (with_reducible apply never_emit; simp [Effect.isCancellation])
    | (with_reducible apply never_call; intro _; exact isCancellation_create_update _)
    | with_reducible apply never_bind
    | with_reducible intro _
    | dsimp only
    | split)

theorem updateTimed_aborts (m : Manager) (rd : RepoRevisionData) :
    Aborts .update
      (fun r => r = ⟨false, "", UserError (.fundamental "context was cancelled in update")⟩)
      (updateTimed m rd) := by
  unfold updateTimed
  refine aborts_after (never_abortive_of_quiet _ (getenv_emits m rd)) fun g => ?_
  split
  · refine aborts_of_never _ ?_
    repeat (first
      | with_reducible apply never_pure
      | with_reducible exact create_cancel_update _ _
      | (with_reducible apply never_log; simp [Effect.isCancellation])
      | (with_reducible apply never_emit; simp [Effect.isCancellation])
      | with_reducible apply never_bind
      | with_reducible intro _
      | dsimp only
      | split)
  · split
    · exact aborts_pure _ _ _
    · rename_i env _
      refine aborts_after (never_abortive_of_quiet _ (setloggername_emits m _)) fun _ => ?_
      refine aborts_before (updateMain_aborts m rd env) (fun r => ?_) (fun r hr _ => hr)
      exact never_bind (never_abortive_of_quiet _ (updateDeferred_emits m rd env _ _))
        fun _ => never_pure _ _

theorem update_aborts (m : Manager) (rd : RepoRevisionData) :
    Aborts .update
      (fun r => r = ⟨false, "", UserError (.fundamental "context was cancelled in update")⟩)
      (update m rd) := by
  unfold update
  refine aborts_after (never_emit _ (by simp [Effect.abortive, Effect.isCancellation, Effect.isChartCall, Effect.kind])) fun _ => ?_
  refine aborts_after (never_emit _ (by simp [Effect.abortive, Effect.isCancellation, Effect.isChartCall, Effect.kind])) fun _ => ?_
  refine aborts_before (updateTimed_aborts m rd) (fun r => ?_) (fun r hr _ => hr)
  exact never_bind (never_emit _ (by simp [Effect.abortive, Effect.isCancellation, Effect.isChartCall, Effect.kind])) fun _ =>
    never_bind (never_emit _ (by simp [Effect.abortive, Effect.isCancellation, Effect.isChartCall, Effect.kind])) fun _ => never_pure _ _

theorem isChartCall_false (e : Effect) (h : e.isChartCall = false) :
    e.kind ≠ .fetch ∧ e.kind ≠ .installer := by
  simpa [Effect.isChartCall] using h

theorem chartErrorRenderHTML_invisible (m : Manager) (data : failureTemplateData) (h : Hist) :
    (chartErrorRenderHTML m data h).2.filter Effect.visible = [] := by
  cases ht : m.failureTemplate with
  | none => simp [chartErrorRenderHTML, ht, run_pure]
  | some t =>
    simp only [chartErrorRenderHTML, ht, run_bind, run_call]
    split <;> simp [run_pure, Effect.visible]

theorem chartErrorRenderHTML_kind (m : Manager) (data : failureTemplateData) (h : Hist) :
    ∀ x ∈ (chartErrorRenderHTML m data h).2, x.kind = .render := by
  cases ht : m.failureTemplate with
  | none => simp [chartErrorRenderHTML, ht, run_pure]
  | some t =>
    simp only [chartErrorRenderHTML, ht, run_bind, run_call]
    split <;> simp [run_pure, Effect.kind]

theorem setAllDestroyed_steps (m : Manager) (envs : List QAEnvironment) (h : Hist) :
    (setAllDestroyed m envs h).2.filterMap Effect.statusWrite
        = envs.map (fun e => (e.Name, EnvironmentStatus.Destroyed))
      ∧ ∀ x ∈ (setAllDestroyed m envs h).2, x.isDestroyStep = true := by
  induction envs generalizing h with
  | nil => simp [setAllDestroyed, run_pure]
  | cons e es ih =>
    unfold setAllDestroyed
    simp only [run_bind, run_log, run_call]
    split
    · simp only [run_log, List.filterMap_append, List.filterMap_cons, List.filterMap_nil,
        Effect.statusWrite, (ih _).1, List.map_cons, List.mem_append, List.mem_singleton]
      refine ⟨by simp, fun x hx => ?_⟩
      rcases hx with rfl | rfl | rfl | hx
      · rfl
      · rfl
      · rfl
      · exact (ih _).2 x hx
    · simp only [run_pure, List.filterMap_append, List.filterMap_cons, List.filterMap_nil,
        Effect.statusWrite, (ih _).1, List.map_cons, List.mem_append, List.mem_singleton]
      refine ⟨by simp, fun x hx => ?_⟩
      rcases hx with rfl | rfl | hx | hx
      · rfl
      · rfl
      · simp at hx
      · exact (ih _).2 x hx

theorem statusesAfter_destroyed (t : List Effect)
    (ht : ∀ x ∈ t, ∀ name st, x = .SetQAEnvironmentStatus name st .nil → st = .Destroyed)
    (tbl : String → EnvironmentStatus) (name : String) (h0 : tbl name = .Destroyed) :
    statusesAfter tbl t name = .Destroyed := by
  induction t generalizing tbl with
  | nil => simpa [statusesAfter] using h0
  | cons x t ih =>
    have ht2 : ∀ y ∈ t, ∀ name st, y = .SetQAEnvironmentStatus name st .nil → st = .Destroyed :=
      fun y hy => ht y (List.mem_cons_of_mem _ hy)
    cases x
    case SetQAEnvironmentStatus name2 status err =>
      cases err
      case nil =>
        have hst := ht _ (List.mem_cons_self _ _) name2 status rfl
        simp only [statusesAfter]
        refine ih ht2 _ ?_
        by_cases hn : name = name2
        · simp [hn, hst]
        · simp [hn, h0]
      all_goals (simp only [statusesAfter]; exact ih ht2 _ h0)
    all_goals (simp only [statusesAfter]; exact ih ht2 _ h0)

theorem delete_none_run (m : Manager) (rd : RepoRevisionData) (reason : QADestroyReason)
    (h : Hist) (envs : List QAEnvironment)
    (hnone : m.DL.GetExtantQAEnvironments h rd.Repo rd.PullRequest = ([], .nil))
    (hq : m.DL.GetQAEnvironmentsByRepoAndPR h rd.Repo rd.PullRequest = (envs, .nil)) :
    delete m rd reason h = (⟨false, "", .nil⟩,
      [.Timing .delete rd.Repo, .SpanStart "delete",
        .GetExtantQAEnvironments rd.Repo rd.PullRequest [] .nil,
        .log "expected exactly one extant environment but there are %v",
        .log "no extant envs for destroy request",
        .GetQAEnvironmentsByRepoAndPR rd.Repo rd.PullRequest envs .nil]
      ++ (setAllDestroyed m envs h).2
      ++ [.TimingEnd .delete [("success", true)], .SpanFinish "delete" .nil]) := by
  have hg := getenv_none m rd h hnone
  cases envs with
  | nil =>
    simp [delete, deleteTimed, run_bind, run_emit, run_call, run_log, run_pure, hg, hq,
      Effect.visible, setAllDestroyed]
  | cons e es =>
    simp [delete, deleteTimed, run_bind, run_emit, run_call, run_log, run_pure, hg, hq,
      Effect.visible]

theorem isDestroyStep_spec (x : Effect) (hx : x.isDestroyStep = true) :
    x.kind = .log ∨ ∃ name err, x = .SetQAEnvironmentStatus name .Destroyed err := by
  cases x <;> simp [Effect.isDestroyStep] at hx
  case log s => exact Or.inl rfl
  case SetQAEnvironmentStatus name st err =>
    cases st <;> simp [Effect.isDestroyStep] at hx
    exact Or.inr ⟨_, _, rfl⟩

theorem delete_none_steps (m : Manager) (rd : RepoRevisionData) (reason : QADestroyReason)
    (h : Hist) (envs : List QAEnvironment)
    (hnone : m.DL.GetExtantQAEnvironments h rd.Repo rd.PullRequest = ([], .nil))
    (hq : m.DL.GetQAEnvironmentsByRepoAndPR h rd.Repo rd.PullRequest = (envs, .nil)) :
    ∀ x ∈ (delete m rd reason h).2,
      (x.kind = .log ∨ x.kind = .metric ∨ x.kind = .span ∨ x.kind = .dbRead)
        ∨ ∃ name err, x = .SetQAEnvironmentStatus name .Destroyed err := by
  intro x hx
  rw [delete_none_run m rd reason h envs hnone hq] at hx
  simp only [List.mem_append, List.mem_cons, List.mem_singleton, List.not_mem_nil, or_false] at hx
  rcases hx with (hx | hx) | hx
  · rcases hx with rfl | rfl | rfl | rfl | rfl | rfl <;> simp [Effect.kind]
  · rcases isDestroyStep_spec x ((setAllDestroyed_steps m envs h).2 x hx) with hk | hk
    · exact Or.inl (Or.inl hk)
    · exact Or.inr hk
  · rcases hx with rfl | rfl <;> simp [Effect.kind]

theorem lockingOperation_refused (m : Manager) (repo pr : String) (f : M BodyResult) (h : Hist)
    (hlock : m.LP h repo pr ≠ .nil) :
    lockingOperation m repo pr f h
      = (⟨false, .withMessage (m.LP h repo pr) "error getting lock"⟩,
        [.Timing .lock_wait repo, .Lock repo pr (m.LP h repo pr),
          .TimingEnd .lock_wait [("success", false)]]) := by
  have hw : Wrap (m.LP h repo pr) "error getting lock"
      = .withMessage (m.LP h repo pr) "error getting lock" := by
    cases hl : m.LP h repo pr <;> simp [Wrap, hl] at hlock ⊢
  simp [lockingOperation, run_bind, run_emit, run_call, run_pure, hlock, hw, Effect.visible]

theorem lockingOperation_granted (m : Manager) (repo pr : String) (f : M BodyResult) (h : Hist)
    (hlock : m.LP h repo pr = .nil) :
    lockingOperation m repo pr f h
      = (⟨(f (h ++ [.Lock repo pr .nil])).1.panicked,
          if (f (h ++ [.Lock repo pr .nil])).1.panicked then .nil
          else (f (h ++ [.Lock repo pr .nil])).1.err⟩,
        [.Timing .lock_wait repo, .Lock repo pr .nil, .TimingEnd .lock_wait [("success", true)],
          .Timing .operation repo]
        ++ (f (h ++ [.Lock repo pr .nil])).2
        ++ (if (f (h ++ [.Lock repo pr .nil])).1.panicked then []
          else (if (f (h ++ [.Lock repo pr .nil])).1.err ≠ .nil
              then [Effect.log "operation error (user: %v, sys: %v): %v: %v: %v"] else [])
            ++ [.TimingEnd .operation
              [("success", (f (h ++ [.Lock repo pr .nil])).1.err == .nil),
                ("user_error", IsUserError (f (h ++ [.Lock repo pr .nil])).1.err),
                ("system_error", IsSystemError (f (h ++ [.Lock repo pr .nil])).1.err)]])
        ++ [.Release repo pr]) := by
  by_cases hp : (f (h ++ [.Lock repo pr .nil])).1.panicked = true
  · simp [lockingOperation, run_bind, run_emit, run_call, run_pure, run_log, hlock,
      Effect.visible, hp]
  · by_cases he : (f (h ++ [.Lock repo pr .nil])).1.err = .nil
    · simp [lockingOperation, run_bind, run_emit, run_call, run_pure, run_log, hlock,
        Effect.visible, hp, he]
    · simp [lockingOperation, run_bind, run_emit, run_call, run_pure, run_log, hlock,
        Effect.visible, hp, he]

theorem never_mono {α : Type} {p q : Effect → Bool} {x : M α} (hx : Never p x)
    (hpq : ∀ e, q e = true → p e = true) : Never q x := by
  intro h e he
  have := hx h e he
  cases hq : q e
  · rfl
  · rw [hpq e hq] at this
    exact absurd this (by simp)

theorem isConfigError_isConfigCall (gerr : GoError) (e : Effect)
    (h : e.isConfigError gerr = true) : e.isConfigCall = true := by
  cases e <;> simp [Effect.isConfigError] at h
  simp [Effect.isConfigCall, Effect.kind]

theorem pushNotification_noconfig (m : Manager) (ctx : Ctx) (env : Option newEnv)
    (event : NotificationEvent) (errmsg : ErrorMessage) :
    Never Effect.isConfigCall (pushNotification m ctx env event errmsg) := by
  unfold pushNotification validContext
  repeat (first
    | with_reducible apply never_pure
    | with_reducible apply never_ask
    | (with_reducible apply never_log; simp [Effect.isConfigCall, Effect.kind])
    | (with_reducible apply never_emit; simp [Effect.isConfigCall, Effect.kind])
    | (with_reducible apply never_call; intro _; simp [Effect.isConfigCall, Effect.kind])
    | with_reducible apply never_bind
    | with_reducible intro _
    | dsimp only
    | split)

theorem createPendingGithubStatus_noconfig (m : Manager) (rd : RepoRevisionData) :
    Never Effect.isConfigCall (createPendingGithubStatus m rd) := by
  unfold createPendingGithubStatus
  repeat (first
    | with_reducible apply never_pure
    | with_reducible apply never_ask
    | (with_reducible apply never_log; simp [Effect.isConfigCall, Effect.kind])
    | (with_reducible apply never_emit; simp [Effect.isConfigCall, Effect.kind])
    | (with_reducible apply never_call; intro _; simp [Effect.isConfigCall, Effect.kind])
    | with_reducible apply never_bind
    | with_reducible intro _
    | dsimp only
    | split)

theorem createErrorGithubStatus_noconfig (m : Manager) (rd : RepoRevisionData) :
    Never Effect.isConfigCall (createErrorGithubStatus m rd) := by
  unfold createErrorGithubStatus validContext
  repeat (first
    | with_reducible apply never_pure
    | with_reducible apply never_ask
    | (with_reducible apply never_log; simp [Effect.isConfigCall, Effect.kind])
    | (with_reducible apply never_emit; simp [Effect.isConfigCall, Effect.kind])
    | (with_reducible apply never_call; intro _; simp [Effect.isConfigCall, Effect.kind])
    | with_reducible apply never_bind
    | with_reducible intro _
    | dsimp only
    | split)

theorem createSuccessGithubStatus_noconfig (m : Manager) (rd : RepoRevisionData) :
    Never Effect.isConfigCall (createSuccessGithubStatus m rd) := by
  unfold createSuccessGithubStatus
  repeat (first
    | with_reducible apply never_pure
    | with_reducible apply never_ask
    | (with_reducible apply never_log; simp [Effect.isConfigCall, Effect.kind])
    | (with_reducible apply never_emit; simp [Effect.isConfigCall, Effect.kind])
    | (with_reducible apply never_call; intro _; simp [Effect.isConfigCall, Effect.kind])
    | with_reducible apply never_bind
    | with_reducible intro _
    | dsimp only
    | split)

theorem setloggername_noconfig (m : Manager) (name : String) :
    Never Effect.isConfigCall (setloggername m name) := by
  unfold setloggername
  repeat (first
    | with_reducible apply never_pure
    | (with_reducible apply never_emit; simp [Effect.isConfigCall, Effect.kind])
    | with_reducible apply never_bind
    | with_reducible intro _
    | dsimp only
    | split)

theorem generateNewEnv_noconfig (m : Manager) (rd : RepoRevisionData) :
    Never Effect.isConfigCall (generateNewEnv m rd) := by
  unfold generateNewEnv generateNewEnvBody
  repeat (first
    | with_reducible apply never_pure
    | with_reducible apply never_ask
    | (with_reducible apply never_log; simp [Effect.isConfigCall, Effect.kind])
    | (with_reducible apply never_emit; simp [Effect.isConfigCall, Effect.kind])
    | (with_reducible apply never_call; intro _; simp [Effect.isConfigCall, Effect.kind])
    | with_reducible apply never_bind
    | with_reducible intro _
    | dsimp only
    | split)

theorem fetchCharts_noconfig (m : Manager) (name : String) (rc : Option RepoConfig) :
    Never Effect.isConfigCall (fetchCharts m name rc) :=
  Never.of_emits (fetchCharts_emits m name rc) fun e he => by
    simp only [Effect.isConfigCall, decide_eq_false_iff_not]
    intro hk
    rw [hk] at he
    simp at he

theorem handleMetahelmError_noconfig (m : Manager) (env : Option newEnv) (err : GoError)
    (msg : String) : Never Effect.isConfigCall (handleMetahelmError m env err msg) := by
  unfold handleMetahelmError chartErrorRenderHTML
  repeat (first
    | with_reducible apply never_pure
    | with_reducible apply never_ask
    | with_reducible exact pushNotification_noconfig _ _ _ _ _
    | (with_reducible apply never_log; simp [Effect.isConfigCall, Effect.kind])
    | (with_reducible apply never_emit; simp [Effect.isConfigCall, Effect.kind])
    | (with_reducible apply never_call; intro _; simp [Effect.isConfigCall, Effect.kind])
    | with_reducible apply never_bind
    | with_reducible intro _
    | dsimp only
    | split)

theorem createInstall_noconfig (m : Manager) (ne : newEnv)
    (cloc : List (String × MetaChartLocation)) :
    Never Effect.isConfigCall (createInstall m ne cloc) := by
  unfold createInstall
  repeat (first
    | with_reducible apply never_pure
    | with_reducible exact handleMetahelmError_noconfig _ _ _ _
    | (with_reducible apply never_emit; simp [Effect.isConfigCall, Effect.kind])
    | (with_reducible apply never_call; intro _; simp [Effect.isConfigCall, Effect.kind])
    | with_reducible apply never_bind
    | with_reducible intro _
    | dsimp only
    | split)

theorem createDeferred_noconfig (m : Manager) (rd : RepoRevisionData) (env : QAEnvironment)
    (newenv : Option newEnv) (err : GoError) :
    Never Effect.isConfigCall (createDeferred m rd env newenv err) := by
  unfold createDeferred
  repeat (first
    | with_reducible apply never_pure
    | with_reducible exact pushNotification_noconfig _ _ _ _ _
    | with_reducible exact createErrorGithubStatus_noconfig _ _
    | with_reducible exact createSuccessGithubStatus_noconfig _ _
    | (with_reducible apply never_log; simp [Effect.isConfigCall, Effect.kind])
    | (with_reducible apply never_emit; simp [Effect.isConfigCall, Effect.kind])
    | (with_reducible apply never_call; intro _; simp [Effect.isConfigCall, Effect.kind])
    | with_reducible apply never_bind
    | with_reducible intro _
    | dsimp only
    | split)

theorem never_isChartCall_of_quiet {α : Type} {x : M α} (hx : Emits quiet x) :
    Never Effect.isChartCall x :=
  (never_abortive_of_quiet .create hx).split_abortive.2

theorem upon_pure {α : Type} (t : Effect → Bool) (G : α → Prop) (a : α) :
    Upon t G (pure a : M α) := by
  intro h hmem
  simp [run_pure] at hmem

theorem upon_of_never {α : Type} {t : Effect → Bool} (G : α → Prop) {x : M α}
    (hx : Never t x) : Upon t G x := by
  intro h hmem
  obtain ⟨e, he, ht⟩ := hmem
  rw [hx h e he] at ht
  exact absurd ht (by simp)

theorem upon_after {α β : Type} {t : Effect → Bool} {G : β → Prop} {x : M α} {f : α → M β}
    (hx : Never t x) (hw : Never Effect.isChartCall x) (hf : ∀ a, Upon t G (f a)) :
    Upon t G (x >>= f) := by
  intro h hmem
  rw [run_bind] at hmem ⊢
  obtain ⟨e, he, ht⟩ := hmem
  rcases List.mem_append.mp he with h1 | h2
  · rw [hx h e h1] at ht
    exact absurd ht (by simp)
  · obtain ⟨hg, hfree⟩ := hf _ _ ⟨e, h2, ht⟩
    refine ⟨hg, fun e2 he2 => ?_⟩
    rcases List.mem_append.mp he2 with h3 | h4
    · exact hw h e2 h3
    · exact hfree e2 h4

theorem upon_before {α β : Type} {t : Effect → Bool} {G : α → Prop} {P : β → Prop} {x : M α}
    {f : α → M β} (hx : Upon t G x) (hc : ∀ a, Never t (f a))
    (hr : ∀ a, G a → Never Effect.isChartCall (f a) ∧ ∀ h, P (f a h).1) :
    Upon t P (x >>= f) := by
  intro h hmem
  rw [run_bind] at hmem ⊢
  obtain ⟨e, he, ht⟩ := hmem
  rcases List.mem_append.mp he with h1 | h2
  · obtain ⟨hg, hfree⟩ := hx h ⟨e, h1, ht⟩
    refine ⟨(hr _ hg).2 _, fun e2 he2 => ?_⟩
    rcases List.mem_append.mp he2 with h3 | h4
    · exact hfree e2 h3
    · exact (hr _ hg).1 _ e2 h4
  · rw [hc _ _ e h2] at ht
    exact absurd ht (by simp)

theorem upon_call {α β : Type} {t : Effect → Bool} {G : α → Prop} (answer : Hist → β)
    (record : β → Effect) (f : β → M α) (hrec : ∀ b, (record b).isChartCall = false)
    (hyes : ∀ b, t (record b) = true →
      ∀ h, G (f b h).1 ∧ ∀ e ∈ (f b h).2, e.isChartCall = false)
    (hno : ∀ b, t (record b) = false → Never t (f b)) :
    Upon t G (call answer record >>= f) := by
  intro h hmem
  rw [run_bind, run_call] at hmem ⊢
  obtain ⟨e, he, ht⟩ := hmem
  cases hb : t (record (answer h)) with
  | true =>
    obtain ⟨hg, hfree⟩ := hyes _ hb (h ++ [record (answer h)].filter Effect.visible)
    refine ⟨hg, fun e2 he2 => ?_⟩
    rcases List.mem_append.mp he2 with h3 | h4
    · rw [List.mem_singleton.mp h3]
      exact hrec _
    · exact hfree e2 h4
  | false =>
    rcases List.mem_append.mp he with h1 | h2
    · rw [List.mem_singleton.mp h1, hb] at ht
      exact absurd ht (by simp)
    · rw [hno _ hb _ e h2] at ht
      exact absurd ht (by simp)

theorem pushNotification_noerr (gerr : GoError) (m : Manager) (ctx : Ctx) (env : Option newEnv)
    (event : NotificationEvent) (errmsg : ErrorMessage) :
    Never (Effect.isConfigError gerr) (pushNotification m ctx env event errmsg) :=
  never_mono (pushNotification_noconfig m ctx env event errmsg) (isConfigError_isConfigCall gerr)

theorem createPendingGithubStatus_noerr (gerr : GoError) (m : Manager) (rd : RepoRevisionData) :
    Never (Effect.isConfigError gerr) (createPendingGithubStatus m rd) :=
  never_mono (createPendingGithubStatus_noconfig m rd) (isConfigError_isConfigCall gerr)

theorem fetchCharts_noerr (gerr : GoError) (m : Manager) (name : String) (rc : Option RepoConfig) :
    Never (Effect.isConfigError gerr) (fetchCharts m name rc) :=
  never_mono (fetchCharts_noconfig m name rc) (isConfigError_isConfigCall gerr)

theorem createInstall_noerr (gerr : GoError) (m : Manager) (ne : newEnv)
    (cloc : List (String × MetaChartLocation)) :
    Never (Effect.isConfigError gerr) (createInstall m ne cloc) :=
  never_mono (createInstall_noconfig m ne cloc) (isConfigError_isConfigCall gerr)

theorem getRepoConfig_upon (m : Manager) (rd : RepoRevisionData) (gerr : GoError)
    (hne : gerr ≠ .nil) :
    Upon (Effect.isConfigError gerr)
      (fun r => r = (none, .withMessage (.userError gerr) "error getting metadata"))
      (getRepoConfig m (some rd)) := by
  simp only [getRepoConfig]
  refine upon_after (never_log _ (by simp [Effect.isConfigError]))
    (never_log _ (by simp [Effect.isChartCall, Effect.kind])) fun _ => ?_
  refine upon_after (never_emit _ (by simp [Effect.isConfigError]))
    (never_emit _ (by simp [Effect.isChartCall, Effect.kind])) fun _ => ?_
  refine upon_call _ _ _ (fun b => by simp [Effect.isChartCall, Effect.kind])
    (fun b hb h => ?_) (fun b hb => ?_)
  · have hb2 : b.2 = gerr := by simpa [Effect.isConfigError] using hb
    have hu : Wrap (UserError gerr) "error getting metadata"
        = .withMessage (.userError gerr) "error getting metadata" := by
      cases gerr <;> simp [Wrap, UserError] at hne ⊢
    simp [run_bind, run_pure, run_emit, hb2, hne, hu, Effect.isChartCall, Effect.kind]
  · repeat (first
      | with_reducible apply never_pure
      | (with_reducible apply never_emit; simp [Effect.isConfigError])
      | with_reducible apply never_bind
      | with_reducible intro _
      | dsimp only
      | split)

theorem processEnvConfigBody_upon (m : Manager) (env : QAEnvironment) (rd : RepoRevisionData)
    (gerr : GoError) (hne : gerr ≠ .nil) :
    Upon (Effect.isConfigError gerr)
      (fun c => c = ⟨false, some { env := some env, rc := none },
        .withMessage (.withMessage (.userError gerr) "error getting metadata")
          "error validating environment config"⟩)
      (processEnvConfigBody m env (some rd)) := by
  unfold processEnvConfigBody
  dsimp only
  refine upon_before (getRepoConfig_upon m rd gerr hne) (fun a => ?_) (fun a ha => ?_)
  · repeat (first
      | with_reducible apply never_pure
      | (with_reducible apply never_call; intro _; simp [Effect.isConfigError])
      | with_reducible apply never_bind
      | with_reducible intro _
      | dsimp only
      | split)
  · subst ha
    simp only [ne_eq, reduceCtorEq, not_false_eq_true, if_true]
    exact ⟨never_pure _ _, fun _ => by simp [run_pure, Wrap]⟩

theorem processEnvConfig_upon (m : Manager) (env : QAEnvironment) (rd : RepoRevisionData)
    (gerr : GoError) (hne : gerr ≠ .nil) :
    Upon (Effect.isConfigError gerr)
      (fun c => c = ⟨false, some { env := some env, rc := none },
        .withMessage (.withMessage (.userError gerr) "error getting metadata")
          "error validating environment config"⟩)
      (processEnvConfig m env (some rd)) := by
  unfold processEnvConfig
  refine upon_after (never_emit _ (by simp [Effect.isConfigError]))
    (never_emit _ (by simp [Effect.isChartCall, Effect.kind])) fun _ => ?_
  refine upon_before (processEnvConfigBody_upon m env rd gerr hne) (fun a => ?_) (fun a ha => ?_)
  · exact never_bind (never_emit _ (by simp [Effect.isConfigError])) fun _ => never_pure _ _
  · subst ha
    refine ⟨never_bind (never_emit _ (by simp [Effect.isChartCall, Effect.kind]))
      fun _ => never_pure _ _, fun _ => ?_⟩
    simp [run_bind, run_emit, run_pure, processEnvConfigDeferred, IsUserError]

theorem createMain_upon (m : Manager) (rd : RepoRevisionData) (env : QAEnvironment)
    (gerr : GoError) (hne : gerr ≠ .nil) :
    Upon (Effect.isConfigError gerr)
      (fun r => r = (some { env := some env, rc := none },
        ⟨false, "", .withMessage (.withMessage (.withMessage (.userError gerr)
          "error getting metadata") "error validating environment config")
          "error processing environment config"⟩))
      (createMain m rd env) := by
  unfold createMain
  refine upon_before (processEnvConfig_upon m env rd gerr hne) (fun a => ?_) (fun a ha => ?_)
  · repeat (first
      | with_reducible apply never_pure
      | with_reducible exact pushNotification_noerr _ _ _ _ _ _
      | with_reducible exact createPendingGithubStatus_noerr _ _ _
      | with_reducible exact fetchCharts_noerr _ _ _ _
      | with_reducible exact createInstall_noerr _ _ _ _
      | (with_reducible apply never_emit; simp [Effect.isConfigError])
      | (with_reducible apply never_call; intro _; simp [Effect.isConfigError])
      | with_reducible apply never_bind
      | with_reducible intro _
      | dsimp only
      | split)
  · subst ha
    simp only [Bool.false_eq_true, if_false, ne_eq, reduceCtorEq, not_false_eq_true, if_true]
    exact ⟨never_pure _ _, fun _ => by simp [run_pure, Wrap]⟩

theorem create_split (m : Manager) (rd : RepoRevisionData) (h : Hist) (env : QAEnvironment)
    (hg : (generateNewEnv m rd h).1 = (some env, .nil)) :
    let h1 := h ++ (generateNewEnv m rd h).2.filter Effect.visible
    let h2 := h1 ++ (setloggername m env.Name h1).2.filter Effect.visible
    let main := createMain m rd env h2
    let h3 := h2 ++ main.2.filter Effect.visible
    create m rd h = (main.1.2,
      [.Timing .create rd.Repo, .SpanStart "create"] ++ (generateNewEnv m rd h).2
        ++ (setloggername m env.Name h1).2 ++ main.2
        ++ (createDeferred m rd env main.1.1 main.1.2.err h3).2
        ++ [.TimingEnd .create [("success", main.1.2.err == .nil)],
          .SpanFinish "create" main.1.2.err]) := by
  intro h1 h2 main h3
  simp [create, createTimed, run_bind, run_emit, run_pure, hg, Effect.visible, h1, h2, main, h3]

theorem createDeferred_sets_failure (m : Manager) (rd : RepoRevisionData) (env : QAEnvironment)
    (newenv : Option newEnv) (err : GoError) (h : Hist) (herr : err ≠ .nil) :
    Effect.SetQAEnvironmentStatus env.Name .Failure (m.DL.SetQAEnvironmentStatus h env.Name .Failure)
      ∈ (createDeferred m rd env newenv err h).2 := by
  simp [createDeferred, herr, run_bind, run_call]

theorem isConfigCall_false_of_mem {α : Type} {x : M α} (hx : Never Effect.isConfigCall x)
    (h : Hist) (rd : RepoRevisionData) (rc : Option RepoConfig) (gerr : GoError) :
    Effect.Get rd rc gerr ∉ (x h).2 := by
  intro hmem
  have := hx h _ hmem
  simp [Effect.isConfigCall, Effect.kind] at this

theorem UserError_ne_nil (err : GoError) (h : err ≠ .nil) : UserError err ≠ .nil := by
  cases err <;> simp [UserError] at h ⊢

theorem SystemError_ne_nil (err : GoError) (h : err ≠ .nil) : SystemError err ≠ .nil := by
  cases err <;> simp [SystemError] at h ⊢

theorem handleMetahelmError_not_nil (m : Manager) (env : Option newEnv) (err : GoError)
    (msg : String) (herr : err ≠ .nil)
    (hbare : ∀ fd fj fs, fd.length = 0 ∧ fj.length = 0 ∧ fs.length = 0 →
      err ≠ .ChartError .nil fd fj fs) :
    Returns (fun r => r.panicked = false → r.err ≠ .nil) (handleMetahelmError m env err msg) := by
  have hu := Wrap_ne_nil _ msg (UserError_ne_nil err herr)
  have hs := Wrap_ne_nil _ msg (SystemError_ne_nil err herr)
  unfold handleMetahelmError
  split
  · rename_i helmError fd fj fs
    split
    · rename_i hnone
      refine returns_pure fun _ => UserError_ne_nil _ fun hnil => ?_
      subst hnil
      exact hbare fd fj fs hnone rfl
    · repeat (first
        | (with_reducible apply returns_pure; intro hp; first | exact hu | exact hs | exact absurd hp (by simp))
        | with_reducible apply returns_bind
        | with_reducible intro _
        | dsimp only
        | split)
  · exact returns_pure fun _ => hu

/-- With a working set that holds its record, handleMetahelmError returns a chart error
`err` that names a failed deployment, job or daemon set wrapped with `msg`: tagged system when
the blob store is configured and the rendering or the upload of the report fails, and then no
notification is sent; tagged user in every other case. -/
theorem handleMetahelmError_report_class (m : Manager) (e : QAEnvironment)
    (rc : Option RepoConfig) (helmError : GoError) (fd fj fs : List String) (msg : String)
    (h : Hist) (hfail : ¬ (fd.length = 0 ∧ fj.length = 0 ∧ fs.length = 0)) :
    (handleMetahelmError m (some { env := some e, rc := rc })
        (.ChartError helmError fd fj fs) msg h).1.panicked = false
      ∧ (reportFails m e (.ChartError helmError fd fj fs) h = true →
        (handleMetahelmError m (some { env := some e, rc := rc })
            (.ChartError helmError fd fj fs) msg h).1.err
          = .withMessage (.systemError (.ChartError helmError fd fj fs)) msg
        ∧ IsSystemError (handleMetahelmError m (some { env := some e, rc := rc })
            (.ChartError helmError fd fj fs) msg h).1.err = true
        ∧ IsUserError (handleMetahelmError m (some { env := some e, rc := rc })
            (.ChartError helmError fd fj fs) msg h).1.err = false
        ∧ ∀ x ∈ (handleMetahelmError m (some { env := some e, rc := rc })
            (.ChartError helmError fd fj fs) msg h).2, x.kind ≠ .notify)
      ∧ (reportFails m e (.ChartError helmError fd fj fs) h = false →
        (handleMetahelmError m (some { env := some e, rc := rc })
            (.ChartError helmError fd fj fs) msg h).1.err
          = .withMessage (.userError (.ChartError helmError fd fj fs)) msg
        ∧ IsUserError (handleMetahelmError m (some { env := some e, rc := rc })
            (.ChartError helmError fd fj fs) msg h).1.err = true
        ∧ IsSystemError (handleMetahelmError m (some { env := some e, rc := rc })
            (.ChartError helmError fd fj fs) msg h).1.err = false) := by
  unfold handleMetahelmError
  simp only [if_neg hfail]
  have hk := chartErrorRenderHTML_kind m
    { EnvName := e.Name, PullRequestRepo := e.Repo, PullRequestNumber := e.PullRequest,
      StartedTime := e.Created, FailedTime := m.RT.now h, CError := .ChartError helmError fd fj fs } h
  by_cases hc : m.S3Config.Bucket ≠ "" ∧ m.S3Config.Region ≠ ""
  · by_cases hr : (renderedReport m e (.ChartError helmError fd fj fs) h).2 = .nil
    · by_cases hp : (uploadedReport m e (.ChartError helmError fd fj fs) h).2 = .nil
      · have hp2 := hp
        have hr2 := hr
        simp only [renderedReport, uploadedReport] at hr2 hp2
        simp [reportFails, blobStoreConfigured, hc, hr, hp, hr2, hp2, run_bind, run_emit, run_ask, run_log, run_call,
          run_pure, Effect.visible, Wrap, UserError, IsUserError, IsSystemError,
          chartErrorRenderHTML_invisible]
      · have hp2 := hp
        have hr2 := hr
        simp only [renderedReport, uploadedReport] at hr2 hp2
        simp [reportFails, blobStoreConfigured, hc, hr, hp, hr2, hp2, run_bind, run_emit, run_ask, run_log, run_call,
          run_pure, Effect.visible, Wrap, SystemError, IsUserError, IsSystemError,
          chartErrorRenderHTML_invisible]
        refine ⟨by simp [Effect.kind], fun x hx => ?_⟩
        rcases hx with hx | hx
        · rw [hk x hx]
          simp
        · revert x
          simp [Effect.kind]
    · have hr2 := hr
      simp only [renderedReport] at hr2
      simp [reportFails, blobStoreConfigured, hc, hr, hr2, run_bind, run_emit, run_ask, run_log, run_call,
        run_pure, Effect.visible, Wrap, SystemError, IsUserError, IsSystemError,
        chartErrorRenderHTML_invisible]
      refine ⟨by simp [Effect.kind], fun x hx => ?_⟩
      rcases hx with hx | hx
      · rw [hk x hx]
        simp
      · revert x
        simp [Effect.kind]
  · simp [reportFails, blobStoreConfigured, run_bind, run_emit, run_pure, hc, Wrap, UserError, IsUserError,
      IsSystemError]

/-- At a blob store that refuses the upload the report fails and the chart error comes back
tagged system. -/
theorem handleMetahelmError_report_class_witness :
    reportFails uploadFailsManager env0 (.ChartError (.fundamental "timed out") ["web"] [] []) []
        = true
      ∧ IsSystemError (handleMetahelmError uploadFailsManager (some { env := some env0, rc := none })
          (.ChartError (.fundamental "timed out") ["web"] [] []) "error installing charts" []).1.err
        = true :=
  ⟨by decide, ((handleMetahelmError_report_class uploadFailsManager env0 none
    (.fundamental "timed out") ["web"] [] [] "error installing charts" [] (by decide)).2.1
      (by decide)).2.1⟩

theorem isKeptFailure_kind (e : Effect) (h : e.isKeptFailure = true) : e.kind = .installer := by
  cases e <;> simp [Effect.isKeptFailure] at h <;> rfl

theorem never_kept_of_emits {α : Type} {K : List Kind} {x : M α} (hx : Emits K x)
    (hK : Kind.installer ∉ K) : Never Effect.isKeptFailure x := by
  intro h e he
  cases ht : e.isKeptFailure
  · rfl
  · have hk := isKeptFailure_kind e ht
    have := hx h e he
    rw [hk] at this
    exact absurd this hK

theorem not_bare_of_isBareChartError (err : GoError) (hb : err.isBareChartError = false) :
    ∀ fd fj fs, fd.length = 0 ∧ fj.length = 0 ∧ fs.length = 0 →
      err ≠ .ChartError .nil fd fj fs := by
  intro fd fj fs hnone heq
  subst heq
  simp [GoError.isBareChartError, hnone] at hb

theorem whenever_pure {α : Type} (t : Effect → Bool) (G : α → Prop) (a : α) :
    Whenever t G (pure a : M α) := by
  intro h hmem
  simp [run_pure] at hmem

theorem whenever_of_never {α : Type} {t : Effect → Bool} (G : α → Prop) {x : M α}
    (hx : Never t x) : Whenever t G x := by
  intro h hmem
  obtain ⟨e, he, ht⟩ := hmem
  rw [hx h e he] at ht
  exact absurd ht (by simp)

theorem whenever_after {α β : Type} {t : Effect → Bool} {G : β → Prop} {x : M α} {f : α → M β}
    (hx : Never t x) (hf : ∀ a, Whenever t G (f a)) : Whenever t G (x >>= f) := by
  intro h hmem
  rw [run_bind] at hmem ⊢
  obtain ⟨e, he, ht⟩ := hmem
  rcases List.mem_append.mp he with h1 | h2
  · rw [hx h e h1] at ht
    exact absurd ht (by simp)
  · exact hf _ _ ⟨e, h2, ht⟩

theorem whenever_before {α β : Type} {t : Effect → Bool} {G : α → Prop} {P : β → Prop}
    {x : M α} {f : α → M β} (hx : Whenever t G x) (hc : ∀ a, Never t (f a))
    (hr : ∀ a, G a → ∀ h, P (f a h).1) : Whenever t P (x >>= f) := by
  intro h hmem
  rw [run_bind] at hmem ⊢
  obtain ⟨e, he, ht⟩ := hmem
  rcases List.mem_append.mp he with h1 | h2
  · exact hr _ (hx h ⟨e, h1, ht⟩) _
  · rw [hc _ _ e h2] at ht
    exact absurd ht (by simp)

theorem whenever_call {α β : Type} {t : Effect → Bool} {G : α → Prop} (answer : Hist → β)
    (record : β → Effect) (f : β → M α)
    (hyes : ∀ b, t (record b) = true → Returns G (f b))
    (hno : ∀ b, t (record b) = false → Never t (f b)) :
    Whenever t G (call answer record >>= f) := by
  intro h hmem
  rw [run_bind, run_call] at hmem ⊢
  obtain ⟨e, he, ht⟩ := hmem
  cases hb : t (record (answer h)) with
  | true => exact hyes _ hb _
  | false =>
    rcases List.mem_append.mp he with h1 | h2
    · rw [List.mem_singleton.mp h1, hb] at ht
      exact absurd ht (by simp)
    · rw [hno _ hb _ e h2] at ht
      exact absurd ht (by simp)

theorem pushNotification_nokept (m : Manager) (ctx : Ctx) (env : Option newEnv)
    (event : NotificationEvent) (errmsg : ErrorMessage) :
    Never Effect.isKeptFailure (pushNotification m ctx env event errmsg) :=
  never_kept_of_emits (pushNotification_emits m ctx env event errmsg) (by simp [quiet])

theorem createPendingGithubStatus_nokept (m : Manager) (rd : RepoRevisionData) :
    Never Effect.isKeptFailure (createPendingGithubStatus m rd) :=
  never_kept_of_emits (createPendingGithubStatus_emits m rd) (by simp [quiet])

theorem setloggername_nokept (m : Manager) (name : String) :
    Never Effect.isKeptFailure (setloggername m name) :=
  never_kept_of_emits (setloggername_emits m name) (by simp [quiet])

theorem generateNewEnv_nokept (m : Manager) (rd : RepoRevisionData) :
    Never Effect.isKeptFailure (generateNewEnv m rd) :=
  never_kept_of_emits (generateNewEnv_emits m rd) (by simp [quiet])

theorem getenv_nokept (m : Manager) (rd : RepoRevisionData) :
    Never Effect.isKeptFailure (getenv m rd) :=
  never_kept_of_emits (getenv_emits m rd) (by simp [quiet])

theorem processEnvConfig_nokept (m : Manager) (env : QAEnvironment)
    (rd : Option RepoRevisionData) : Never Effect.isKeptFailure (processEnvConfig m env rd) :=
  never_kept_of_emits (processEnvConfig_emits m env rd) (by simp [quiet])

theorem fetchCharts_nokept (m : Manager) (name : String) (rc : Option RepoConfig) :
    Never Effect.isKeptFailure (fetchCharts m name rc) :=
  never_kept_of_emits (fetchCharts_emits m name rc) (by simp)

theorem handleMetahelmError_nokept (m : Manager) (env : Option newEnv) (err : GoError)
    (msg : String) : Never Effect.isKeptFailure (handleMetahelmError m env err msg) :=
  never_kept_of_emits (handleMetahelmError_emits m env err msg) (by simp [quiet])

theorem createDeferred_nokept (m : Manager) (rd : RepoRevisionData) (env : QAEnvironment)
    (newenv : Option newEnv) (err : GoError) :
    Never Effect.isKeptFailure (createDeferred m rd env newenv err) :=
  never_kept_of_emits (createDeferred_emits m rd env newenv err) (by simp [quiet])

theorem updateDeferred_nokept (m : Manager) (rd : RepoRevisionData) (env : QAEnvironment)
    (newenv : Option newEnv) (err : GoError) :
    Never Effect.isKeptFailure (updateDeferred m rd env newenv err) :=
  never_kept_of_emits (updateDeferred_emits m rd env newenv err) (by simp [quiet])

theorem updatePrepare_nokept (m : Manager) (rd : RepoRevisionData) (env : QAEnvironment) :
    Never Effect.isKeptFailure (updatePrepare m rd env) :=
  never_kept_of_emits (updatePrepare_emits m rd env) (by simp [calm, quiet])

theorem isKeptFailure_spec (err : GoError)
    (h : (decide (err ≠ .nil) && !err.isBareChartError) = true) :
    err ≠ .nil ∧ err.isBareChartError = false := by
  simpa using h

theorem handled_failure (m : Manager) (ne : newEnv) (err : GoError) (msg : String)
    (herr : err ≠ .nil) (hb : err.isBareChartError = false) (name : String) (perr : GoError) :
    Returns (fun r : Option newEnv × Result => r.2.panicked = false → r.2.err ≠ .nil)
      (handleMetahelmError m (some ne) err msg >>= fun hr =>
        if hr.panicked then (pure (hr.ne, ⟨true, "", perr⟩) : M (Option newEnv × Result))
        else pure (hr.ne, ⟨false, name, hr.err⟩)) := by
  refine Returns.bind_of
    (handleMetahelmError_not_nil m (some ne) err msg herr (not_bare_of_isBareChartError err hb))
    fun hr hhr => ?_
  split
  · exact returns_pure fun hp => absurd hp (by simp)
  · rename_i hnp
    exact returns_pure fun _ => hhr (by simpa using hnp)

theorem createInstall_keeps (m : Manager) (ne : newEnv)
    (cloc : List (String × MetaChartLocation)) :
    Whenever Effect.isKeptFailure
      (fun r : Option newEnv × Result => r.2.panicked = false → r.2.err ≠ .nil)
      (createInstall m ne cloc) := by
  unfold createInstall
  dsimp only
  refine whenever_after (never_emit _ (by simp [Effect.isKeptFailure])) fun _ => ?_
  refine whenever_call _ _ _ (fun b hb => ?_) (fun b hb => ?_)
  · obtain ⟨herr, hbare⟩ := isKeptFailure_spec b (by simpa [Effect.isKeptFailure] using hb)
    rw [if_pos herr]
    exact returns_bind fun _ => handled_failure m ne b _ herr hbare _ _
  · repeat (first
      | with_reducible apply never_pure
      | with_reducible exact handleMetahelmError_nokept _ _ _ _
      | (with_reducible apply never_emit; simp [Effect.isKeptFailure])
      | with_reducible apply never_bind
      | with_reducible intro _
      | dsimp only
      | split)

theorem createMain_keeps (m : Manager) (rd : RepoRevisionData) (env : QAEnvironment) :
    Whenever Effect.isKeptFailure
      (fun r : Option newEnv × Result => r.2.panicked = false → r.2.err ≠ .nil)
      (createMain m rd env) := by
  unfold createMain
  refine whenever_after (processEnvConfig_nokept m env _) fun c => ?_
  split
  · exact whenever_pure _ _ _
  · split
    · exact whenever_pure _ _ _
    · refine whenever_after (never_call _ _ fun _ => by simp [Effect.isKeptFailure]) fun done => ?_
      split
      · exact whenever_pure _ _ _
      · refine whenever_after (pushNotification_nokept _ _ _ _ _) fun newenv => ?_
        refine whenever_after (createPendingGithubStatus_nokept _ _) fun _ => ?_
        split
        · exact whenever_pure _ _ _
        · refine whenever_after (fetchCharts_nokept _ _ _) fun f => ?_
          split
          · exact whenever_pure _ _ _
          · split
            · exact whenever_pure _ _ _
            · refine whenever_before (createInstall_keeps m _ _) (fun r => ?_)
                (fun r hr h => hr)
              exact never_bind (never_emit _ (by simp [Effect.isKeptFailure]))
                fun _ => never_pure _ _

theorem createTimed_keeps (m : Manager) (rd : RepoRevisionData) :
    Whenever Effect.isKeptFailure (fun r : Result => r.panicked = false → r.err ≠ .nil)
      (createTimed m rd) := by
  unfold createTimed
  refine whenever_after (generateNewEnv_nokept m rd) fun g => ?_
  split
  · exact whenever_pure _ _ _
  · split
    · exact whenever_pure _ _ _
    · rename_i env _
      refine whenever_after (setloggername_nokept m _) fun _ => ?_
      refine whenever_before (createMain_keeps m rd env) (fun r => ?_) (fun r hr _ => hr)
      exact never_bind (createDeferred_nokept m rd env _ _) fun _ => never_pure _ _

theorem create_keeps (m : Manager) (rd : RepoRevisionData) :
    Whenever Effect.isKeptFailure (fun r : Result => r.panicked = false → r.err ≠ .nil)
      (create m rd) := by
  unfold create
  refine whenever_after (never_emit _ (by simp [Effect.isKeptFailure])) fun _ => ?_
  refine whenever_after (never_emit _ (by simp [Effect.isKeptFailure])) fun _ => ?_
  refine whenever_before (createTimed_keeps m rd) (fun r => ?_) (fun r hr _ => hr)
  exact never_bind (never_emit _ (by simp [Effect.isKeptFailure])) fun _ =>
    never_bind (never_emit _ (by simp [Effect.isKeptFailure])) fun _ => never_pure _ _

theorem updateInstall_keeps (m : Manager) (rd : RepoRevisionData) (env : QAEnvironment)
    (ne : newEnv) (k8senv : K8sEnvironment) (cloc : List (String × MetaChartLocation)) :
    Whenever Effect.isKeptFailure
      (fun r : Option newEnv × Result => r.2.panicked = false → r.2.err ≠ .nil)
      (updateInstall m rd env ne k8senv cloc) := by
  unfold updateInstall
  dsimp only
  split
  · exact whenever_pure _ _ _
  · split
    · refine whenever_after (never_log _ (by simp [Effect.isKeptFailure])) fun _ => ?_
      refine whenever_after (never_emit _ (by simp [Effect.isKeptFailure])) fun _ => ?_
      refine whenever_after (never_call _ _ fun _ => by simp [Effect.isKeptFailure]) fun q => ?_
      split
      · exact whenever_pure _ _ _
      · refine whenever_call _ _ _ (fun b hb => ?_) (fun b hb => ?_)
        · obtain ⟨herr, hbare⟩ := isKeptFailure_spec b (by simpa [Effect.isKeptFailure] using hb)
          rw [if_pos herr]
          exact handled_failure m ne b _ herr hbare _ _
        · repeat (first
            | with_reducible apply never_pure
            | with_reducible exact handleMetahelmError_nokept _ _ _ _
            | with_reducible apply never_bind
            | with_reducible intro _
            | dsimp only
            | split)
    · refine whenever_after (never_log _ (by simp [Effect.isKeptFailure])) fun _ => ?_
      refine whenever_after (never_emit _ (by simp [Effect.isKeptFailure])) fun _ => ?_
      refine whenever_after (never_call _ _ fun _ => by simp [Effect.isKeptFailure]) fun derr => ?_
      split
      · exact whenever_pure _ _ _
      · refine whenever_call _ _ _ (fun b hb => ?_) (fun b hb => ?_)
        · obtain ⟨herr, hbare⟩ := isKeptFailure_spec b (by simpa [Effect.isKeptFailure] using hb)
          rw [if_pos herr]
          exact handled_failure m ne b _ herr hbare _ _
        · repeat (first
            | with_reducible apply never_pure
            | with_reducible exact handleMetahelmError_nokept _ _ _ _
            | with_reducible apply never_bind
            | with_reducible intro _
            | dsimp only
            | split)

theorem updateMain_keeps (m : Manager) (rd : RepoRevisionData) (env : QAEnvironment) :
    Whenever Effect.isKeptFailure
      (fun r : Option newEnv × Result => r.2.panicked = false → r.2.err ≠ .nil)
      (updateMain m rd env) := by
  unfold updateMain
  refine whenever_after (updatePrepare_nokept m rd env) fun st => ?_
  cases st with
  | returned ne r => exact whenever_pure _ _ _
  | install ne k8senv td cloc =>
    refine whenever_before (updateInstall_keeps m rd env ne k8senv cloc) (fun r => ?_)
      (fun r hr h => hr)
    exact never_bind (never_emit _ (by simp [Effect.isKeptFailure])) fun _ => never_pure _ _

theorem updateTimed_keeps (m : Manager) (rd : RepoRevisionData) :
    Whenever Effect.isKeptFailure (fun r : Result => r.panicked = false → r.err ≠ .nil)
      (updateTimed m rd) := by
  unfold updateTimed
  refine whenever_after (getenv_nokept m rd) fun g => ?_
  split
  · split
    · refine whenever_after (never_log _ (by simp [Effect.isKeptFailure])) fun _ => ?_
      refine whenever_after (never_emit _ (by simp [Effect.isKeptFailure])) fun _ => ?_
      refine whenever_before (create_keeps m rd) (fun r => ?_) (fun r hr h => ?_)
      · split
        · exact never_pure _ _
        · exact never_pure _ _
      · split
        · exact fun hp => absurd hp (by simp [run_pure])
        · exact hr
    · exact whenever_pure _ _ _
  · split
    · exact whenever_pure _ _ _
    · rename_i env _
      refine whenever_after (setloggername_nokept m _) fun _ => ?_
      refine whenever_before (updateMain_keeps m rd env) (fun r => ?_) (fun r hr _ => hr)
      exact never_bind (updateDeferred_nokept m rd env _ _) fun _ => never_pure _ _

theorem update_keeps (m : Manager) (rd : RepoRevisionData) :
    Whenever Effect.isKeptFailure (fun r : Result => r.panicked = false → r.err ≠ .nil)
      (update m rd) := by
  unfold update
  refine whenever_after (never_emit _ (by simp [Effect.isKeptFailure])) fun _ => ?_
  refine whenever_after (never_emit _ (by simp [Effect.isKeptFailure])) fun _ => ?_
  refine whenever_before (updateTimed_keeps m rd) (fun r => ?_) (fun r hr _ => hr)
  exact never_bind (never_emit _ (by simp [Effect.isKeptFailure])) fun _ =>
    never_bind (never_emit _ (by simp [Effect.isKeptFailure])) fun _ => never_pure _ _

theorem tally_imp {α : Type} {P : α → Nat → Nat → Nat → Prop} {x : M α} (c : Prop)
    (hx : c → Tally P x) : Tally (fun a s u v => c → P a s u v) x :=
  fun h hc => hx hc h

theorem tally_and_returns {α : Type} {P : α → Nat → Nat → Nat → Prop} {R : α → Prop} {x : M α}
    (hx : Tally P x) (hr : Returns R x) : Tally (fun a s u v => P a s u v ∧ R a) x :=
  fun h => ⟨hx h, hr h⟩

theorem pushNotification_keeps (m : Manager) (ctx : Ctx) (env : Option newEnv)
    (event : NotificationEvent) (errmsg : ErrorMessage) (hrec : hasRecord env = true) :
    Returns (fun w => hasRecord w = true) (pushNotification m ctx env event errmsg) := by
  unfold pushNotification validContext
  split
  · simp [hasRecord] at hrec
  · rename_i ne
    split
    · rename_i hnone
      simp [hasRecord, hnone] at hrec
    · rename_i e he
      repeat (first
        | (with_reducible apply returns_pure; simp [hasRecord, he])
        | with_reducible apply returns_bind
        | with_reducible intro _
        | dsimp only
        | split)

theorem pushNotification_exact (m : Manager) (ctx : Ctx) (env : Option newEnv)
    (event : NotificationEvent) (errmsg : ErrorMessage) (hNF : m.NF.isSome = true)
    (hrec : hasRecord env = true) :
    Tally (fun _ s u v => s = 0 ∧ u = eventBudget event .Success ∧ v = eventBudget event .Failure)
      (pushNotification m ctx env event errmsg) := by
  unfold pushNotification validContext
  split
  · simp [hasRecord] at hrec
  · split
    · rename_i hnone
      simp [hasRecord, hnone] at hrec
    · refine Tally.bind_never (never_ask _ _) fun vctx => ?_
      refine Tally.bind_never (never_call _ _ fun _ => by simp [Effect.loud, Effect.isTerminalStatus, Effect.isNotification]) fun r => ?_
      refine Tally.bind_never (logIf_never _ _) fun _ => ?_
      refine Tally.bind_never (never_call _ _ fun _ => by simp [Effect.loud, Effect.isTerminalStatus, Effect.isNotification]) fun k => ?_
      dsimp only
      refine Tally.bind_never ?_ fun _ => ?_
      · split
        · exact never_bind (never_log _ (by simp [Effect.loud, Effect.isTerminalStatus, Effect.isNotification])) fun _ => never_emit _ (by simp [Effect.loud, Effect.isTerminalStatus, Effect.isNotification])
        · exact never_pure _ _
      · split
        · rename_i hn
          simp [hn] at hNF
        · refine Tally.bind_last (Q := fun _ s u v => s = 0 ∧ u = eventBudget event .Success
              ∧ v = eventBudget event .Failure)
            (tally_call _ _ fun _ => ?_) (fun err => ?_) (fun _ _ _ _ hq _ => hq)
          · cases event <;> simp [statuses, successes, failures, Effect.isTerminalStatus, Effect.isNotification, eventBudget]
          · refine never_bind ?_ fun _ => never_pure _ _
            split
            · exact never_bind (never_log _ (by simp [Effect.loud, Effect.isTerminalStatus, Effect.isNotification])) fun _ => never_emit _ (by simp [Effect.loud, Effect.isTerminalStatus, Effect.isNotification])
            · exact never_pure _ _

theorem createDeferred_exact (m : Manager) (rd : RepoRevisionData) (env : QAEnvironment)
    (newenv : Option newEnv) (err : GoError) (hNF : m.NF.isSome = true)
    (hrec : hasRecord newenv = true) :
    Tally (fun _ s u v => s = 1 ∧ (err ≠ .nil → u = 0 ∧ v = 1) ∧ (err = .nil → u = 1 ∧ v = 0))
      (createDeferred m rd env newenv err) := by
  unfold createDeferred
  by_cases herr : err = .nil
  · rw [if_neg (by simp [herr])]
    refine tally_bind (pushNotification_exact _ _ _ _ _ hNF hrec)
      (R := fun _ _ s u v => s = 1 ∧ u = 0 ∧ v = 0) (fun _ => ?_) ?_
    · exact Tally.bind_last (createSuccessGithubStatus_tally m rd) (fun _ => never_pure _ _)
        (fun _ _ _ _ hq _ => hq)
    · intro a s1 u1 v1 b s2 u2 v2 h1 h2
      simp only [eventBudget] at h1
      simp at h1
      refine ⟨by omega, fun hne => absurd herr hne, fun _ => by omega⟩
  · rw [if_pos herr]
    refine Tally.bind_never (never_call _ _ fun _ => by simp [Effect.loud, Effect.isTerminalStatus, Effect.isNotification]) fun _ => ?_
    refine Tally.bind_never (logIf_never _ _) fun _ => ?_
    refine tally_bind (pushNotification_exact _ _ _ _ _ hNF hrec)
      (R := fun _ _ s u v => s = 1 ∧ u = 0 ∧ v = 0) (fun _ => ?_) ?_
    · refine Tally.bind_last (createErrorGithubStatus_tally m rd) (fun _ => ?_)
        (fun _ _ _ _ hq _ => hq)
      exact never_emit _ (by simp [Effect.loud, Effect.isTerminalStatus, Effect.isNotification])
    · intro a s1 u1 v1 b s2 u2 v2 h1 h2
      simp only [eventBudget] at h1
      simp at h1
      refine ⟨by omega, fun _ => by omega, fun he => absurd he herr⟩

theorem updateDeferred_exact (m : Manager) (rd : RepoRevisionData) (env : QAEnvironment)
    (ne : Option newEnv) (err : GoError) (hNF : m.NF.isSome = true)
    (hrec : hasRecord ne = true) :
    Tally (fun _ s u v => s = 1 ∧ (err ≠ .nil → u = 0 ∧ v = 1) ∧ (err = .nil → u = 1 ∧ v = 0))
      (updateDeferred m rd env ne err) := by
  unfold updateDeferred
  by_cases herr : err = .nil
  · rw [if_neg (by simp [herr])]
    refine tally_bind (pushNotification_exact _ _ _ _ _ hNF hrec)
      (R := fun _ _ s u v => s = 1 ∧ u = 0 ∧ v = 0) (fun _ => ?_) ?_
    · exact Tally.bind_last (createSuccessGithubStatus_tally m rd) (fun _ => never_pure _ _)
        (fun _ _ _ _ hq _ => hq)
    · intro a s1 u1 v1 b s2 u2 v2 h1 h2
      simp only [eventBudget] at h1
      simp at h1
      refine ⟨by omega, fun hne => absurd herr hne, fun _ => by omega⟩
  · rw [if_pos herr]
    refine Tally.bind_never (never_call _ _ fun _ => by simp [Effect.loud, Effect.isTerminalStatus, Effect.isNotification]) fun _ => ?_
    refine Tally.bind_never (logIf_never _ _) fun _ => ?_
    refine tally_bind (pushNotification_exact _ _ _ _ _ hNF hrec)
      (R := fun _ _ s u v => s = 1 ∧ u = 0 ∧ v = 0) (fun _ => ?_) ?_
    · exact Tally.bind_last (createErrorGithubStatus_tally m rd) (fun _ => never_pure _ _)
        (fun _ _ _ _ hq _ => hq)
    · intro a s1 u1 v1 b s2 u2 v2 h1 h2
      simp only [eventBudget] at h1
      simp at h1
      refine ⟨by omega, fun _ => by omega, fun he => absurd he herr⟩

theorem returns_call_of {α β : Type} {P : α → Prop} (answer : Hist → β) (record : β → Effect)
    (f : β → M α) (Q : β → Prop) (ha : ∀ h, Q (answer h)) (hf : ∀ b, Q b → Returns P (f b)) :
    Returns P (call answer record >>= f) :=
  fun h => hf _ (ha h) _

theorem processEnvConfigBody_has (m : Manager) (env : QAEnvironment)
    (rd : Option RepoRevisionData)
    (hread : ∀ hh name, (m.DL.GetQAEnvironment hh name).2 = .nil →
      (m.DL.GetQAEnvironment hh name).1 ≠ none) :
    Returns (fun c => hasRecord c.ne = true) (processEnvConfigBody m env rd) := by
  unfold processEnvConfigBody
  dsimp only
  repeat (first
    | ((with_reducible apply returns_pure); focus (simp [hasRecord]; done))
    | (with_reducible refine returns_call_of _ _ _ (fun g : Option QAEnvironment × GoError => g.2 = .nil → g.1 ≠ none) (fun h => hread h _) (fun g hg => ?_))
    | with_reducible apply returns_bind
    | with_reducible intro _
    | dsimp only
    | split)
  rename_i hnil
  refine returns_pure ?_
  have := hg (by simpa using hnil)
  simpa [hasRecord, Option.isSome_iff_ne_none] using this

theorem processEnvConfig_has (m : Manager) (env : QAEnvironment) (rd : Option RepoRevisionData)
    (hread : ∀ hh name, (m.DL.GetQAEnvironment hh name).2 = .nil →
      (m.DL.GetQAEnvironment hh name).1 ≠ none) :
    Returns (fun c => hasRecord c.ne = true) (processEnvConfig m env rd) := by
  unfold processEnvConfig
  refine returns_bind fun _ => ?_
  refine Returns.bind_of (processEnvConfigBody_has m env rd hread) fun c hc => ?_
  exact returns_bind fun _ => returns_pure hc

theorem handleMetahelmError_keeps (m : Manager) (env : Option newEnv) (err : GoError)
    (msg : String) (hrec : hasRecord env = true) :
    Returns (fun hr => hasRecord hr.ne = true) (handleMetahelmError m env err msg) := by
  unfold handleMetahelmError
  repeat (first
    | ((with_reducible apply returns_pure); focus (simp_all [hasRecord]; done))
    | (with_reducible refine Returns.bind_of (pushNotification_keeps _ _ _ _ _ ?_) (fun w hw => ?_))
    | with_reducible apply returns_bind
    | with_reducible intro _
    | dsimp only
    | split
    | focus (simp_all [hasRecord]; done))

theorem createInstall_has (m : Manager) (ne : newEnv) (cloc : List (String × MetaChartLocation))
    (hrec : hasRecord (some ne) = true) :
    Returns (fun r => hasRecord r.1 = true) (createInstall m ne cloc) := by
  unfold createInstall
  repeat (first
    | ((with_reducible apply returns_pure); focus (simp_all [hasRecord]; done))
    | (with_reducible refine Returns.bind_of (handleMetahelmError_keeps _ _ _ _ hrec) (fun hr hhr => ?_))
    | with_reducible apply returns_bind
    | with_reducible intro _
    | dsimp only
    | split)

theorem createMain_has (m : Manager) (rd : RepoRevisionData) (env : QAEnvironment)
    (hread : ∀ hh name, (m.DL.GetQAEnvironment hh name).2 = .nil →
      (m.DL.GetQAEnvironment hh name).1 ≠ none) :
    Returns (fun r => hasRecord r.1 = true) (createMain m rd env) := by
  unfold createMain
  refine Returns.bind_of (processEnvConfig_has m env _ hread) fun c hc => ?_
  split
  · exact returns_pure (by simp [hasRecord])
  · split
    · exact returns_pure hc
    · refine returns_bind fun done => ?_
      split
      · exact returns_pure hc
      · refine Returns.bind_of (pushNotification_keeps _ _ _ _ _ hc) fun newenv hn => ?_
        refine returns_bind fun _ => ?_
        split
        · exact returns_pure hn
        · refine returns_bind fun f => ?_
          split
          · exact returns_pure hn
          · split
            · exact returns_pure hn
            · refine Returns.bind_of (createInstall_has m _ _ hn) fun r hr => ?_
              exact returns_bind fun _ => returns_pure hr

theorem updateInstall_has (m : Manager) (rd : RepoRevisionData) (env : QAEnvironment)
    (ne : newEnv) (k8senv : K8sEnvironment) (cloc : List (String × MetaChartLocation))
    (hrec : hasRecord (some ne) = true) :
    Returns (fun r => hasRecord r.1 = true) (updateInstall m rd env ne k8senv cloc) := by
  unfold updateInstall
  dsimp only
  repeat (first
    | ((with_reducible apply returns_pure); focus (simp_all [hasRecord]; done))
    | (with_reducible refine Returns.bind_of (handleMetahelmError_keeps _ _ _ _ hrec) (fun hr hhr => ?_))
    | with_reducible apply returns_bind
    | with_reducible intro _
    | dsimp only
    | split)

theorem updatePrepare_has (m : Manager) (rd : RepoRevisionData) (env : QAEnvironment)
    (hread : ∀ hh name, (m.DL.GetQAEnvironment hh name).2 = .nil →
      (m.DL.GetQAEnvironment hh name).1 ≠ none) :
    Returns (fun st => st.hasRecord = true) (updatePrepare m rd env) := by
  unfold updatePrepare
  refine Returns.bind_of (processEnvConfig_has m env _ hread) fun c hc => ?_
  split
  · exact returns_pure (by simp [UpdateStage.hasRecord, hasRecord])
  · split
    · exact returns_pure hc
    · refine returns_bind fun k => ?_
      split
      · exact returns_pure hc
      · split
        · exact returns_pure hc
        · refine returns_bind fun done => ?_
          split
          · exact returns_pure hc
          · refine Returns.bind_of (pushNotification_keeps _ _ _ _ _ hc) fun ne2 hn => ?_
            refine returns_bind fun _ => ?_
            split
            · exact returns_pure hn
            · refine returns_bind fun f => ?_
              split
              · exact returns_pure hn
              · split
                · exact returns_pure hn
                · exact returns_pure hn

theorem updateMain_has (m : Manager) (rd : RepoRevisionData) (env : QAEnvironment)
    (hread : ∀ hh name, (m.DL.GetQAEnvironment hh name).2 = .nil →
      (m.DL.GetQAEnvironment hh name).1 ≠ none) :
    Returns (fun r => hasRecord r.1 = true) (updateMain m rd env) := by
  unfold updateMain
  refine Returns.bind_of (updatePrepare_has m rd env hread) fun st hst => ?_
  cases st with
  | returned ne r => exact returns_pure hst
  | install ne k8senv td cloc =>
    refine Returns.bind_of (updateInstall_has m rd env ne k8senv cloc hst) fun r hr => ?_
    exact returns_bind fun _ => returns_pure hr

theorem deleteMain_has (m : Manager) (rd : RepoRevisionData) (env : QAEnvironment)
    (ne : Option newEnv) (hrec : hasRecord ne = true) :
    Returns (fun r => hasRecord r.1 = true) (deleteMain m rd env ne) := by
  unfold deleteMain
  refine returns_bind fun done => ?_
  split
  · exact returns_pure hrec
  · refine Returns.bind_of (pushNotification_keeps _ _ _ _ _ hrec) fun ne2 hn => ?_
    repeat (first
      | ((with_reducible apply returns_pure); exact hn)
      | with_reducible apply returns_bind
      | with_reducible intro _
      | dsimp only
      | split)

theorem createStage_exact (m : Manager) (rd : RepoRevisionData) (env : QAEnvironment)
    (hNF : m.NF.isSome = true)
    (hread : ∀ hh name, (m.DL.GetQAEnvironment hh name).2 = .nil →
      (m.DL.GetQAEnvironment hh name).1 ≠ none) :
    Tally (fun r s u v => s = 1 ∧ (r.err = .nil → u = 1 ∧ v = 0)
        ∧ (r.err ≠ .nil → u = 0 ∧ 1 ≤ v ∧ v ≤ 2))
      (setloggername m env.Name >>= fun _ => createMain m rd env >>= fun r =>
        createDeferred m rd env r.1 r.2.err >>= fun _ => (pure r.2 : M Result)) := by
  refine Tally.bind_never (setloggername_never m _) fun _ => ?_
  refine tally_bind (tally_and_returns (createMain_tally m rd env) (createMain_has m rd env hread))
    (R := fun r b s u v => hasRecord r.1 = true →
      b = r.2 ∧ s = 1 ∧ (r.2.err ≠ .nil → u = 0 ∧ v = 1) ∧ (r.2.err = .nil → u = 1 ∧ v = 0))
    (fun r => ?_) ?_
  · refine tally_imp _ fun hrec => ?_
    exact Tally.bind_last (createDeferred_exact m rd env r.1 r.2.err hNF hrec)
      (fun _ => never_pure _ _) (fun _ s u v hq _ => ⟨rfl, hq⟩)
  · intro r s1 u1 v1 b s2 u2 v2 h1 h2
    obtain ⟨⟨hs1, hu1, hv1, hv⟩, hrec⟩ := h1
    obtain ⟨hb, hs2, hne, heq⟩ := h2 hrec
    subst hb
    refine ⟨by omega, fun herr => ?_, fun herr => ?_⟩
    · obtain ⟨hu2, hv2⟩ := heq herr
      have : v1 = 0 := by
        by_contra hc
        exact hv (Nat.pos_of_ne_zero hc) herr
      omega
    · obtain ⟨hu2, hv2⟩ := hne herr
      omega

theorem create_exact (m : Manager) (rd : RepoRevisionData) (h : Hist) (env : QAEnvironment)
    (hNF : m.NF.isSome = true)
    (hread : ∀ hh name, (m.DL.GetQAEnvironment hh name).2 = .nil →
      (m.DL.GetQAEnvironment hh name).1 ≠ none)
    (hg : (generateNewEnv m rd h).1 = (some env, .nil)) :
    statuses (create m rd h).2 = 1
      ∧ ((create m rd h).1.err = .nil →
        successes (create m rd h).2 = 1 ∧ failures (create m rd h).2 = 0)
      ∧ ((create m rd h).1.err ≠ .nil →
        successes (create m rd h).2 = 0 ∧ 1 ≤ failures (create m rd h).2
          ∧ failures (create m rd h).2 ≤ 2) := by
  have key := createStage_exact m rd env hNF hread
    (h ++ (generateNewEnv m rd h).2.filter Effect.visible)
  have hz := (generateNewEnv_never m rd).tally h
  have hrun : create m rd h = ((setloggername m env.Name >>= fun _ => createMain m rd env >>= fun r =>
        createDeferred m rd env r.1 r.2.err >>= fun _ => (pure r.2 : M Result))
          (h ++ (generateNewEnv m rd h).2.filter Effect.visible) |>.1,
      [.Timing .create rd.Repo, .SpanStart "create"] ++ (generateNewEnv m rd h).2
        ++ ((setloggername m env.Name >>= fun _ => createMain m rd env >>= fun r =>
          createDeferred m rd env r.1 r.2.err >>= fun _ => (pure r.2 : M Result))
            (h ++ (generateNewEnv m rd h).2.filter Effect.visible)).2
        ++ [.TimingEnd .create [("success",
            ((setloggername m env.Name >>= fun _ => createMain m rd env >>= fun r =>
              createDeferred m rd env r.1 r.2.err >>= fun _ => (pure r.2 : M Result))
                (h ++ (generateNewEnv m rd h).2.filter Effect.visible)).1.err == .nil)],
          .SpanFinish "create"
            ((setloggername m env.Name >>= fun _ => createMain m rd env >>= fun r =>
              createDeferred m rd env r.1 r.2.err >>= fun _ => (pure r.2 : M Result))
                (h ++ (generateNewEnv m rd h).2.filter Effect.visible)).1.err]) := by
    simp [create, createTimed, run_bind, run_emit, run_pure, hg, Effect.visible]
  rw [hrun]
  generalize (setloggername m env.Name >>= fun _ => createMain m rd env >>= fun r =>
        createDeferred m rd env r.1 r.2.err >>= fun _ => (pure r.2 : M Result))
          (h ++ (generateNewEnv m rd h).2.filter Effect.visible) = x at key ⊢
  obtain ⟨ks, k0, k1⟩ := key
  obtain ⟨z1, z2, z3⟩ := hz
  simp only [(tally_append _ _).1, (tally_append _ _).2.1, (tally_append _ _).2.2, z1, z2, z3]
  have c1 : statuses [Effect.Timing .create rd.Repo, .SpanStart "create"] = 0 := rfl
  have c2 : successes [Effect.Timing .create rd.Repo, .SpanStart "create"] = 0 := rfl
  have c3 : failures [Effect.Timing .create rd.Repo, .SpanStart "create"] = 0 := rfl
  have d1 : statuses [Effect.TimingEnd .create [("success", x.1.err == .nil)],
      .SpanFinish "create" x.1.err] = 0 := rfl
  have d2 : successes [Effect.TimingEnd .create [("success", x.1.err == .nil)],
      .SpanFinish "create" x.1.err] = 0 := rfl
  have d3 : failures [Effect.TimingEnd .create [("success", x.1.err == .nil)],
      .SpanFinish "create" x.1.err] = 0 := rfl
  rw [c1, c2, c3, d1, d2, d3]
  refine ⟨by omega, fun herr => ?_, fun herr => ?_⟩
  · have := k0 herr
    omega
  · have := k1 herr
    omega

theorem updateStage_exact (m : Manager) (rd : RepoRevisionData) (env : QAEnvironment)
    (hNF : m.NF.isSome = true)
    (hread : ∀ hh name, (m.DL.GetQAEnvironment hh name).2 = .nil →
      (m.DL.GetQAEnvironment hh name).1 ≠ none) :
    Tally (fun r s u v => s = 1 ∧ (r.err = .nil → u = 1 ∧ v = 0)
        ∧ (r.err ≠ .nil → u = 0 ∧ 1 ≤ v ∧ v ≤ 2))
      (setloggername m env.Name >>= fun _ => updateMain m rd env >>= fun r =>
        updateDeferred m rd env r.1 r.2.err >>= fun _ => (pure r.2 : M Result)) := by
  refine Tally.bind_never (setloggername_never m _) fun _ => ?_
  refine tally_bind (tally_and_returns (updateMain_tally m rd env) (updateMain_has m rd env hread))
    (R := fun r b s u v => hasRecord r.1 = true →
      b = r.2 ∧ s = 1 ∧ (r.2.err ≠ .nil → u = 0 ∧ v = 1) ∧ (r.2.err = .nil → u = 1 ∧ v = 0))
    (fun r => ?_) ?_
  · refine tally_imp _ fun hrec => ?_
    exact Tally.bind_last (updateDeferred_exact m rd env r.1 r.2.err hNF hrec)
      (fun _ => never_pure _ _) (fun _ s u v hq _ => ⟨rfl, hq⟩)
  · intro r s1 u1 v1 b s2 u2 v2 h1 h2
    obtain ⟨⟨hs1, hu1, hv1, hv⟩, hrec⟩ := h1
    obtain ⟨hb, hs2, hne, heq⟩ := h2 hrec
    subst hb
    refine ⟨by omega, fun herr => ?_, fun herr => ?_⟩
    · obtain ⟨hu2, hv2⟩ := heq herr
      have : v1 = 0 := by
        by_contra hc
        exact hv (Nat.pos_of_ne_zero hc) herr
      omega
    · obtain ⟨hu2, hv2⟩ := hne herr
      omega

theorem update_exact (m : Manager) (rd : RepoRevisionData) (h : Hist) (env : QAEnvironment)
    (hNF : m.NF.isSome = true)
    (hread : ∀ hh name, (m.DL.GetQAEnvironment hh name).2 = .nil →
      (m.DL.GetQAEnvironment hh name).1 ≠ none)
    (hone : m.DL.GetExtantQAEnvironments h rd.Repo rd.PullRequest = ([env], .nil)) :
    statuses (update m rd h).2 = 1
      ∧ ((update m rd h).1.err = .nil →
        successes (update m rd h).2 = 1 ∧ failures (update m rd h).2 = 0)
      ∧ ((update m rd h).1.err ≠ .nil →
        successes (update m rd h).2 = 0 ∧ 1 ≤ failures (update m rd h).2
          ∧ failures (update m rd h).2 ≤ 2) := by
  have key := updateStage_exact m rd env hNF hread h
  have hg := getenv_one m rd h env hone
  have hrun : update m rd h = ((setloggername m env.Name >>= fun _ => updateMain m rd env >>= fun r =>
        updateDeferred m rd env r.1 r.2.err >>= fun _ => (pure r.2 : M Result)) h |>.1,
      [.Timing .update rd.Repo, .SpanStart "update",
          .GetExtantQAEnvironments rd.Repo rd.PullRequest [env] .nil]
        ++ ((setloggername m env.Name >>= fun _ => updateMain m rd env >>= fun r =>
          updateDeferred m rd env r.1 r.2.err >>= fun _ => (pure r.2 : M Result)) h).2
        ++ [.TimingEnd .update [("success",
            ((setloggername m env.Name >>= fun _ => updateMain m rd env >>= fun r =>
              updateDeferred m rd env r.1 r.2.err >>= fun _ => (pure r.2 : M Result)) h).1.err
                == .nil)],
          .SpanFinish "update"
            ((setloggername m env.Name >>= fun _ => updateMain m rd env >>= fun r =>
              updateDeferred m rd env r.1 r.2.err >>= fun _ => (pure r.2 : M Result)) h).1.err]) := by
    simp [update, updateTimed, run_bind, run_emit, run_pure, hg, Effect.visible]
  rw [hrun]
  generalize (setloggername m env.Name >>= fun _ => updateMain m rd env >>= fun r =>
        updateDeferred m rd env r.1 r.2.err >>= fun _ => (pure r.2 : M Result)) h = x at key ⊢
  obtain ⟨ks, k0, k1⟩ := key
  simp only [(tally_append _ _).1, (tally_append _ _).2.1, (tally_append _ _).2.2]
  have c1 : statuses [Effect.Timing .update rd.Repo, .SpanStart "update",
      .GetExtantQAEnvironments rd.Repo rd.PullRequest [env] .nil] = 0 := rfl
  have c2 : successes [Effect.Timing .update rd.Repo, .SpanStart "update",
      .GetExtantQAEnvironments rd.Repo rd.PullRequest [env] .nil] = 0 := rfl
  have c3 : failures [Effect.Timing .update rd.Repo, .SpanStart "update",
      .GetExtantQAEnvironments rd.Repo rd.PullRequest [env] .nil] = 0 := rfl
  have d1 : statuses [Effect.TimingEnd .update [("success", x.1.err == .nil)],
      .SpanFinish "update" x.1.err] = 0 := rfl
  have d2 : successes [Effect.TimingEnd .update [("success", x.1.err == .nil)],
      .SpanFinish "update" x.1.err] = 0 := rfl
  have d3 : failures [Effect.TimingEnd .update [("success", x.1.err == .nil)],
      .SpanFinish "update" x.1.err] = 0 := rfl
  rw [c1, c2, c3, d1, d2, d3]
  refine ⟨by omega, fun herr => ?_, fun herr => ?_⟩
  · have := k0 herr
    omega
  · have := k1 herr
    omega

theorem deleteStage_exact (m : Manager) (rd : RepoRevisionData) (env : QAEnvironment)
    (hNF : m.NF.isSome = true)
    (hread : ∀ hh name, (m.DL.GetQAEnvironment hh name).2 = .nil →
      (m.DL.GetQAEnvironment hh name).1 ≠ none) :
    Tally (fun r s u v => s = 0 ∧ u = 0 ∧ (r.err = .nil → v = 0) ∧ (r.err ≠ .nil → v = 1))
      (do
        setloggername m env.Name
        let c ← processEnvConfig m env (some rd)
        if c.panicked then
          pure ⟨true, "", .nil⟩
        else do
          (if c.err ≠ .nil then log "error processing environment config: %v" else pure ())
          let r ← deleteMain m rd env c.ne
          (if r.2 ≠ .nil then do
            let _ ← pushNotification m .operation r.1 .Failure (.error "error destroying: " r.2)
            pure ()
          else pure ())
          pure ⟨false, "", r.2⟩ : M Result) := by
  refine Tally.bind_never (setloggername_never m _) fun _ => ?_
  refine tally_bind (tally_and_returns (Tally.of_never (processEnvConfig_never m env _)
      (P := fun _ s u v => s = 0 ∧ u = 0 ∧ v = 0) (fun _ => ⟨rfl, rfl, rfl⟩))
      (processEnvConfig_has m env _ hread))
    (R := fun c b s u v => hasRecord c.ne = true →
      s = 0 ∧ u = 0 ∧ (b.err = .nil → v = 0) ∧ (b.err ≠ .nil → v = 1))
    (fun c => ?_) ?_
  · refine tally_imp _ fun hc => ?_
    split
    · exact tally_pure (by simp)
    · refine Tally.bind_never (logIf_never _ _) fun _ => ?_
      refine tally_bind (tally_and_returns (Tally.of_never (deleteMain_never m rd env c.ne)
          (P := fun _ s u v => s = 0 ∧ u = 0 ∧ v = 0) (fun _ => ⟨rfl, rfl, rfl⟩))
          (deleteMain_has m rd env c.ne hc))
        (R := fun r b s u v => hasRecord r.1 = true →
          s = 0 ∧ u = 0 ∧ (b.err = .nil → v = 0) ∧ (b.err ≠ .nil → v = 1))
        (fun r => ?_) ?_
      · refine tally_imp _ fun hr => ?_
        by_cases herr : r.2 = .nil
        · rw [if_neg (by simp [herr])]
          exact Tally.bind_never (never_pure _ _) fun _ => tally_pure (by simp [herr])
        · rw [if_pos herr]
          refine Tally.bind_last (Tally.bind_last
            (P := fun (_ : Unit) s u v => s = 0 ∧ u = eventBudget .Failure .Success
              ∧ v = eventBudget .Failure .Failure)
            (pushNotification_exact m .operation r.1 .Failure _ hNF hr)
            (fun _ => never_pure _ _) (fun _ s u v hq _ => hq))
            (fun _ => never_pure _ _) (fun _ s u v hq _ => ?_)
          simp only [eventBudget] at hq
          simp at hq
          simp [run_pure, herr, hq]
      · intro r s1 u1 v1 b s2 u2 v2 h1 h2
        obtain ⟨⟨hs1, hu1, hv1⟩, hrec⟩ := h1
        obtain ⟨hs2, hu2, h0, h1'⟩ := h2 hrec
        refine ⟨by omega, by omega, fun he => ?_, fun he => ?_⟩
        · have := h0 he
          omega
        · have := h1' he
          omega
  · intro c s1 u1 v1 b s2 u2 v2 h1 h2
    obtain ⟨⟨hs1, hu1, hv1⟩, hrec⟩ := h1
    obtain ⟨hs2, hu2, h0, h1'⟩ := h2 hrec
    refine ⟨by omega, by omega, fun he => ?_, fun he => ?_⟩
    · have := h0 he
      omega
    · have := h1' he
      omega

theorem delete_exact (m : Manager) (rd : RepoRevisionData) (reason : QADestroyReason) (h : Hist)
    (env : QAEnvironment) (hNF : m.NF.isSome = true)
    (hread : ∀ hh name, (m.DL.GetQAEnvironment hh name).2 = .nil →
      (m.DL.GetQAEnvironment hh name).1 ≠ none)
    (hone : m.DL.GetExtantQAEnvironments h rd.Repo rd.PullRequest = ([env], .nil)) :
    statuses (delete m rd reason h).2 = 0 ∧ successes (delete m rd reason h).2 = 0
      ∧ ((delete m rd reason h).1.err = .nil → failures (delete m rd reason h).2 = 0)
      ∧ ((delete m rd reason h).1.err ≠ .nil → failures (delete m rd reason h).2 = 1) := by
  have key := deleteStage_exact m rd env hNF hread h
  have hg := getenv_one m rd h env hone
  obtain ⟨stage, hstage⟩ : ∃ s : M Result, s = (do
        setloggername m env.Name
        let c ← processEnvConfig m env (some rd)
        if c.panicked then
          pure ⟨true, "", .nil⟩
        else do
          (if c.err ≠ .nil then log "error processing environment config: %v" else pure ())
          let r ← deleteMain m rd env c.ne
          (if r.2 ≠ .nil then do
            let _ ← pushNotification m .operation r.1 .Failure (.error "error destroying: " r.2)
            pure ()
          else pure ())
          pure ⟨false, "", r.2⟩ : M Result) := ⟨_, rfl⟩
  rw [← hstage] at key
  have hrun : delete m rd reason h = ((stage h).1,
      [.Timing .delete rd.Repo, .SpanStart "delete",
          .GetExtantQAEnvironments rd.Repo rd.PullRequest [env] .nil]
        ++ (stage h).2
        ++ [.TimingEnd .delete [("success", (stage h).1.err == .nil)],
          .SpanFinish "delete" (stage h).1.err]) := by
    subst hstage
    simp [delete, deleteTimed, run_bind, run_emit, run_pure, hg, Effect.visible]
  rw [hrun]
  generalize stage h = x at key ⊢
  obtain ⟨ks, ku, k0, k1⟩ := key
  simp only [(tally_append _ _).1, (tally_append _ _).2.1, (tally_append _ _).2.2]
  have c1 : statuses [Effect.Timing .delete rd.Repo, .SpanStart "delete",
      .GetExtantQAEnvironments rd.Repo rd.PullRequest [env] .nil] = 0 := rfl
  have c2 : successes [Effect.Timing .delete rd.Repo, .SpanStart "delete",
      .GetExtantQAEnvironments rd.Repo rd.PullRequest [env] .nil] = 0 := rfl
  have c3 : failures [Effect.Timing .delete rd.Repo, .SpanStart "delete",
      .GetExtantQAEnvironments rd.Repo rd.PullRequest [env] .nil] = 0 := rfl
  have d1 : statuses [Effect.TimingEnd .delete [("success", x.1.err == .nil)],
      .SpanFinish "delete" x.1.err] = 0 := rfl
  have d2 : successes [Effect.TimingEnd .delete [("success", x.1.err == .nil)],
      .SpanFinish "delete" x.1.err] = 0 := rfl
  have d3 : failures [Effect.TimingEnd .delete [("success", x.1.err == .nil)],
      .SpanFinish "delete" x.1.err] = 0 := rfl
  rw [c1, c2, c3, d1, d2, d3]
  refine ⟨by omega, by omega, fun herr => ?_, fun herr => ?_⟩
  · have := k0 herr
    omega
  · have := k1 herr
    omega

theorem create_without_record (m : Manager) (rd : RepoRevisionData) (h : Hist)
    (hg : (generateNewEnv m rd h).1.2 ≠ .nil ∨ (generateNewEnv m rd h).1.1 = none) :
    statuses (create m rd h).2 = 0 ∧ successes (create m rd h).2 = 0
      ∧ failures (create m rd h).2 = 0 := by
  have hz := (generateNewEnv_never m rd).tally h
  have hrun : ∃ r, create m rd h = (r,
      [.Timing .create rd.Repo, .SpanStart "create"] ++ (generateNewEnv m rd h).2
        ++ [.TimingEnd .create [("success", r.err == .nil)], .SpanFinish "create" r.err]) := by
    by_cases h2 : (generateNewEnv m rd h).1.2 = .nil
    · have h1 : (generateNewEnv m rd h).1.1 = none := hg.resolve_left (by simp [h2])
      exact ⟨⟨true, "", .nil⟩, by simp [create, createTimed, run_bind, run_emit, run_pure, h1, h2,
        Effect.visible]⟩
    · exact ⟨⟨false, "", Wrap (generateNewEnv m rd h).1.2 "error generating environment data"⟩,
        by simp [create, createTimed, run_bind, run_emit, run_pure, h2, Effect.visible]⟩
  obtain ⟨r, hr⟩ := hrun
  rw [hr]
  obtain ⟨z1, z2, z3⟩ := hz
  simp only [(tally_append _ _).1, (tally_append _ _).2.1, (tally_append _ _).2.2, z1, z2, z3]
  refine ⟨rfl, rfl, rfl⟩

/-! ## The claims -/

/-- C1. Signature gate: an update that reaches the signature check (one extant environment,
config processed, K8sEnvironment present, context not cancelled, charts fetched) takes the
in-place upgrade branch if and only if the signature of the config equals the stored
signature (as the 32-byte array the code copies it into, which is the stored signature
itself when that has 32 bytes) and the status of the extant environment is Success, and it
takes the rebuild branch in every other case. -/
theorem update_signature_gate (m : Manager) (rd : RepoRevisionData) (h : Hist) (env : QAEnvironment)
    (ne : newEnv) (rc : RepoConfig) (k8senv : K8sEnvironment) (td : String)
    (cloc : List (String × MetaChartLocation))
    (hone : m.DL.GetExtantQAEnvironments h rd.Repo rd.PullRequest = ([env], .nil))
    (hreach : (updatePrepare m rd env
      (h ++ (setloggername m env.Name h).2.filter Effect.visible)).1 = .install ne k8senv td cloc)
    (hrc : ne.rc = some rc) :
    (UpgradedInPlace rd env (update m rd h).2 ↔
        (rc.configSignature = copy32 k8senv.ConfigSignature ∧ env.Status = .Success))
      ∧ (Rebuilt rd k8senv (update m rd h).2 ↔
        ¬ (rc.configSignature = copy32 k8senv.ConfigSignature ∧ env.Status = .Success))
      ∧ (k8senv.ConfigSignature.length = 32 →
        copy32 k8senv.ConfigSignature = k8senv.ConfigSignature) := by
  have hin := update_inPlace_of_match m rd h env ne rc k8senv td cloc hone hreach hrc
  have hre := update_rebuilt_of_mismatch m rd h env ne rc k8senv td cloc hone hreach hrc
  refine ⟨⟨fun hu => ?_, hin⟩, ⟨fun hr hsig => ?_, hre⟩, copy32_of_length _⟩
  · by_contra hsig
    obtain ⟨_, ⟨pre, derr, post, ht, _⟩, _⟩ := hre hsig
    exact hu.2.2.1 k8senv derr (by rw [ht]; simp)
  · obtain ⟨_, ⟨pre, derr, post, ht, _⟩, _⟩ := hr
    exact (hin hsig).2.2.1 k8senv derr (by rw [ht]; simp)

theorem update_signature_gate_witness :
    (okManager.DL.GetExtantQAEnvironments [] rd0.Repo rd0.PullRequest = ([env0], .nil)
      ∧ (updatePrepare okManager rd0 env0
          ([] ++ (setloggername okManager env0.Name []).2.filter Effect.visible)).1
        = .install { env := some env0, rc := some rc0 } k8s0 "/tmp/env-0" []
      ∧ (newEnv.mk (some env0) (some rc0)).rc = some rc0)
    ∧ ((UpgradedInPlace rd0 env0 (update okManager rd0 []).2 ↔
        (rc0.configSignature = copy32 k8s0.ConfigSignature ∧ env0.Status = .Success))
      ∧ (Rebuilt rd0 k8s0 (update okManager rd0 []).2 ↔
        ¬ (rc0.configSignature = copy32 k8s0.ConfigSignature ∧ env0.Status = .Success))
      ∧ (k8s0.ConfigSignature.length = 32 →
        copy32 k8s0.ConfigSignature = k8s0.ConfigSignature)) :=
  ⟨⟨rfl, rfl, rfl⟩,
    update_signature_gate okManager rd0 [] env0 { env := some env0, rc := some rc0 } rc0 k8s0
      "/tmp/env-0" [] rfl rfl rfl⟩

/-- C2. Update fallback: when GetExtantQAEnvironments returns no record, update runs create
from the same state: it panics exactly when create does, returns what create returns, and
emits the effects of create between its own query, log lines, span and the update and
update_create metrics, so that the writes, notifications, commit statuses and installer
calls of the two runs are the same sequence. -/
theorem update_fallback (m : Manager) (rd : RepoRevisionData) (h : Hist)
    (hnone : m.DL.GetExtantQAEnvironments h rd.Repo rd.PullRequest = ([], .nil)) :
    (update m rd h).1.panicked = (create m rd h).1.panicked
      ∧ ((create m rd h).1.panicked = false → (update m rd h).1 = (create m rd h).1)
      ∧ (update m rd h).2 =
          [.Timing .update rd.Repo, .SpanStart "update",
            .GetExtantQAEnvironments rd.Repo rd.PullRequest [] .nil,
            .log "expected exactly one extant environment but there are %v",
            .log "could not find an extant environment so creating new env from scratch",
            .Increment .update_create rd.Repo]
          ++ (create m rd h).2
          ++ [.TimingEnd .update [("success", (update m rd h).1.err == .nil)],
            .SpanFinish "update" (update m rd h).1.err]
      ∧ (update m rd h).2.filter Effect.observable = (create m rd h).2.filter Effect.observable := by
  have hu : update m rd h =
      ((if (create m rd h).1.panicked then ⟨true, "", .extantEnvsErr⟩ else (create m rd h).1),
        [.Timing .update rd.Repo, .SpanStart "update",
            .GetExtantQAEnvironments rd.Repo rd.PullRequest [] .nil,
            .log "expected exactly one extant environment but there are %v",
            .log "could not find an extant environment so creating new env from scratch",
            .Increment .update_create rd.Repo]
          ++ (create m rd h).2
          ++ [.TimingEnd .update [("success",
              (if (create m rd h).1.panicked then (⟨true, "", .extantEnvsErr⟩ : Result)
                else (create m rd h).1).err == .nil)],
            .SpanFinish "update" (if (create m rd h).1.panicked then
              (⟨true, "", .extantEnvsErr⟩ : Result) else (create m rd h).1).err]) := by
    simp only [update, updateTimed, run_bind, run_emit]
    simp [Effect.visible, getenv_none m rd h hnone, run_bind, run_pure, run_log, run_emit]
    split <;> simp [run_pure]
  rw [hu]
  refine ⟨?_, ?_, rfl, ?_⟩
  · by_cases hp : (create m rd h).1.panicked = true <;> simp [hp]
  · intro hp
    simp [hp]
  · simp [List.filter_append, List.filter_cons, Effect.observable, Effect.kind]

theorem update_fallback_witness :
    noExtantManager.DL.GetExtantQAEnvironments [] rd0.Repo rd0.PullRequest = ([], .nil)
      ∧ ((update noExtantManager rd0 []).1.panicked = (create noExtantManager rd0 []).1.panicked
        ∧ ((create noExtantManager rd0 []).1.panicked = false →
          (update noExtantManager rd0 []).1 = (create noExtantManager rd0 []).1)
        ∧ (update noExtantManager rd0 []).2 =
            [.Timing .update rd0.Repo, .SpanStart "update",
              .GetExtantQAEnvironments rd0.Repo rd0.PullRequest [] .nil,
              .log "expected exactly one extant environment but there are %v",
              .log "could not find an extant environment so creating new env from scratch",
              .Increment .update_create rd0.Repo]
            ++ (create noExtantManager rd0 []).2
            ++ [.TimingEnd .update [("success", (update noExtantManager rd0 []).1.err == .nil)],
              .SpanFinish "update" (update noExtantManager rd0 []).1.err]
        ∧ (update noExtantManager rd0 []).2.filter Effect.observable
          = (create noExtantManager rd0 []).2.filter Effect.observable) :=
  ⟨rfl, update_fallback noExtantManager rd0 [] rfl⟩

/-- C3. Idempotent reuse: when GetQAEnvironmentsByRepoAndPR returns a non-empty list and
every write of the data layer succeeds, generateNewEnv picks a returned record whose
created time stamp is at least that of every returned record, sets its status to Spawned,
overwrites its revision data with rd, sets its created time stamp to the clock, re-reads the
record under the same name and returns what the re-read gives; it neither calls the name
generator nor inserts a record. -/
theorem generateNewEnv_reuse (m : Manager) (rd : RepoRevisionData) (h : Hist)
    (envs : List QAEnvironment)
    (hq : m.DL.GetQAEnvironmentsByRepoAndPR h rd.Repo rd.PullRequest = (envs, .nil))
    (hne : envs ≠ [])
    (hstatus : ∀ hh name st, m.DL.SetQAEnvironmentStatus hh name st = .nil)
    (hrepo : ∀ hh name d, m.DL.SetQAEnvironmentRepoData hh name d = .nil)
    (hcreated : ∀ hh name ts, m.DL.SetQAEnvironmentCreated hh name ts = .nil) :
    ∃ picked ∈ envs, (∀ e ∈ envs, e.Created ≤ picked.Created)
      ∧ ∃ hnow hread,
        (generateNewEnv m rd h).2 =
          [.SpanStart "generate_new_env",
            .GetQAEnvironmentsByRepoAndPR rd.Repo rd.PullRequest envs .nil,
            .log "reusing environment db record: %v",
            .SetQAEnvironmentStatus picked.Name .Spawned .nil,
            .AddEvent picked.Name (.reusingRecord m.RT.loggerID),
            .SetQAEnvironmentRepoData picked.Name (some rd) .nil,
            .SetQAEnvironmentCreated picked.Name (m.RT.now hnow) .nil,
            .GetQAEnvironment picked.Name (m.DL.GetQAEnvironment hread picked.Name).1
              (m.DL.GetQAEnvironment hread picked.Name).2,
            .SpanFinish "generate_new_env" (generateNewEnv m rd h).1.2]
        ∧ ((m.DL.GetQAEnvironment hread picked.Name).2 = .nil →
            (generateNewEnv m rd h).1 = ((m.DL.GetQAEnvironment hread picked.Name).1, .nil))
        ∧ ((m.DL.GetQAEnvironment hread picked.Name).2 ≠ .nil →
            (generateNewEnv m rd h).1.1 = none ∧ IsSystemError (generateNewEnv m rd h).1.2 = true)
        ∧ (∀ e ∈ (generateNewEnv m rd h).2,
            (∀ name err, e ≠ .New name err) ∧ (∀ env err, e ≠ .CreateQAEnvironment env err)) := by
  have hlen : 0 < envs.length := List.length_pos.mpr hne
  obtain ⟨hmem, hmax⟩ := latest_spec m envs hne
  refine ⟨latest m envs, hmem, hmax,
    h ++ [.SetQAEnvironmentStatus (latest m envs).Name .Spawned .nil,
      .AddEvent (latest m envs).Name (.reusingRecord m.RT.loggerID),
      .SetQAEnvironmentRepoData (latest m envs).Name (some rd) .nil],
    h ++ [.SetQAEnvironmentStatus (latest m envs).Name .Spawned .nil,
      .AddEvent (latest m envs).Name (.reusingRecord m.RT.loggerID),
      .SetQAEnvironmentRepoData (latest m envs).Name (some rd) .nil,
      .SetQAEnvironmentCreated (latest m envs).Name (m.RT.now
        (h ++ [.SetQAEnvironmentStatus (latest m envs).Name .Spawned .nil,
          .AddEvent (latest m envs).Name (.reusingRecord m.RT.loggerID),
          .SetQAEnvironmentRepoData (latest m envs).Name (some rd) .nil])) .nil], ?_⟩
  have hv : ∀ s : String, List.filter Effect.visible [Effect.SpanStart s] = [] := fun _ => rfl
  simp only [generateNewEnv, generateNewEnvBody, run_bind, run_emit, run_call, hv, List.append_nil,
    hq, ne_eq, not_true_eq_false, if_false, if_pos hlen, run_log, hstatus, hrepo, hcreated, run_ask]
  simp only [Effect.visible, List.filter_cons, List.filter_nil, if_true, if_false, List.append_nil,
    List.append_assoc, List.cons_append, List.nil_append, Bool.false_eq_true]
  generalize m.DL.GetQAEnvironment _ _ = g
  refine ⟨?_, ?_, ?_, ?_⟩
  · by_cases hg : g.2 = .nil <;> simp [hg, run_pure]
  · intro hg
    simp [hg, run_pure, generateNewEnvDeferred]
  · intro hg
    simp [hg, run_pure, generateNewEnvDeferred]
    cases hgg : g.2 <;> simp_all [Wrap, SystemError, IsSystemError]
  · intro e he
    by_cases hg : g.2 = .nil <;> simp [hg, run_pure] at he <;>
      rcases he with rfl | rfl | rfl | rfl | rfl | rfl | rfl | rfl | rfl <;> simp

theorem generateNewEnv_reuse_witness :
    (okManager.DL.GetQAEnvironmentsByRepoAndPR [] rd0.Repo rd0.PullRequest = ([env0], .nil)
      ∧ [env0] ≠ []
      ∧ (∀ hh name st, okManager.DL.SetQAEnvironmentStatus hh name st = .nil)
      ∧ (∀ hh name d, okManager.DL.SetQAEnvironmentRepoData hh name d = .nil)
      ∧ (∀ hh name ts, okManager.DL.SetQAEnvironmentCreated hh name ts = .nil))
    ∧ (∃ picked ∈ [env0], (∀ e ∈ [env0], e.Created ≤ picked.Created)
      ∧ ∃ hnow hread,
        (generateNewEnv okManager rd0 []).2 =
          [.SpanStart "generate_new_env",
            .GetQAEnvironmentsByRepoAndPR rd0.Repo rd0.PullRequest [env0] .nil,
            .log "reusing environment db record: %v",
            .SetQAEnvironmentStatus picked.Name .Spawned .nil,
            .AddEvent picked.Name (.reusingRecord okManager.RT.loggerID),
            .SetQAEnvironmentRepoData picked.Name (some rd0) .nil,
            .SetQAEnvironmentCreated picked.Name (okManager.RT.now hnow) .nil,
            .GetQAEnvironment picked.Name (okManager.DL.GetQAEnvironment hread picked.Name).1
              (okManager.DL.GetQAEnvironment hread picked.Name).2,
            .SpanFinish "generate_new_env" (generateNewEnv okManager rd0 []).1.2]
        ∧ ((okManager.DL.GetQAEnvironment hread picked.Name).2 = .nil →
            (generateNewEnv okManager rd0 []).1 = ((okManager.DL.GetQAEnvironment hread picked.Name).1, .nil))
        ∧ ((okManager.DL.GetQAEnvironment hread picked.Name).2 ≠ .nil →
            (generateNewEnv okManager rd0 []).1.1 = none ∧ IsSystemError (generateNewEnv okManager rd0 []).1.2 = true)
        ∧ (∀ e ∈ (generateNewEnv okManager rd0 []).2,
            (∀ name err, e ≠ .New name err) ∧ (∀ env err, e ≠ .CreateQAEnvironment env err))) :=
  ⟨⟨rfl, by simp, fun _ _ _ => rfl, fun _ _ _ => rfl, fun _ _ _ => rfl⟩,
    generateNewEnv_reuse okManager rd0 [] [env0] rfl (by simp) (fun _ _ _ => rfl)
      (fun _ _ _ => rfl) (fun _ _ _ => rfl)⟩

/-- C4. With two extant records delete does not refuse: getenv returns the sentinel, delete
takes the branch written for no extant record, marks every record of the pair Destroyed
and returns no error (and makes no call of the chart installer). -/
theorem delete_two_extant :
    (delete twoExtantManager rd0 0 []).1 = ⟨false, "", .nil⟩
      ∧ (delete twoExtantManager rd0 0 []).2.filter (fun e => e.kind = .dbWrite)
        = [.SetQAEnvironmentStatus "env-0" .Destroyed .nil,
          .SetQAEnvironmentStatus "env-1" .Destroyed .nil]
      ∧ (delete twoExtantManager rd0 0 []).2.filter (fun e => e.kind = .installer) = [] := by
  refine ⟨rfl, rfl, rfl⟩

/-- C5. The env field of the working set can be nil: when the re-read of the record at the
end of processEnvConfig finds no record and reports no error, processEnvConfig returns a
working set without an env, and no error. -/
theorem processEnvConfig_loses_env :
    (processEnvConfig lostRecordManager env0 (some rd0) []).1
      = ⟨false, some { env := none, rc := some rc0 }, .nil⟩ := by
  rfl

/-- C6, as stated, fails at four concrete runs. A successful delete emits no terminal
notification and no terminal commit status; a create whose installation fails with a chart
error that names a failed deployment sends two Failure notifications (the report link, then the
failure itself); a create that cannot generate its record returns before any terminal effect;
a create without a notifier factory publishes its commit status and sends no notification. -/
theorem terminal_effects_counterexample :
    ((delete okManager rd0 0 []).1.err = .nil
        ∧ statuses (delete okManager rd0 0 []).2 = 0
        ∧ successes (delete okManager rd0 0 []).2 + failures (delete okManager rd0 0 []).2 = 0)
      ∧ (statuses (create reportManager rd0 []).2 = 1
        ∧ successes (create reportManager rd0 []).2 = 0
        ∧ failures (create reportManager rd0 []).2 = 2)
      ∧ ((create dbDownManager rd0 []).1.err ≠ .nil
        ∧ statuses (create dbDownManager rd0 []).2 = 0
        ∧ successes (create dbDownManager rd0 []).2 + failures (create dbDownManager rd0 []).2 = 0)
      ∧ (statuses (create muteManager rd0 []).2 = 1
        ∧ successes (create muteManager rd0 []).2 + failures (create muteManager rd0 []).2 = 0) := by
  refine ⟨⟨?_, ?_, ?_⟩, ⟨?_, ?_, ?_⟩, ⟨?_, ?_, ?_⟩, ?_, ?_⟩ <;> decide

/-- C6, amended. From every history, create and update emit at most one terminal commit
status, at most one Success notification and at most two Failure notifications, never a
Success together with a Failure, and exactly one terminal commit status once the record of the
environment is in hand (create: generateNewEnv returned one; update: one extant record);
delete emits no terminal commit status, no Success notification and at most one Failure
notification. When moreover the notifier factory is set and the data layer answers no read of
a record with neither a record nor an error, then with the record in hand create and update
send exactly one Success notification and no Failure notification if they return no error, and
no Success notification and at least one Failure notification if they return an error, and
delete sends exactly one Failure notification if it returns an error and none otherwise. A
create that gets no record emits no terminal effect at all. -/
theorem terminal_effects_bounds (m : Manager) (rd : RepoRevisionData) (reason : QADestroyReason)
    (h : Hist) :
    (statuses (create m rd h).2 ≤ 1 ∧ successes (create m rd h).2 ≤ 1
        ∧ failures (create m rd h).2 ≤ 2
        ∧ (successes (create m rd h).2 = 0 ∨ failures (create m rd h).2 = 0))
      ∧ (statuses (update m rd h).2 ≤ 1 ∧ successes (update m rd h).2 ≤ 1
        ∧ failures (update m rd h).2 ≤ 2
        ∧ (successes (update m rd h).2 = 0 ∨ failures (update m rd h).2 = 0))
      ∧ (statuses (delete m rd reason h).2 = 0 ∧ successes (delete m rd reason h).2 = 0
        ∧ failures (delete m rd reason h).2 ≤ 1)
      ∧ (∀ env, (generateNewEnv m rd h).1 = (some env, .nil) → statuses (create m rd h).2 = 1)
      ∧ (∀ env, m.DL.GetExtantQAEnvironments h rd.Repo rd.PullRequest = ([env], .nil) →
          statuses (update m rd h).2 = 1)
      ∧ (m.NF.isSome = true →
          (∀ hh name, (m.DL.GetQAEnvironment hh name).2 = .nil →
            (m.DL.GetQAEnvironment hh name).1 ≠ none) →
          (∀ env, (generateNewEnv m rd h).1 = (some env, .nil) →
            ((create m rd h).1.err = .nil →
              successes (create m rd h).2 = 1 ∧ failures (create m rd h).2 = 0)
            ∧ ((create m rd h).1.err ≠ .nil →
              successes (create m rd h).2 = 0 ∧ 1 ≤ failures (create m rd h).2))
          ∧ (∀ env, m.DL.GetExtantQAEnvironments h rd.Repo rd.PullRequest = ([env], .nil) →
            ((update m rd h).1.err = .nil →
              successes (update m rd h).2 = 1 ∧ failures (update m rd h).2 = 0)
            ∧ ((update m rd h).1.err ≠ .nil →
              successes (update m rd h).2 = 0 ∧ 1 ≤ failures (update m rd h).2)
            ∧ ((delete m rd reason h).1.err = .nil → failures (delete m rd reason h).2 = 0)
            ∧ ((delete m rd reason h).1.err ≠ .nil → failures (delete m rd reason h).2 = 1)))
      ∧ ((generateNewEnv m rd h).1.2 ≠ .nil ∨ (generateNewEnv m rd h).1.1 = none →
          statuses (create m rd h).2 = 0 ∧ successes (create m rd h).2 = 0
            ∧ failures (create m rd h).2 = 0) :=
  ⟨create_tally m rd h, update_tally m rd h, delete_tally m rd reason h,
    fun env hg => create_statuses m rd h env hg, fun env hone => update_statuses m rd h env hone,
    fun hNF hread =>
      ⟨fun env hg =>
        ⟨(create_exact m rd h env hNF hread hg).2.1,
          fun herr => ⟨((create_exact m rd h env hNF hread hg).2.2 herr).1,
            ((create_exact m rd h env hNF hread hg).2.2 herr).2.1⟩⟩,
      fun env hone =>
        ⟨(update_exact m rd h env hNF hread hone).2.1,
          fun herr => ⟨((update_exact m rd h env hNF hread hone).2.2 herr).1,
            ((update_exact m rd h env hNF hread hone).2.2 herr).2.1⟩,
          (delete_exact m rd reason h env hNF hread hone).2.2.1,
          (delete_exact m rd reason h env hNF hread hone).2.2.2⟩⟩,
    create_without_record m rd h⟩

/-- The amended C6 at two managers. Where every collaborator succeeds the notifier factory is
set, every read of a record is answered with a record, and create has its record in hand and
returns no error: it sends exactly one Success notification and no Failure notification. Where
the installation fails with a chart error, create returns an error and sends no Success
notification and at least one Failure notification. -/
theorem terminal_effects_bounds_witness :
    (okManager.NF.isSome = true
        ∧ (generateNewEnv okManager rd0 []).1 = (some env0, .nil)
        ∧ (create okManager rd0 []).1.err = .nil
        ∧ successes (create okManager rd0 []).2 = 1 ∧ failures (create okManager rd0 []).2 = 0)
      ∧ ((create reportManager rd0 []).1.err ≠ .nil
        ∧ successes (create reportManager rd0 []).2 = 0
        ∧ 1 ≤ failures (create reportManager rd0 []).2) :=
  ⟨⟨rfl, by decide, by decide,
      ((terminal_effects_bounds okManager rd0 0 []).2.2.2.2.2.1 rfl
        (fun _ _ _ hnone => Option.noConfusion hnone)).1 env0 (by decide) |>.1 (by decide)⟩,
    by decide,
    ((terminal_effects_bounds reportManager rd0 0 []).2.2.2.2.2.1 rfl
      (fun _ _ _ hnone => Option.noConfusion hnone)).1 env0 (by decide) |>.2 (by decide)⟩

/-- C7. The scratch directory outlives create when the chart fetcher fails: fetchCharts
returns no directory with the error, create returns before it registers the removal, and
the directory that tempDir made is still there (it is removed when the fetcher and the
installer succeed). -/
theorem create_leaks_scratch :
    (create fetchFailsManager rd0 []).1
        = ⟨false, "", Wrap (Wrap (UserError (.fundamental "chart not found"))
            "error fetching charts") "error fetching charts"⟩
      ∧ Effect.tempDir "env-0" "/tmp/env-0" .nil ∈ (create fetchFailsManager rd0 []).2
      ∧ scratchDirs (create fetchFailsManager rd0 []).2 = ["/tmp/env-0"]
      ∧ scratchDirs (create okManager rd0 []).2 = [] := by
  refine ⟨rfl, by decide, rfl, rfl⟩

/-- C8. For each of create, update and delete: a run in which the pre-flight check of the
operation finds the context cancelled returns the error
"context was cancelled in <op>" tagged user (a user error and not a system error), and makes no
call of the chart fetcher and no call of the chart installer. -/
theorem preflight_cancellation (m : Manager) (rd : RepoRevisionData) (reason : QADestroyReason)
    (h : Hist) :
    (Effect.Done .create true ∈ (create m rd h).2 →
        (create m rd h).1 = ⟨false, "", .userError (.fundamental "context was cancelled in create")⟩
        ∧ IsUserError (create m rd h).1.err = true ∧ IsSystemError (create m rd h).1.err = false
        ∧ ∀ e ∈ (create m rd h).2, e.kind ≠ .fetch ∧ e.kind ≠ .installer)
      ∧ (Effect.Done .update true ∈ (update m rd h).2 →
        (update m rd h).1 = ⟨false, "", .userError (.fundamental "context was cancelled in update")⟩
        ∧ IsUserError (update m rd h).1.err = true ∧ IsSystemError (update m rd h).1.err = false
        ∧ ∀ e ∈ (update m rd h).2, e.kind ≠ .fetch ∧ e.kind ≠ .installer)
      ∧ (Effect.Done .delete true ∈ (delete m rd reason h).2 →
        (delete m rd reason h).1
          = ⟨false, "", .userError (.fundamental "context was cancelled in delete")⟩
        ∧ IsUserError (delete m rd reason h).1.err = true
        ∧ IsSystemError (delete m rd reason h).1.err = false
        ∧ ∀ e ∈ (delete m rd reason h).2, e.kind ≠ .fetch ∧ e.kind ≠ .installer) := by
  refine ⟨fun hd => ?_, fun hd => ?_, fun hd => ?_⟩
  · obtain ⟨hr, hfree⟩ := create_aborts m rd h hd
    refine ⟨hr, ?_, ?_, fun e he => isChartCall_false e (hfree e he)⟩ <;> rw [hr] <;> rfl
  · obtain ⟨hr, hfree⟩ := update_aborts m rd h hd
    refine ⟨hr, ?_, ?_, fun e he => isChartCall_false e (hfree e he)⟩ <;> rw [hr] <;> rfl
  · obtain ⟨hr, hfree⟩ := delete_aborts m rd reason h hd
    refine ⟨hr, ?_, ?_, fun e he => isChartCall_false e (hfree e he)⟩ <;> rw [hr] <;> rfl

/-- C8 under a context that is already cancelled: create, update and delete each reach their
check, and each returns its cancellation error. -/
theorem preflight_cancellation_witness :
    (Effect.Done .create true ∈ (create cancelledManager rd0 []).2
        ∧ (create cancelledManager rd0 []).1.err
          = .userError (.fundamental "context was cancelled in create"))
      ∧ (Effect.Done .update true ∈ (update cancelledManager rd0 []).2
        ∧ (update cancelledManager rd0 []).1.err
          = .userError (.fundamental "context was cancelled in update"))
      ∧ (Effect.Done .delete true ∈ (delete cancelledManager rd0 0 []).2
        ∧ (delete cancelledManager rd0 0 []).1.err
          = .userError (.fundamental "context was cancelled in delete")) :=
  ⟨⟨by decide, congrArg Result.err ((preflight_cancellation cancelledManager rd0 0 []).1 (by decide)).1⟩,
    ⟨by decide, congrArg Result.err ((preflight_cancellation cancelledManager rd0 0 []).2.1 (by decide)).1⟩,
    ⟨by decide, congrArg Result.err ((preflight_cancellation cancelledManager rd0 0 []).2.2 (by decide)).1⟩⟩

/-- C9. handleMetahelmError does not return for every chart error with a failed resource:
when the working set has lost its record (the re-read of processEnvConfig found none and
reported no error), it dereferences the nil record and panics. create gets there: the
installation fails with a chart error that names a failed deployment, and create panics instead
of returning the classified error. -/
theorem handleMetahelmError_panics_without_record :
    (handleMetahelmError reportManager (some { env := none, rc := some rc0 })
        (.ChartError (.fundamental "timed out") ["web"] [] []) "error installing charts" []).1
        = ⟨true, some { env := none, rc := some rc0 }, .nil⟩
      ∧ (create lostReportManager rd0 []).2.any Effect.isInstallFailure = true
      ∧ (create lostReportManager rd0 []).1.panicked = true := by
  refine ⟨rfl, by decide, by decide⟩

/-- C10. For a chart error without failed deployments, jobs and daemon sets,
handleMetahelmError returns the inner helm error tagged user (a user error and not a system
error, for a helm error that is not nil), keeps the working set and emits no effect at all:
no failure_reports metric, no rendering, no upload, no notification. -/
theorem handleMetahelmError_no_failed_resources (m : Manager) (env : Option newEnv)
    (helmError : GoError) (fd fj fs : List String) (msg : String) (h : Hist)
    (hnone : fd.length = 0 ∧ fj.length = 0 ∧ fs.length = 0) :
    handleMetahelmError m env (.ChartError helmError fd fj fs) msg h
        = (⟨false, env, UserError helmError⟩, [])
      ∧ (helmError ≠ .nil → UserError helmError = .userError helmError
          ∧ IsUserError (UserError helmError) = true
          ∧ IsSystemError (UserError helmError) = false) := by
  refine ⟨?_, fun hne => ?_⟩
  · unfold handleMetahelmError
    simp only [if_pos hnone, run_pure]
  · cases helmError <;> simp [UserError, IsUserError, IsSystemError] at hne ⊢

/-- C10 at a chart error that carries only a helm error, under the manager with a blob store
and a failure template: no effect, the helm error tagged user. -/
theorem handleMetahelmError_no_failed_resources_witness :
    handleMetahelmError reportManager (some { env := some env0, rc := none })
        (.ChartError (.fundamental "timed out") [] [] []) "error installing charts" []
      = (⟨false, some { env := some env0, rc := none }, .userError (.fundamental "timed out")⟩, []) :=
  (handleMetahelmError_no_failed_resources reportManager (some { env := some env0, rc := none })
    (.fundamental "timed out") [] [] [] "error installing charts" [] (by decide)).1

/-- C11. When GetExtantQAEnvironments returns no record and GetQAEnvironmentsByRepoAndPR
returns the records `envs` of the pair, delete returns no error, whatever the status writes
answer; its calls of SetQAEnvironmentStatus are, in order, one with the status Destroyed for
every record of `envs`; it makes no call of the chart installer and sends no notification; it
makes no other write to the data layer; so a record whose status is Destroyed before the run
has the status Destroyed after it. -/
theorem delete_no_extant (m : Manager) (rd : RepoRevisionData) (reason : QADestroyReason)
    (h : Hist) (envs : List QAEnvironment)
    (hnone : m.DL.GetExtantQAEnvironments h rd.Repo rd.PullRequest = ([], .nil))
    (hq : m.DL.GetQAEnvironmentsByRepoAndPR h rd.Repo rd.PullRequest = (envs, .nil)) :
    (delete m rd reason h).1 = ⟨false, "", .nil⟩
      ∧ (delete m rd reason h).2.filterMap Effect.statusWrite
        = envs.map (fun e => (e.Name, EnvironmentStatus.Destroyed))
      ∧ (∀ x ∈ (delete m rd reason h).2, x.kind ≠ .installer ∧ x.kind ≠ .notify)
      ∧ (∀ x ∈ (delete m rd reason h).2, x.kind = .dbWrite →
          ∃ name err, x = .SetQAEnvironmentStatus name .Destroyed err)
      ∧ (∀ tbl name, tbl name = .Destroyed →
          statusesAfter tbl (delete m rd reason h).2 name = .Destroyed) := by
  have hsteps := delete_none_steps m rd reason h envs hnone hq
  refine ⟨?_, ?_, fun x hx => ?_, fun x hx hk => ?_, fun tbl name h0 => ?_⟩
  · rw [delete_none_run m rd reason h envs hnone hq]
  · rw [delete_none_run m rd reason h envs hnone hq]
    simp [List.filterMap_append, Effect.statusWrite, (setAllDestroyed_steps m envs h).1]
  · rcases hsteps x hx with hk | ⟨name, err, rfl⟩
    · rcases hk with hk | hk | hk | hk <;> simp [hk]
    · simp [Effect.kind]
  · rcases hsteps x hx with hk2 | hk2
    · rcases hk2 with hk2 | hk2 | hk2 | hk2 <;> simp [hk2] at hk
    · exact hk2
  · refine statusesAfter_destroyed _ (fun x hx name2 st heq => ?_) tbl name h0
    rcases hsteps x hx with hk | ⟨name3, err, hk⟩
    · subst heq
      simp [Effect.kind] at hk
    · rw [heq] at hk
      injection hk with _ hst _
      

/-- C11 over a data layer whose two records of the pair are already Destroyed and whose status
writes all fail: delete asks for both writes and returns no error. -/
theorem delete_no_extant_witness :
    (delete staleManager rd0 0 []).1.err = .nil
      ∧ (delete staleManager rd0 0 []).2.filterMap Effect.statusWrite
        = [("env-0", .Destroyed), ("env-1", .Destroyed)] :=
  ⟨congrArg Result.err (delete_no_extant staleManager rd0 0 []
      [{ env0 with Status := .Destroyed }, { env1 with Status := .Destroyed }] rfl rfl).1,
    (delete_no_extant staleManager rd0 0 []
      [{ env0 with Status := .Destroyed }, { env1 with Status := .Destroyed }] rfl rfl).2.1⟩

/-- C12. When Lock returns an error, lockingOperation returns that error wrapped with
"error getting lock" and its effects are the lock_wait timing around the call of Lock: the
run does not depend on the body `f` and holds no Release. When Lock succeeds, the effects are
the lock_wait timing around Lock, the start of the operation timing, the effects of one run of
`f` (from the history extended by the lock), then log and metric effects only, and last one
Release; the result panics exactly when `f` does, and otherwise its error is the error of
`f`. -/
theorem lockingOperation_frame (m : Manager) (repo pr : String) (f : M BodyResult) (h : Hist) :
    (m.LP h repo pr ≠ .nil →
        lockingOperation m repo pr f h
          = (⟨false, .withMessage (m.LP h repo pr) "error getting lock"⟩,
            [.Timing .lock_wait repo, .Lock repo pr (m.LP h repo pr),
              .TimingEnd .lock_wait [("success", false)]]))
      ∧ (m.LP h repo pr = .nil →
        (∃ post, (lockingOperation m repo pr f h).2
            = [.Timing .lock_wait repo, .Lock repo pr .nil,
                .TimingEnd .lock_wait [("success", true)], .Timing .operation repo]
              ++ (f (h ++ [.Lock repo pr .nil])).2 ++ post ++ [.Release repo pr]
          ∧ ∀ e ∈ post, e.kind = .log ∨ e.kind = .metric)
        ∧ (lockingOperation m repo pr f h).2.count (.Release repo pr)
          = (f (h ++ [.Lock repo pr .nil])).2.count (.Release repo pr) + 1
        ∧ (lockingOperation m repo pr f h).1.panicked = (f (h ++ [.Lock repo pr .nil])).1.panicked
        ∧ ((f (h ++ [.Lock repo pr .nil])).1.panicked = false →
          (lockingOperation m repo pr f h).1.err = (f (h ++ [.Lock repo pr .nil])).1.err)) := by
  refine ⟨fun hlock => lockingOperation_refused m repo pr f h hlock, fun hlock => ?_⟩
  rw [lockingOperation_granted m repo pr f h hlock]
  refine ⟨⟨_, rfl, ?_⟩, ?_, rfl, fun hp => ?_⟩
  · intro e he
    split at he
    · simp at he
    · split at he <;> simp at he
      · rcases he with rfl | rfl <;> simp [Effect.kind]
      · subst he
        simp [Effect.kind]
  · by_cases hp : (f (h ++ [.Lock repo pr .nil])).1.panicked = true
    · simp [hp, List.count_cons, List.count_append]
    · by_cases he : (f (h ++ [.Lock repo pr .nil])).1.err = .nil
      · simp [hp, he, List.count_cons, List.count_append]
      · simp [hp, he, List.count_cons, List.count_append]
  · simp [hp]

/-- C12 at Delete: under a lock provider that refuses, Delete returns the wrapped lock error
after three effects; under the manager all of whose collaborators succeed, the effects of
Delete end with the one Release. -/
theorem lockingOperation_frame_witness :
    Delete lockFailsManager rd0 0 []
        = (⟨false, .withMessage (.fundamental "lock unavailable") "error getting lock"⟩,
          [.Timing .lock_wait "o/r", .Lock "o/r" "7" (.fundamental "lock unavailable"),
            .TimingEnd .lock_wait [("success", false)]])
      ∧ (Delete okManager rd0 0 []).2.count (.Release "o/r" "7") = 1 :=
  ⟨(lockingOperation_frame lockFailsManager "o/r" "7" _ []).1 (by decide),
    ((lockingOperation_frame okManager "o/r" "7" _ []).2 rfl).2.1⟩

/-- C13. In a run of create in which generateNewEnv returns the record `env` and the config
getter answers with an error `gerr`, create returns `gerr` tagged user under the messages of
getRepoConfig, processEnvConfig and create, which is a user error and not a system error; it
asks the data layer to set the status of `env` to Failure; and it makes no call of the chart
fetcher and no call of the chart installer. -/
theorem create_config_failure (m : Manager) (rd : RepoRevisionData) (h : Hist)
    (env : QAEnvironment) (rc : Option RepoConfig) (gerr : GoError)
    (hg : (generateNewEnv m rd h).1 = (some env, .nil))
    (hget : Effect.Get rd rc gerr ∈ (create m rd h).2) (hne : gerr ≠ .nil) :
    (create m rd h).1 = ⟨false, "", .withMessage (.withMessage (.withMessage (.userError gerr)
        "error getting metadata") "error validating environment config")
        "error processing environment config"⟩
      ∧ IsUserError (create m rd h).1.err = true
      ∧ IsSystemError (create m rd h).1.err = false
      ∧ (∃ werr, Effect.SetQAEnvironmentStatus env.Name .Failure werr ∈ (create m rd h).2)
      ∧ ∀ e ∈ (create m rd h).2, e.kind ≠ .fetch ∧ e.kind ≠ .installer := by
  have hs := create_split m rd h env hg
  dsimp only at hs
  generalize h ++ (generateNewEnv m rd h).2.filter Effect.visible = h1 at hs
  generalize h1 ++ (setloggername m env.Name h1).2.filter Effect.visible = h2 at hs
  rw [hs] at hget ⊢
  have hmain : ∃ e ∈ (createMain m rd env h2).2, Effect.isConfigError gerr e = true := by
    refine ⟨_, ?_, (by simp [Effect.isConfigError] : Effect.isConfigError gerr (.Get rd rc gerr) = true)⟩
    simp only [List.mem_append, List.mem_cons, List.mem_singleton, List.not_mem_nil,
      or_false, reduceCtorEq, false_or] at hget
    rcases hget with (((hget | hget) | hget) | hget)
    · exact absurd hget (isConfigCall_false_of_mem (generateNewEnv_noconfig m rd) _ _ _ _)
    · exact absurd hget (isConfigCall_false_of_mem (setloggername_noconfig m _) _ _ _ _)
    · exact hget
    · exact absurd hget (isConfigCall_false_of_mem (createDeferred_noconfig m rd env _ _) _ _ _ _)
  obtain ⟨hres, hfree⟩ := createMain_upon m rd env gerr hne h2 hmain
  have hset := createDeferred_sets_failure m rd env (createMain m rd env h2).1.1
    (createMain m rd env h2).1.2.err (h2 ++ (createMain m rd env h2).2.filter Effect.visible)
    (by simp [hres])
  refine ⟨?_, ?_, ?_, ⟨_, List.mem_append_left _ (List.mem_append_right _ hset)⟩,
    fun e he => ?_⟩
  · simp [hres]
  · simp [hres, IsUserError]
  · simp [hres, IsSystemError]
  · apply isChartCall_false
    simp only [List.mem_append, List.mem_cons, List.mem_singleton, List.not_mem_nil,
      or_false] at he
    rcases he with ((((he | he) | he) | he) | he) | he
    · rcases he with rfl | rfl <;> simp [Effect.isChartCall, Effect.kind]
    · exact never_isChartCall_of_quiet (generateNewEnv_emits m rd) _ e he
    · exact never_isChartCall_of_quiet (setloggername_emits m _) _ e he
    · exact hfree e he
    · exact never_isChartCall_of_quiet (createDeferred_emits m rd env _ _) _ e he
    · rcases he with rfl | rfl <;> simp [Effect.isChartCall, Effect.kind]

/-- C13 over a config getter that fails: create reaches the getter and returns its error as a
user error. -/
theorem create_config_failure_witness :
    Effect.Get rd0 none (.fundamental "acyl.yml not found") ∈ (create configFailsManager rd0 []).2
      ∧ IsUserError (create configFailsManager rd0 []).1.err = true
      ∧ IsSystemError (create configFailsManager rd0 []).1.err = false :=
  ⟨by decide,
    (create_config_failure configFailsManager rd0 [] env0 none (.fundamental "acyl.yml not found")
      (by decide) (by decide) (by decide)).2.1,
    (create_config_failure configFailsManager rd0 [] env0 none (.fundamental "acyl.yml not found")
      (by decide) (by decide) (by decide)).2.2.1⟩

/-- C15, as stated, fails: for a chart error that names no failed resource and carries no
helm error, handleMetahelmError returns the nil error; create then returns no error, sends its
Success notification and sends no Failure notification, and update returns no error, although
BuildAndInstallCharts and BuildAndUpgradeCharts failed. And where the working set has lost its
record, handleMetahelmError panics on a chart error that names a failed deployment: it returns
nothing, and neither does the create that called it. -/
theorem handleMetahelmError_swallows :
    (handleMetahelmError bareChartErrorManager (some { env := some env0, rc := some rc0 })
        (.ChartError .nil [] [] []) "error installing charts" []).1.err = .nil
      ∧ ((create bareChartErrorManager rd0 []).2.any Effect.isInstallFailure = true
        ∧ (create bareChartErrorManager rd0 []).1.err = .nil
        ∧ successes (create bareChartErrorManager rd0 []).2 = 1
        ∧ failures (create bareChartErrorManager rd0 []).2 = 0)
      ∧ ((update bareChartErrorManager rd0 []).2.any Effect.isInstallFailure = true
        ∧ (update bareChartErrorManager rd0 []).1.err = .nil)
      ∧ ((handleMetahelmError reportManager (some { env := none, rc := some rc0 })
          (.ChartError (.fundamental "timed out") ["web"] [] []) "error installing charts" []).1.panicked
          = true
        ∧ (create lostReportManager rd0 []).2.any Effect.isKeptFailure = true
        ∧ (create lostReportManager rd0 []).1.panicked = true) := by
  refine ⟨by decide, ⟨by decide, by decide, by decide, by decide⟩, ⟨by decide, by decide⟩,
    rfl, by decide, by decide⟩

/-- C15, amended. For every error of the chart installer that is not nil and is not a chart
error without failed resource and without helm error, and every message, a run of
handleMetahelmError that does not panic returns an error that is not nil; and a run of create
or of update that does not panic and in which BuildAndInstallCharts, BuildAndUpgradeCharts or
BuildAndInstallChartsIntoExisting returned such an error returns an error that is not nil. -/
theorem chart_failure_kept (m : Manager) (rd : RepoRevisionData) (env : Option newEnv)
    (err : GoError) (msg : String) (h : Hist) :
    (err ≠ .nil → err.isBareChartError = false →
        (handleMetahelmError m env err msg h).1.panicked = false →
        (handleMetahelmError m env err msg h).1.err ≠ .nil)
      ∧ ((∃ e ∈ (create m rd h).2, e.isKeptFailure = true) →
        (create m rd h).1.panicked = false → (create m rd h).1.err ≠ .nil)
      ∧ ((∃ e ∈ (update m rd h).2, e.isKeptFailure = true) →
        (update m rd h).1.panicked = false → (update m rd h).1.err ≠ .nil) :=
  ⟨fun herr hb hp => handleMetahelmError_not_nil m env err msg herr
      (not_bare_of_isBareChartError err hb) h hp,
    fun hmem => create_keeps m rd h hmem, fun hmem => update_keeps m rd h hmem⟩

/-- The amended C15 at a chart installer whose installation fails with a chart error that
names a failed deployment: the call is in the run of create, and create returns an error. -/
theorem chart_failure_kept_witness :
    (create reportManager rd0 []).2.any Effect.isKeptFailure = true
      ∧ (create reportManager rd0 []).1.err ≠ .nil :=
  ⟨by decide,
    (chart_failure_kept reportManager rd0 none .nil "" []).2.1
      (List.any_eq_true.mp (by decide)) (by decide)⟩

end Acyl
